import Mathlib

/-!
# MultiChainWallet (src/main.js): secret lifecycle, balance report, token catalog

A shallow embedding of the wallet class of `src/main.js`.

* `localStorage` is a map from keys to optional strings (`getItem` returns `null` for a
  missing key, here `none`).
* The browser and library collaborators are parameters: the CryptoJS AES cipher (`Cipher`),
  the WDK account provider (`Provider`), the balance queries of the accounts (`Balances`),
  the price response, the answer of `prompt` and the values of the DOM input fields.
* Numbers are doubles in the source. Their arithmetic is a parameter too (`Display`); the
  model fixes only what does not depend on rounding: which text is formatted from which, and
  what `NaN` and `0` do to a product.
* What the user gets to see is recorded: the list of `showToast` calls, the number of
  `prompt` calls, the arguments of the `initializeWallet` calls, the texts written to the
  clipboard, and for `loadTokens` the rows it shows and the price requests it sends.
-/

namespace MultiChainWallet

/-! ## JavaScript values -/

/-- JavaScript truthiness of a value that is `null` (`none`) or a string: only a non-empty
string is truthy. -/
def truthy : Option String → Bool
  | none => false
  | some v => v != ""

/-- The string held by a value that has passed a truthiness test. -/
def strOf (v : Option String) : String := v.getD ""

/-- Number of UTF-16 code units of a character (what `.length` counts). -/
def utf16Units (ch : Char) : Nat := if ch.toNat < 65536 then 1 else 2

/-- JavaScript `s.length`: the number of UTF-16 code units. -/
def jsLength (s : String) : Nat := (s.data.map utf16Units).sum

/-- The code points `String.prototype.trim` strips (WhiteSpace and LineTerminator). -/
def isJsWhiteSpace (ch : Char) : Bool :=
  let n := ch.toNat
  n == 9 || n == 10 || n == 11 || n == 12 || n == 13 || n == 32 || n == 160 || n == 5760 ||
    (8192 ≤ n && n ≤ 8202) || n == 8232 || n == 8233 || n == 8239 || n == 8287 ||
    n == 12288 || n == 65279

/-- JavaScript `s.trim()`. -/
def jsTrim (s : String) : String :=
  String.mk ((s.data.dropWhile isJsWhiteSpace).reverse.dropWhile isJsWhiteSpace).reverse

/-! ## localStorage -/

/-- The `localStorage` key/value surface. -/
abbrev Storage := String → Option String

namespace Storage

/-- A storage with no key. -/
def empty : Storage := fun _ => none

/-- Models `localStorage.getItem(key)`. -/
def getItem (st : Storage) (key : String) : Option String := st key

/-- Models `localStorage.setItem(key, value)`. -/
def setItem (st : Storage) (key value : String) : Storage :=
  fun k => if k = key then some value else st k

/-- Models `localStorage.removeItem(key)`. -/
def removeItem (st : Storage) (key : String) : Storage :=
  fun k => if k = key then none else st k

end Storage

/-- The field `this.encryptionPasswordKey`: "not the password itself, just flag". -/
def encryptionPasswordKey : String := "wallet_enc_password"

/-- Key of the encrypted secret record. -/
def keyEncrypted : String := "wallet_mnemonic_encrypted"

/-- Key of the plaintext secret record. -/
def keyPlain : String := "wallet_mnemonic_plain"

/-- Key under which `saveSettings` remembers the password. -/
def keyPass : String := "wallet_enc_pass_plain"

/-- Key of the persisted custom token catalog. -/
def keyCustomTokens : String := "custom_tokens"

/-! ## Collaborators -/

/-- The CryptoJS cipher as the wallet uses it.
`encrypt m p` is `CryptoJS.AES.encrypt(m, p).toString()`;
`decrypt ct p` is `CryptoJS.AES.decrypt(ct, p).toString(CryptoJS.enc.Utf8)`, with `none` when
the call throws. The salt CryptoJS draws is part of the function: what is proved for every
`Cipher` holds for whichever ciphertext a call returned. -/
structure Cipher where
  encrypt : String → String → String
  decrypt : String → String → Option String

/-- An account handle returned by the WDK for a chain. -/
structure Account where
  chain : String
  seed : String
  deriving DecidableEq, Repr

/-- The WDK as `initializeWallet` uses it.
`construct m` tells whether `new WDK(m)` returns (`true`) or throws; `register m` whether
the `registerWallet` calls on the instance built from `m` all return; `getAccount m chain` is
`wdk.getAccount(chain, 0)` on that instance, with `none` when the call rejects. -/
structure Provider where
  construct : String → Bool
  register : String → Bool
  getAccount : String → String → Option Account

/-! ## The wallet -/

/-- A call `showToast(message, type)`. -/
structure Toast where
  message : String
  type : String
  deriving DecidableEq, Repr

/-- The value of the `decimals` field of a token: an integer, `NaN` (what `parseInt` gives
for an empty or non-numeric field) or `null` (what JSON makes of `NaN`). -/
inductive Decimals where
  | number (n : Int)
  | nan
  | null
  deriving DecidableEq, Repr

/-- A token descriptor: an entry of `this.defaultTokens` (with a `coingeckoId`) or a
user-added token as `addCustomToken` builds it (without one, `none` for `undefined`). -/
structure Token where
  address : String
  symbol : String
  name : String
  decimals : Decimals
  coingeckoId : Option String
  deriving DecidableEq, Repr

/-- The state of the page: `localStorage`, the fields of the `MultiChainWallet` object and
the trace of what was shown to the user. -/
structure App where
  /-- The `localStorage` of the page. -/
  storage : Storage
  /-- The field `this.wdk`: `none` for `null`, else the seed the instance was built from. -/
  wdk : Option String
  /-- The field `this.accounts`, as the list of its entries. -/
  accounts : List (String × Account)
  /-- The field `this.customTokens`, as the list of its entries. -/
  customTokens : List (String × List Token)
  /-- The calls of `showToast`, oldest first. -/
  toasts : List Toast
  /-- The number of calls of `prompt`. -/
  prompts : Nat
  /-- The arguments of the calls of `initializeWallet`, oldest first. -/
  initCalls : List String
  /-- The field `this.currentChain`. -/
  currentChain : String
  /-- The texts passed to `navigator.clipboard.writeText`, oldest first. -/
  clipboard : List String

/-- The page right after the constructor assigned the fields, on an empty `localStorage`. -/
def App.fresh : App :=
  { storage := Storage.empty, wdk := none, accounts := [], customTokens := [],
    toasts := [], prompts := 0, initCalls := [], currentChain := "ethereum",
    clipboard := [] }

/-- Models `showToast(message, type)`. -/
def showToast (message type : String) (s : App) : App :=
  { s with toasts := s.toasts ++ [⟨message, type⟩] }

/-- The keys of `this.chainConfigs`, in insertion order. -/
def chainNames : List String := ["ethereum", "polygon", "arbitrum", "tron", "bitcoin"]

/-- The assignment `obj[key] = value` on an object held as a list of entries. -/
def assign {α : Type} (obj : List (String × α)) (key : String) (value : α) :
    List (String × α) :=
  if obj.any (fun e => e.1 == key) then
    obj.map (fun e => if e.1 == key then (key, value) else e)
  else obj ++ [(key, value)]

/-- The loop `for (const chain of Object.keys(this.chainConfigs))` of `initializeWallet`:
the accounts after it and whether it ran to its end (`false`: a `getAccount` rejected). -/
def deriveAccounts (pr : Provider) (mnemonic : String) :
    List String → List (String × Account) → List (String × Account) × Bool
  | [], accounts => (accounts, true)
  | chain :: rest, accounts =>
    match pr.getAccount mnemonic chain with
    | some a => deriveAccounts pr mnemonic rest (assign accounts chain a)
    | none => (accounts, false)

/-- Models `initializeWallet(mnemonic)`. The `try` block builds the WDK instance, assigns it
to `this.wdk`, registers the chains and derives one account per chain; whatever throws on
the way leaves what was assigned before it. `loadWalletData` catches its own errors. -/
def initializeWallet (pr : Provider) (mnemonic : String) (s : App) : App :=
  let s := { s with initCalls := s.initCalls ++ [mnemonic] }
  if pr.construct mnemonic then
    let s := { s with wdk := some mnemonic }
    if pr.register mnemonic then
      let r := deriveAccounts pr mnemonic chainNames s.accounts
      let s := { s with accounts := r.1 }
      if r.2 then showToast "Wallet loaded successfully" "success" s
      else showToast "Failed to initialize wallet" "error" s
    else showToast "Failed to initialize wallet" "error" s
  else showToast "Failed to initialize wallet" "error" s

/-- The branch `if (savedMnemonicPlain)` that ends `checkExistingWallet`. -/
def plainBranch (pr : Provider) (savedMnemonicPlain : Option String) (s : App) : App :=
  if truthy savedMnemonicPlain then
    initializeWallet pr (strOf savedMnemonicPlain)
      (showToast
        "Plaintext mnemonic found in storage. Please set a password in Settings to encrypt it."
        "warning" s)
  else s

/-- The block `if (savedMnemonicEncrypted && !passwdFlag)` of `checkExistingWallet`:
`some` state when it returns from the function, `none` when control falls through. -/
def emptyPasswordBranch (c : Cipher) (pr : Provider)
    (savedMnemonicEncrypted passwdFlag : Option String) (s : App) : Option App :=
  if truthy savedMnemonicEncrypted && !truthy passwdFlag then
    match c.decrypt (strOf savedMnemonicEncrypted) "" with
    | some dec => if truthy (some dec) then some (initializeWallet pr dec s) else none
    | none => none
  else none

/-- Models `checkExistingWallet()`; `answer` is what `prompt` returns when it is called
(`none` for a cancelled dialog). -/
def checkExistingWallet (c : Cipher) (pr : Provider) (answer : Option String) (s : App) :
    App :=
  let savedMnemonicEncrypted := s.storage.getItem keyEncrypted
  let savedMnemonicPlain := s.storage.getItem keyPlain
  let passwdFlag := s.storage.getItem encryptionPasswordKey
  if truthy savedMnemonicEncrypted && truthy passwdFlag then
    let s := { s with prompts := s.prompts + 1 }
    if !truthy answer then
      showToast "Wallet locked. Please enter password in Settings to load." "error" s
    else
      match c.decrypt (strOf savedMnemonicEncrypted) (strOf answer) with
      | some dec =>
        if !truthy (some dec) then
          showToast "Invalid password - cannot unlock wallet" "error" s
        else initializeWallet pr dec s
      | none => showToast "Invalid password - cannot unlock wallet" "error" s
  else
    match emptyPasswordBranch c pr savedMnemonicEncrypted passwdFlag s with
    | some s' => s'
    | none => plainBranch pr savedMnemonicPlain s

/-- Models `confirmMnemonic()`; `currentMnemonic` is the value of `this.currentMnemonic`, the
phrase `createWallet` generated and displayed in the modal this button belongs to. -/
def confirmMnemonic (c : Cipher) (pr : Provider) (currentMnemonic : String) (s : App) : App :=
  let pwd := s.storage.getItem keyPass
  let s :=
    if truthy pwd then
      let ciphertext := c.encrypt currentMnemonic (strOf pwd)
      { s with storage :=
          ((s.storage.setItem keyEncrypted ciphertext).setItem encryptionPasswordKey
            "1").removeItem keyPlain }
    else
      showToast "Consider setting a password in Settings to encrypt your mnemonic." "warning"
        { s with storage := s.storage.setItem keyPlain currentMnemonic }
  initializeWallet pr currentMnemonic s

/-- Models `importWallet()`; `input` is the value of the field `import-mnemonic-input`. -/
def importWallet (c : Cipher) (pr : Provider) (input : String) (s : App) : App :=
  let mnemonic := jsTrim input
  if !truthy (some mnemonic) then showToast "Please enter a mnemonic phrase" "error" s
  else
    let pwd := s.storage.getItem keyPass
    let s :=
      if truthy pwd then
        let ciphertext := c.encrypt mnemonic (strOf pwd)
        { s with storage :=
            ((s.storage.setItem keyEncrypted ciphertext).setItem encryptionPasswordKey
              "1").removeItem keyPlain }
      else { s with storage := s.storage.setItem keyPlain mnemonic }
    initializeWallet pr mnemonic s

/-- Models `saveSettings()`; `pwd` is the value of the field `settings-password`. -/
def saveSettings (c : Cipher) (pwd : String) (s : App) : App :=
  if truthy (some pwd) && decide (jsLength pwd < 6) then
    showToast "Password should be at least 6 characters" "error" s
  else if truthy (some pwd) then
    let st := (s.storage.setItem keyPass pwd).setItem encryptionPasswordKey "1"
    let plain := st.getItem keyPlain
    if truthy plain then
      let ciphertext := c.encrypt (strOf plain) pwd
      showToast "Mnemonic encrypted and saved" "success"
        { s with storage := (st.setItem keyEncrypted ciphertext).removeItem keyPlain }
    else
      showToast "Password saved locally. New mnemonics will be encrypted automatically."
        "success" { s with storage := st }
  else
    showToast "Password removed. Mnemonic will be stored plaintext if re-created." "warning"
      { s with storage := s.storage.removeItem keyPass }

/-- Models `logout()`. -/
def logout (s : App) : App :=
  showToast "Logged out locally. Your mnemonic removed from device storage." "success"
    { s with storage := (s.storage.removeItem keyEncrypted).removeItem keyPlain }

/-! ## Export -/

/-- Models `navigator.clipboard.writeText(text)`. -/
def writeText (text : String) (s : App) : App :=
  { s with clipboard := s.clipboard ++ [text] }

/-- Models `exportMnemonic()`. -/
def exportMnemonic (c : Cipher) (s : App) : App :=
  let enc := s.storage.getItem keyEncrypted
  let plain := s.storage.getItem keyPlain
  let pwd := s.storage.getItem keyPass
  if truthy enc && truthy pwd then
    match c.decrypt (strOf enc) (strOf pwd) with
    | some dec =>
      showToast "Mnemonic copied to clipboard (decrypted)." "success" (writeText dec s)
    | none => showToast "Failed to decrypt mnemonic. Check password in Settings." "error" s
  else if truthy plain then
    showToast "Mnemonic copied to clipboard." "success" (writeText (strOf plain) s)
  else showToast "No mnemonic found to export." "error" s

/-! ## Chains, tokens and the balance report -/

/-- An entry of `this.chainConfigs` (without the `manager` class). -/
structure ChainConfig where
  name : String
  currency : String
  provider : String
  decimals : Nat
  deriving DecidableEq, Repr

/-- The field `this.chainConfigs`. -/
def chainConfigs : List (String × ChainConfig) :=
  [("ethereum", ⟨"Ethereum", "ETH", "https://eth.drpc.org", 18⟩),
   ("polygon", ⟨"Polygon", "MATIC", "https://polygon-rpc.com", 18⟩),
   ("arbitrum", ⟨"Arbitrum", "ETH", "https://arb1.arbitrum.io/rpc", 18⟩),
   ("tron", ⟨"TRON", "TRX", "https://api.trongrid.io", 6⟩),
   ("bitcoin", ⟨"Bitcoin", "BTC", "https://blockstream.info/api", 8⟩)]

/-- The field `this.defaultTokens`. -/
def defaultTokens : List (String × List Token) :=
  [("ethereum",
     [⟨"0xdAC17F958D2ee523a2206206994597C13D831ec7", "USDT", "Tether USD", .number 6,
        some "tether"⟩,
      ⟨"0xA0b86991c6218b36c1d19D4a2e9Eb0cE3606eB48", "USDC", "USD Coin", .number 6,
        some "usd-coin"⟩,
      ⟨"0x6B175474E89094C44Da98b954EedeAC495271d0F", "DAI", "Dai Stablecoin", .number 18,
        some "dai"⟩]),
   ("polygon",
     [⟨"0xc2132D05D31c914a87C6611C10748AEb04B58e8F", "USDT", "Tether USD", .number 6,
        some "tether"⟩,
      ⟨"0x2791Bca1f2de4661ED88A30C99A7a9449Aa84174", "USDC", "USD Coin", .number 6,
        some "usd-coin"⟩])]

/-- The test `['ethereum', 'polygon', 'arbitrum'].includes(chain)`. -/
def isEvm (chain : String) : Bool := ["ethereum", "polygon", "arbitrum"].contains chain

/-- The balance queries of an account handle; `none` when the call rejects.
`getTokenBalance account n address` is the answer to the query for `address` that a report
makes after `n` earlier ones: two queries for one address need not end alike. -/
structure Balances where
  getBalance : Account → Option Nat
  getTokenBalance : Account → Nat → String → Option Nat

/-- The value of `priceMap[id]` in the parsed price response: no entry (`undefined`), an
object without a `usd` number, or an object with one, held as the numeral the response
writes. -/
inductive PriceEntry where
  | absent
  | withoutUsd
  | usd (price : String)
  deriving DecidableEq, Repr

/-- The parsed body of the price response: `null`, of which no property can be read, or a
value whose property `id` reads as `entries id`. -/
inductive PriceMap where
  | null
  | object (entries : String → PriceEntry)

/-- The value of `usdPrice` in a row: the literal `0`, `undefined`, or a number taken from
the response. -/
inductive UsdPrice where
  | zero
  | undefined
  | quoted (price : String)
  deriving DecidableEq, Repr

/-- The double-precision arithmetic of the rows, taken as given.
`balanceFormatted raw decimals digits` is
`(Number(raw) / Math.pow(10, decimals)).toFixed(digits)`, an output of `toFixed`;
`usdValue text price` is `(Number(text) * Number(price)).toFixed(2)` for a price that is a
number, given by its numeral. -/
structure Display where
  balanceFormatted : Nat → Decimals → Nat → String
  usdValue : String → String → String

/-- The outputs of `toFixed` that do not denote a finite number. -/
def nonFinite (text : String) : Bool :=
  text == "NaN" || text == "Infinity" || text == "-Infinity"

/-- The expression `(Number(balanceFormatted) * Number(usdPrice)).toFixed(2)`.
`Number(undefined)` is `NaN`, every product with `NaN` is `NaN` and `NaN.toFixed(2)` is
"NaN"; a finite number times `0` is zero, shown as "0.00", and a non-finite one times `0` is
`NaN`. -/
def usdValue (d : Display) (balanceFormatted : String) : UsdPrice → String
  | .undefined => "NaN"
  | .zero => if nonFinite balanceFormatted then "NaN" else "0.00"
  | .quoted price => d.usdValue balanceFormatted price

/-- An element appended to `tokens-list`: a token row with its balance and USD value, or the
native row of a non-EVM chain with its balance (`none`: the placeholder was left). -/
inductive Item where
  | token (symbol name balanceFormatted usdValue : String)
  | native (currency : String) (balance : Option String)
  deriving DecidableEq, Repr

/-- What one call of `loadTokens` does: the rows it appends, the id lists of the price
requests it sends, and whether it threw. -/
structure Report where
  items : List Item
  priceRequests : List (List String)
  threw : Bool
  deriving DecidableEq, Repr

/-- The list `allTokens` of `loadTokens`: `[...chainTokens, ...customChainTokens]`. -/
def allTokens (s : App) : List Token :=
  (List.lookup s.currentChain defaultTokens).getD []
    ++ (List.lookup s.currentChain s.customTokens).getD []

/-- The list `cgIds` of `loadTokens`. -/
def cgIds (tokens : List Token) : List String :=
  tokens.filterMap (fun t => if truthy t.coingeckoId then t.coingeckoId else none)

/-- The expression `[...new Set(ids)]`: a `Set` keeps the first insertion of each value. -/
def newSet (ids : List String) : List String :=
  ids.foldl (fun set id => if set.contains id then set else set ++ [id]) []

/-- The value of `usdPrice` for a token,
`token.coingeckoId && priceMap[token.coingeckoId] ? priceMap[token.coingeckoId].usd : 0`;
`none` when the read of `priceMap[token.coingeckoId]` throws, `priceMap` being `null`. -/
def usdPrice (priceMap : PriceMap) (token : Token) : Option UsdPrice :=
  if truthy token.coingeckoId then
    match priceMap with
    | .null => none
    | .object entries =>
      match entries (strOf token.coingeckoId) with
      | .absent => some .zero
      | .withoutUsd => some .undefined
      | .usd price => some (.quoted price)
  else some .zero

/-- The row of a token with a balance and a price. -/
def tokenRow (d : Display) (token : Token) (balance : Nat) (price : UsdPrice) : Item :=
  let balanceFormatted := d.balanceFormatted balance token.decimals 4
  .token token.symbol token.name balanceFormatted (usdValue d balanceFormatted price)

/-- The row built in the `try` block for a token whose balance was fetched; `none` when the
block throws before the row is appended. -/
def tokenItem (d : Display) (priceMap : PriceMap) (token : Token) (balance : Nat) :
    Option Item :=
  (usdPrice priceMap token).map (tokenRow d token balance)

/-- The call `account.getTokenBalance(token.address)` on `this.accounts[this.currentChain]`
for the token at position `n` of the list; `none` when it throws (no account for the chain,
or the query rejects). -/
def tokenBalance (bal : Balances) (s : App) (n : Nat) (token : Token) : Option Nat :=
  match List.lookup s.currentChain s.accounts with
  | none => none
  | some account => bal.getTokenBalance account n token.address

/-- The variable `priceMap` after the price request: the parsed response, or the initial
empty object when no request is sent or the request fails. -/
def fetchPriceMap (oracle : List String → Option PriceMap) (uniqueIds : List String) :
    PriceMap :=
  if uniqueIds.length != 0 then (oracle uniqueIds).getD (.object (fun _ => .absent))
  else .object (fun _ => .absent)

/-- Models `loadTokens()`. `oracle ids` is the parsed response of the price request for
`ids` (`none` when `fetch` or `res.json()` throws). The loop over the tokens asks for the
balance of each in turn and appends its row unless its `try` block throws. -/
def loadTokens (d : Display) (bal : Balances)
    (oracle : List String → Option PriceMap) (s : App) : Report :=
  if !isEvm s.currentChain then
    match List.lookup s.currentChain chainConfigs with
    | none => { items := [], priceRequests := [], threw := true }
    | some config =>
      let balance :=
        match List.lookup s.currentChain s.accounts with
        | none => none
        | some account => bal.getBalance account
      { items :=
          [.native config.currency
            (balance.map (fun b => d.balanceFormatted b (.number config.decimals) 6))],
        priceRequests := [], threw := false }
  else
    let uniqueIds := newSet (cgIds (allTokens s))
    let priceMap := fetchPriceMap oracle uniqueIds
    { items := (allTokens s).enum.filterMap
        (fun p => (tokenBalance bal s p.1 p.2).bind (tokenItem d priceMap p.2)),
      priceRequests := if uniqueIds.length != 0 then [uniqueIds] else [],
      threw := false }

/-! ## The custom token catalog -/

/-- The text `JSON.stringify` writes for a character of a string. -/
def jsonChar (ch : Char) : List Char :=
  let hex := "0123456789abcdef".data
  let n := ch.toNat
  if n == 34 then [Char.ofNat 92, Char.ofNat 34]
  else if n == 92 then [Char.ofNat 92, Char.ofNat 92]
  else if n == 8 then [Char.ofNat 92, 'b']
  else if n == 9 then [Char.ofNat 92, 't']
  else if n == 10 then [Char.ofNat 92, 'n']
  else if n == 12 then [Char.ofNat 92, 'f']
  else if n == 13 then [Char.ofNat 92, 'r']
  else if n < 32 then
    [Char.ofNat 92, 'u', '0', '0', hex.getD (n / 16) '0', hex.getD (n % 16) '0']
  else [ch]

/-- The text `JSON.stringify` writes for a string. -/
def jsonString (text : String) : String :=
  String.mk (Char.ofNat 34 :: (text.data.flatMap jsonChar ++ [Char.ofNat 34]))

/-- The text `JSON.stringify` writes for a `decimals` value: `NaN` becomes `null`. Integers
are written in decimal digits, which is what JavaScript prints for an integer of magnitude
up to 2^53 (a larger double is printed with fewer significant digits). -/
def jsonDecimals : Decimals → String
  | .number n => toString n
  | .nan => "null"
  | .null => "null"

/-- The members of an object or the elements of an array, joined with commas. -/
def jsonJoin (parts : List String) : String := ",".intercalate parts

/-- The text `JSON.stringify` writes for a token: the properties in the order
`addCustomToken` creates them, an `undefined` property being left out. -/
def jsonToken (t : Token) : String :=
  String.singleton (Char.ofNat 123) ++
    jsonJoin
      ([jsonString "address" ++ ":" ++ jsonString t.address,
        jsonString "symbol" ++ ":" ++ jsonString t.symbol,
        jsonString "name" ++ ":" ++ jsonString t.name,
        jsonString "decimals" ++ ":" ++ jsonDecimals t.decimals]
        ++ (match t.coingeckoId with
            | some id => [jsonString "coingeckoId" ++ ":" ++ jsonString id]
            | none => []))
    ++ String.singleton (Char.ofNat 125)

/-- Models `JSON.stringify(this.customTokens)`. -/
def stringify (customTokens : List (String × List Token)) : String :=
  String.singleton (Char.ofNat 123) ++
    jsonJoin (customTokens.map (fun e =>
      jsonString e.1 ++ ":[" ++ jsonJoin (e.2.map jsonToken) ++ "]"))
    ++ String.singleton (Char.ofNat 125)

/-- Models `saveCustomTokens()`. -/
def saveCustomTokens (s : App) : App :=
  { s with storage := s.storage.setItem keyCustomTokens (stringify s.customTokens) }

/-- Models `addCustomToken()`. `address`, `symbol` and `name` are the values of the form
fields, `decimals` is the value of `parseInt` on the field `token-decimals` (`nan` for an
empty or non-numeric field) and `toUpperCase` is `String.prototype.toUpperCase`. The final
`loadTokens()` redraws the list and changes nothing of the state. -/
def addCustomToken (toUpperCase : String → String) (address symbol name : String)
    (decimals : Decimals) (s : App) : App :=
  if !truthy (some address) || !truthy (some symbol) || !truthy (some name) then
    showToast "Please fill all required fields" "error" s
  else
    let token : Token := ⟨address, toUpperCase symbol, name, decimals, none⟩
    let s :=
      if (List.lookup s.currentChain s.customTokens).isNone then
        { s with customTokens := assign s.customTokens s.currentChain [] }
      else s
    let pushed := (List.lookup s.currentChain s.customTokens).getD [] ++ [token]
    let s := { s with customTokens := assign s.customTokens s.currentChain pushed }
    showToast "Token added successfully" "success" (saveCustomTokens s)

/-! ## Reading the catalog back

`JSON.parse` on the texts `stringify` writes: one object whose members are arrays of token
objects, without white space and with the properties of a token in the order `jsonToken`
writes them. A parser answers `none` for a text that `JSON.parse` rejects and also for a
text of another shape, which this model does not cover. -/

/-- Removes a leading `pre` from `l`, when `l` starts with it. -/
def stripLead : List Char → List Char → Option (List Char)
  | [], l => some l
  | _ :: _, [] => none
  | a :: pre, b :: l => if a = b then stripLead pre l else none

/-- The value of a hexadecimal digit. -/
def hexValue (ch : Char) : Option Nat :=
  let n := ch.toNat
  if 48 ≤ n && n ≤ 57 then some (n - 48)
  else if 97 ≤ n && n ≤ 102 then some (n - 87)
  else if 65 ≤ n && n ≤ 70 then some (n - 55)
  else none

/-- The character a two-character escape of a JSON string stands for. -/
def unescape (ch : Char) : Option Char :=
  let n := ch.toNat
  if n == 34 then some (Char.ofNat 34)
  else if n == 92 then some (Char.ofNat 92)
  else if n == 47 then some '/'
  else if n == 98 then some (Char.ofNat 8)
  else if n == 102 then some (Char.ofNat 12)
  else if n == 110 then some (Char.ofNat 10)
  else if n == 114 then some (Char.ofNat 13)
  else if n == 116 then some (Char.ofNat 9)
  else none

/-- The characters of a JSON string after its opening quote, up to the closing quote, and
the text that follows. An escape `\uXXXX` is read when it is below the surrogates. -/
def parseStringBody : Nat → List Char → Option (List Char × List Char)
  | 0, _ => none
  | _ + 1, [] => none
  | fuel + 1, ch :: rest =>
    if ch.toNat == 34 then some ([], rest)
    else if ch.toNat == 92 then
      match rest with
      | [] => none
      | e :: rest' =>
        if e == 'u' then
          match rest' with
          | a :: b :: c :: d :: rest'' =>
            match hexValue a, hexValue b, hexValue c, hexValue d with
            | some x, some y, some z, some w =>
              let code := ((x * 16 + y) * 16 + z) * 16 + w
              if code < 55296 then
                (parseStringBody fuel rest'').map (fun r => (Char.ofNat code :: r.1, r.2))
              else none
            | _, _, _, _ => none
          | _ => none
        else
          match unescape e with
          | some ch' => (parseStringBody fuel rest').map (fun r => (ch' :: r.1, r.2))
          | none => none
    else if ch.toNat < 32 then none
    else (parseStringBody fuel rest).map (fun r => (ch :: r.1, r.2))

/-- A JSON string and the text that follows it. -/
def parseString : List Char → Option (String × List Char)
  | [] => none
  | ch :: rest =>
    if ch.toNat == 34 then
      (parseStringBody (rest.length + 1) rest).map (fun r => (String.mk r.1, r.2))
    else none

/-- The number a text of decimal digits denotes. -/
def digitsValue (ds : List Char) : Nat := ds.foldl (fun n ch => 10 * n + (ch.toNat - 48)) 0

/-- A JSON number without sign, fraction and exponent, of value at most 2^53, and the text
that follows it. -/
def parseNat (cs : List Char) : Option (Nat × List Char) :=
  let ds := cs.takeWhile Char.isDigit
  let rest := cs.dropWhile Char.isDigit
  if ds.isEmpty then none
  else if ds.head? == some '0' && ds.length != 1 then none
  else if rest.head? == some '.' || rest.head? == some 'e' || rest.head? == some 'E' then none
  else if digitsValue ds ≤ 2 ^ 53 then some (digitsValue ds, rest)
  else none

/-- The value of a `decimals` property, `null` or an integer, and the text that follows. -/
def parseDecimals (cs : List Char) : Option (Decimals × List Char) :=
  match stripLead "null".data cs with
  | some rest => some (.null, rest)
  | none =>
    match cs with
    | '-' :: cs' =>
      match parseNat cs' with
      | some (n, rest) => if n = 0 then none else some (.number (-(n : Int)), rest)
      | none => none
    | _ =>
      match parseNat cs with
      | some (n, rest) => some (.number (n : Int), rest)
      | none => none

/-- The text of a property name with its colon. -/
def keyChars (name : String) : List Char := (jsonString name).data ++ [':']

/-- A token object and the text that follows it. -/
def parseToken (cs : List Char) : Option (Token × List Char) := do
  let cs ← stripLead (Char.ofNat 123 :: keyChars "address") cs
  let (address, cs) ← parseString cs
  let cs ← stripLead (',' :: keyChars "symbol") cs
  let (symbol, cs) ← parseString cs
  let cs ← stripLead (',' :: keyChars "name") cs
  let (name, cs) ← parseString cs
  let cs ← stripLead (',' :: keyChars "decimals") cs
  let (decimals, cs) ← parseDecimals cs
  match cs with
  | ch :: rest =>
    if ch.toNat == 125 then some (⟨address, symbol, name, decimals, none⟩, rest)
    else if ch == ',' then do
      let cs ← stripLead (keyChars "coingeckoId") rest
      let (id, cs) ← parseString cs
      match cs with
      | ch' :: rest' =>
        if ch'.toNat == 125 then some (⟨address, symbol, name, decimals, some id⟩, rest')
        else none
      | [] => none
    else none
  | [] => none

/-- The tokens of a non-empty array after its opening bracket, and the text that follows the
closing bracket. -/
def parseTokenList : Nat → List Char → Option (List Token × List Char)
  | 0, _ => none
  | fuel + 1, cs =>
    match parseToken cs with
    | some (t, ch :: rest) =>
      if ch == ',' then (parseTokenList fuel rest).map (fun r => (t :: r.1, r.2))
      else if ch == ']' then some ([t], rest)
      else none
    | _ => none

/-- An array of tokens and the text that follows it. -/
def parseArray : List Char → Option (List Token × List Char)
  | '[' :: ']' :: rest => some ([], rest)
  | '[' :: rest => parseTokenList rest.length rest
  | _ => none

/-- The members of a non-empty object after its opening brace, and the text that follows the
closing brace. -/
def parseMembers : Nat → List Char → Option (List (String × List Token) × List Char)
  | 0, _ => none
  | fuel + 1, cs =>
    match parseString cs with
    | some (key, ch :: rest) =>
      if ch == ':' then
        match parseArray rest with
        | some (tokens, ch' :: rest') =>
          if ch' == ',' then
            (parseMembers fuel rest').map (fun r => ((key, tokens) :: r.1, r.2))
          else if ch'.toNat == 125 then some ([(key, tokens)], rest')
          else none
        | _ => none
      else none
    | _ => none

/-- Models `JSON.parse(text)` for the text of a catalog: the members are assigned in the
order of the text, a repeated key keeping its first place and its last value. -/
def parseCatalog (text : String) : Option (List (String × List Token)) :=
  match text.data with
  | ch :: rest =>
    if ch.toNat == 123 then
      match rest with
      | [ch'] => if ch'.toNat == 125 then some [] else none
      | _ =>
        match parseMembers rest.length rest with
        | some (members, []) => some (members.foldl (fun obj e => assign obj e.1 e.2) [])
        | _ => none
    else none
  | [] => none

/-- Models `loadCustomTokens()`: `none` when `JSON.parse` throws or yields a value that is
not a catalog. -/
def loadCustomTokens (st : Storage) : Option (List (String × List Token)) :=
  let saved := st.getItem keyCustomTokens
  if truthy saved then parseCatalog (strOf saved) else some []

/-- Models `switchChain(chain)` as far as the state goes. -/
def switchChain (chain : String) (s : App) : App := { s with currentChain := chain }

/-- The values of the add-token form, with the chain shown when it is submitted. -/
structure TokenForm where
  chain : String
  address : String
  symbol : String
  name : String
  decimals : Decimals

/-- A sequence of submissions of the add-token form, each on its chain. -/
def addTokens (toUpperCase : String → String) (forms : List TokenForm) (s : App) : App :=
  forms.foldl (fun s f =>
    addCustomToken toUpperCase f.address f.symbol f.name f.decimals (switchChain f.chain s)) s

/-- What a `decimals` value is after `JSON.stringify` and `JSON.parse`: `NaN` has become
`null`. -/
def reloadDecimals : Decimals → Decimals
  | .nan => .null
  | d => d

/-- A token after `JSON.stringify` and `JSON.parse`. -/
def reloadToken (t : Token) : Token := { t with decimals := reloadDecimals t.decimals }

/-- A catalog after `JSON.stringify` and `JSON.parse`. -/
def reloadCatalog (customTokens : List (String × List Token)) : List (String × List Token) :=
  customTokens.map (fun e => (e.1, e.2.map reloadToken))

/-- The `decimals` values whose text the model reads back: `NaN`, `null` and the integers of
magnitude up to 2^53. -/
def Readable : Decimals → Prop
  | .number n => n.natAbs ≤ 2 ^ 53
  | _ => True

/-- Texts joined with commas. -/
def joinChars : List (List Char) → List Char
  | [] => []
  | a :: rest => a ++ rest.flatMap (fun x => ',' :: x)

/-- The end of the text of a token, after the value of `decimals`. -/
def tokenTail (t : Token) : List Char :=
  match t.coingeckoId with
  | none => [Char.ofNat 125]
  | some id => ',' :: (keyChars "coingeckoId" ++ ((jsonString id).data ++ [Char.ofNat 125]))

/-- The text of a member of the catalog: its key and the array of its tokens. -/
def memberChars (e : String × List Token) : List Char :=
  (jsonString e.1).data ++
    (':' :: '[' :: (joinChars (e.2.map (fun t => (jsonToken t).data)) ++ [']']))


/-! ## Sequences of operations -/

/-- The user actions that touch the secret records, with the values they read. -/
inductive Op where
  | confirmMnemonic (currentMnemonic : String)
  | importWallet (input : String)
  | saveSettings (pwd : String)
  | logout
  | checkExistingWallet (answer : Option String)

/-- One action. -/
def step (c : Cipher) (pr : Provider) (s : App) : Op → App
  | .confirmMnemonic m => confirmMnemonic c pr m s
  | .importWallet input => importWallet c pr input s
  | .saveSettings pwd => saveSettings c pwd s
  | .logout => logout s
  | .checkExistingWallet answer => checkExistingWallet c pr answer s

/-- A sequence of actions, each run to completion, first action first. -/
def run (c : Cipher) (pr : Provider) (s : App) (ops : List Op) : App :=
  ops.foldl (step c pr) s

/-! ## A concrete cipher and provider, used to evaluate the model -/

/-- A cipher that writes the password in front of the message; decryption under another
password throws. -/
def demoCipher : Cipher where
  encrypt m p := String.mk (p.data ++ '#' :: m.data)
  decrypt ct p := (stripLead (p.data ++ ['#']) ct.data).map String.mk

/-- A provider that accepts every seed and derives an account on every chain. -/
def demoProvider : Provider where
  construct _ := true
  register _ := true
  getAccount m chain := some ⟨chain, m⟩

/-- The twelve-word phrase of the unlock scenario. -/
def demoMnemonic : String :=
  "abandon ability able about above absent absorb abstract absurd abuse access accident"

/-- A second phrase, for a wallet created after the first. -/
def otherMnemonic : String :=
  "zoo zoo zoo zoo zoo zoo zoo zoo zoo zoo zoo wrong"

/-- Set a password, create a wallet, remove the password, create another wallet. -/
def staleRecordTrace : List Op :=
  [.saveSettings "secret1", .confirmMnemonic demoMnemonic, .saveSettings "",
    .confirmMnemonic otherMnemonic]

/-- A page whose storage remembers the password "secret1" and holds a plaintext record. -/
def rememberedState : App :=
  { App.fresh with
    storage := (Storage.empty.setItem keyPass "secret1").setItem keyPlain otherMnemonic }

/-- A page whose storage holds a plaintext record and nothing else. -/
def plainState : App :=
  { App.fresh with storage := Storage.empty.setItem keyPlain demoMnemonic }

/-- The page after the password "secret1" was set and the twelve-word phrase confirmed. -/
def lockedState : App :=
  run demoCipher demoProvider App.fresh [.saveSettings "secret1", .confirmMnemonic demoMnemonic]

/-- A page whose storage holds an encrypted record with its flag and a plaintext record. -/
def bothRecordsState : App :=
  { App.fresh with
    storage := ((Storage.empty.setItem keyEncrypted
      (demoCipher.encrypt demoMnemonic "secret1")).setItem encryptionPasswordKey
        "1").setItem keyPlain otherMnemonic }

/-- A page in the inconsistent state: an encrypted record written under "secret1" and no
flag. -/
def inconsistentState : App :=
  { App.fresh with
    storage := Storage.empty.setItem keyEncrypted (demoCipher.encrypt demoMnemonic "secret1") }

/-- A page in the inconsistent state whose record was encrypted under the empty password. -/
def emptyPasswordState : App :=
  { App.fresh with
    storage := Storage.empty.setItem keyEncrypted (demoCipher.encrypt demoMnemonic "") }

/-- The warning `checkExistingWallet` shows for a plaintext record. -/
def plaintextFoundToast : Toast :=
  ⟨"Plaintext mnemonic found in storage. Please set a password in Settings to encrypt it.",
    "warning"⟩

/-- The warning `confirmMnemonic` shows when it stores the phrase in plaintext. -/
def considerPasswordToast : Toast :=
  ⟨"Consider setting a password in Settings to encrypt your mnemonic.", "warning"⟩

/-- A cipher like `demoCipher`, except that decryption under another password yields the
empty string instead of throwing (CryptoJS does either, depending on the padding it finds in
the garbage). -/
def blankCipher : Cipher where
  encrypt m p := demoCipher.encrypt m p
  decrypt ct p := some ((demoCipher.decrypt ct p).getD "")

/-- The page after the password "secret1" was set, the twelve-word phrase confirmed and the
password then changed to "secret2". -/
def changedPasswordState : App :=
  run blankCipher demoProvider App.fresh
    [.saveSettings "secret1", .confirmMnemonic demoMnemonic, .saveSettings "secret2"]

/-- The page after a wallet was created on the empty storage. -/
def unlockedState : App :=
  confirmMnemonic demoCipher demoProvider demoMnemonic App.fresh

/-- The ids of a list in order of first occurrence, each once. -/
def firsts : List String → List String
  | [] => []
  | id :: ids => id :: (firsts ids).filter (fun other => other != id)

/-- Decimal text of `num / den` rounded to `digits` places, halves up. -/
def fixedText (num den digits : Nat) : String :=
  let n := (2 * num * 10 ^ digits + den) / (2 * den)
  let frac := (toString (n % 10 ^ digits)).data
  if digits = 0 then toString n
  else
    String.mk ((toString (n / 10 ^ digits)).data ++ '.' ::
      (List.replicate (digits - frac.length) '0' ++ frac))

/-- The fraction a decimal text without sign denotes, as numerator and denominator. -/
def readFixed (text : String) : Option (Nat × Nat) :=
  let cs := text.data
  if cs.all (fun ch => ch.isDigit || ch == '.') && (cs.filter (fun ch => ch == '.')).length ≤ 1
      && cs.any Char.isDigit then
    some ((cs.filter Char.isDigit).foldl (fun n ch => 10 * n + (ch.toNat - 48)) 0,
      10 ^ ((cs.dropWhile (fun ch => ch != '.')).length - 1))
  else none

/-- An arithmetic that computes in exact decimals, for plain unsigned numerals. Double
arithmetic gives the same texts on the values evaluated with it below (1500000 and 0 units of
a token with 6 decimals, prices 1 and 0.999). -/
def demoDisplay : Display where
  balanceFormatted raw decimals digits :=
    match decimals with
    | .number n =>
      if 0 ≤ n then fixedText raw (10 ^ n.toNat) digits
      else fixedText (raw * 10 ^ (-n).toNat) 1 digits
    | .nan => "NaN"
    | .null => fixedText raw 1 digits
  usdValue text price :=
    match readFixed text, readFixed price with
    | some (num, den), some (pnum, pden) => fixedText (num * pnum) (den * pden) 2
    | _, _ => "NaN"

/-- The balances of the polygon scenario: 1500000 units of USDT, none of anything else. -/
def scenarioBalances : Balances where
  getBalance _ := some 0
  getTokenBalance _ _ address :=
    if address = "0xc2132D05D31c914a87C6611C10748AEb04B58e8F" then some 1500000 else some 0

/-- The balances of the polygon scenario when the query for USDC rejects. -/
def failingBalances : Balances where
  getBalance _ := some 0
  getTokenBalance _ _ address :=
    if address = "0xc2132D05D31c914a87C6611C10748AEb04B58e8F" then some 1500000
    else if address = "0x2791Bca1f2de4661ED88A30C99A7a9449Aa84174" then none
    else some 0

/-- The prices of the polygon scenario: tether at 1.00, usd-coin at 0.999. -/
def scenarioPrices (id : String) : PriceEntry :=
  if id = "tether" then .usd "1.00" else if id = "usd-coin" then .usd "0.999" else .absent

/-- The price response of the polygon scenario. -/
def scenarioOracle (_ : List String) : Option PriceMap := some (.object scenarioPrices)

/-- Prices of which the entry for tether has no `usd` price. -/
def noUsdPrices (id : String) : PriceEntry :=
  if id = "tether" then .withoutUsd else if id = "usd-coin" then .usd "0.999" else .absent

/-- A price response whose entry for tether has no `usd` price. -/
def noUsdOracle (_ : List String) : Option PriceMap := some (.object noUsdPrices)

/-- The page with an unlocked wallet, switched to polygon. -/
def polygonState : App := { unlockedState with currentChain := "polygon" }

/-- The page with an unlocked wallet, switched to arbitrum. -/
def arbitrumState : App := { unlockedState with currentChain := "arbitrum" }

/-- The page with an unlocked wallet, switched to tron. -/
def tronState : App := { unlockedState with currentChain := "tron" }

/-- ASCII upper case, standing for `toUpperCase` on ASCII symbols. -/
def asciiUpper (text : String) : String := String.mk (text.data.map Char.toUpper)

/-- ASCII lower case, to compare addresses without regard to case. -/
def asciiLower (text : String) : String := String.mk (text.data.map Char.toLower)

/-- The page after the user added USDT on ethereum a second time, its address typed in lower
case. -/
def duplicateState : App :=
  addCustomToken asciiUpper "0xdac17f958d2ee523a2206206994597c13d831ec7" "usdt" "Tether USD"
    (.number 6) unlockedState

/-- The balance each token of the polygon scenario has. -/
def scenarioRaw (t : Token) : Nat :=
  if t.address = "0xc2132D05D31c914a87C6611C10748AEb04B58e8F" then 1500000 else 0

/-- The USDT entry of polygon. -/
def polygonUsdt : Token :=
  ⟨"0xc2132D05D31c914a87C6611C10748AEb04B58e8F", "USDT", "Tether USD", .number 6,
    some "tether"⟩

/-- The USDC entry of polygon. -/
def polygonUsdc : Token :=
  ⟨"0x2791Bca1f2de4661ED88A30C99A7a9449Aa84174", "USDC", "USD Coin", .number 6,
    some "usd-coin"⟩

/-- A provider whose `new WDK(mnemonic)` throws for every seed. -/
def rejectingProvider : Provider where
  construct _ := false
  register _ := false
  getAccount _ _ := none

/-- The page after `staleRecordTrace`: the second phrase was the last one persisted. -/
def staleState : App := run demoCipher demoProvider App.fresh staleRecordTrace

/-- An encrypted record in storage comes with the flag "1". -/
def FlagWithRecord (st : Storage) : Prop :=
  st.getItem keyEncrypted ≠ none → st.getItem encryptionPasswordKey = some "1"

/-- The catalog in storage is the one in memory, as `JSON` gives it back. -/
def CatalogSaved (s : App) : Prop :=
  (s.customTokens.map Prod.fst).Nodup ∧
  (∀ e ∈ s.customTokens, ∀ u ∈ e.2, Readable u.decimals) ∧
  loadCustomTokens s.storage = some (reloadCatalog s.customTokens)

/-- The add-token form submitted on ethereum with the decimals field left empty. -/
def emptyDecimalsForm : TokenForm := ⟨"ethereum", "0xabc", "tok", "Token", .nan⟩

/-- Three submissions of the add-token form, on two chains, with numeric decimals. -/
def numericForms : List TokenForm :=
  [⟨"ethereum", "0xabc", "tok", "Token", .number 18⟩,
   ⟨"polygon", "0xdef", "q\"t", "Quoted", .number 0⟩,
   ⟨"ethereum", "0xabc", "tok", "Token", .number 6⟩]

/-! ## Double arithmetic -/

/-- The number of binary digits of `n` (none for 0), counted in at most `fuel` steps. -/
def bitLength : Nat → Nat → Nat
  | 0, _ => 0
  | fuel + 1, n => if n = 0 then 0 else bitLength fuel (n / 2) + 1

/-- A value of the Number type: a fraction with a sign (the zeros are `0 / 1`), an
infinity, or `NaN`. -/
inductive Double where
  | finite (negative : Bool) (num den : Nat)
  | infinity (negative : Bool)
  | nan
  deriving DecidableEq, Repr

/-- The nearest whole number to `n / d`, the even one of two equally near. -/
def nearestEven (n d : Nat) : Nat :=
  let q := n / d
  let r := n % d
  if d < 2 * r ∨ (2 * r = d ∧ q % 2 = 1) then q + 1 else q

/-- The binary scaling at which `num / den` is rounded: the pair `(up, down)` for which
`num * 2 ^ up / (den * 2 ^ down)` has 53 binary digits before the point, with `up` at most
1074 (fewer digits are kept below 2^-1022). -/
def scaling (num den : Nat) : Nat × Nat :=
  let bn := bitLength num num
  let bd := bitLength den den
  let up0 := 53 + bd - bn
  let down0 := bn - (53 + bd)
  let wide := 2 ^ 53 ≤ num * 2 ^ up0 / (den * 2 ^ down0)
  (min (if wide then up0 - 1 else up0) 1074, if wide ∧ up0 = 0 then down0 + 1 else down0)

/-- The double nearest to `num / den`, ties to the even significand: the quotient is scaled
by a power of two, rounded to a whole number and scaled back; a result of more than 1024
binary digits before the point is an infinity. -/
def roundDouble (negative : Bool) (num den : Nat) : Double :=
  if den = 0 then .nan
  else if num = 0 then .finite negative 0 1
  else
    let up := (scaling num den).1
    let down := (scaling num den).2
    let m := nearestEven (num * 2 ^ up) (den * 2 ^ down)
    if 1024 + up < bitLength (m * 2 ^ down) (m * 2 ^ down) then .infinity negative
    else .finite negative (m * 2 ^ down) (2 ^ up)

/-- The conversion `Number(balance)` of a balance, a whole number that is not negative. -/
def toNumber (balance : Nat) : Double := roundDouble false balance 1

/-- The value of `Math.pow(10, decimals)`: the double nearest to the power, which is the power
itself up to 10^22. Beyond 10^22 an engine may return a neighbouring double; nothing below is
stated for such exponents. -/
def Math.pow10 (decimals : Nat) : Double := roundDouble false (10 ^ decimals) 1

/-- The operator `*` on Numbers. -/
def Double.mul : Double → Double → Double
  | .finite s a b, .finite t c d => roundDouble (s != t) (a * c) (b * d)
  | .finite s a _, .infinity t => if a = 0 then .nan else .infinity (s != t)
  | .infinity s, .finite t c _ => if c = 0 then .nan else .infinity (s != t)
  | .infinity s, .infinity t => .infinity (s != t)
  | _, _ => .nan

/-- The operator `/` on Numbers. -/
def Double.div : Double → Double → Double
  | .finite s a b, .finite t c d =>
    if c = 0 then (if a = 0 then .nan else .infinity (s != t))
    else roundDouble (s != t) (a * d) (b * c)
  | .finite s _ _, .infinity t => .finite (s != t) 0 1
  | .infinity s, .finite t _ _ => .infinity (s != t)
  | _, _ => .nan

/-- Whether two Numbers are the same value. -/
def sameValue : Double → Double → Bool
  | .finite s a b, .finite t c d => (s == t || a == 0) && a * d == c * b
  | .infinity s, .infinity t => s == t
  | _, _ => false

/-- The integer with the fewest significant decimal digits that rounds to the double `x`
(an integer of `n` decimal digits), the nearest to `x` among those: tried with `k`
significant digits, then with more. -/
def shortestDigits : Nat → Nat → Nat → Nat → Nat
  | 0, _, x, _ => x
  | fuel + 1, k, x, n =>
    let scale := 10 ^ (n - k)
    let low := x / scale * scale
    let high := low + scale
    let lowOk := sameValue (roundDouble false low 1) (.finite false x 1)
    let highOk := sameValue (roundDouble false high 1) (.finite false x 1)
    if lowOk ∧ highOk then (if x - low ≤ high - x then low else high)
    else if lowOk then low
    else if highOk then high
    else shortestDigits fuel (k + 1) x n

/-- The text `Number::toString` gives for an integer double `x` from 10^21 on: the shortest
digits that round to `x`, in exponent form. -/
def exponentText (x : Nat) : String :=
  let n := (toString x).length
  let all := (toString (shortestDigits 17 1 x n)).data
  let digits := (all.reverse.dropWhile (fun ch => ch == '0')).reverse
  let e := toString (all.length - 1)
  match digits with
  | [] => "0"
  | [one] => String.mk (one :: 'e' :: '+' :: e.data)
  | first :: more => String.mk (first :: '.' :: (more ++ 'e' :: '+' :: e.data))

/-- The method `toFixed(digits)`. -/
def toFixed (digits : Nat) : Double → String
  | .nan => "NaN"
  | .infinity negative => if negative then "-Infinity" else "Infinity"
  | .finite negative num den =>
    let sign := if negative ∧ num ≠ 0 then "-" else ""
    if 10 ^ 21 * den ≤ num then sign ++ exponentText (num / den)
    else sign ++ fixedText num den digits

/-- The exponent after an `e` and its sign: the digits at the head of `cs`, with what
follows them; without a digit there is no exponent part and the literal has ended before the
`e`, where `whole` begins. -/
def exponentDigits (negative : Bool) (whole cs : List Char) : Bool × Nat × List Char :=
  if (cs.takeWhile Char.isDigit).isEmpty then (false, 0, whole)
  else (negative, digitsValue (cs.takeWhile Char.isDigit), cs.dropWhile Char.isDigit)

/-- The exponent part at the head of `cs`, if there is one: whether its sign is `-`, its
value, and what follows it. -/
def exponentPart (cs : List Char) : Bool × Nat × List Char :=
  match cs with
  | e :: rest =>
    if e = 'e' ∨ e = 'E' then
      match rest with
      | '-' :: more => exponentDigits true cs more
      | '+' :: more => exponentDigits false cs more
      | more => exponentDigits false cs more
    else (false, 0, cs)
  | [] => (false, 0, [])

/-- The longest unsigned decimal literal at the head of `cs`, as a Number with the sign
given, and what follows it; `NaN` when there is none. -/
def unsignedLiteral (negative : Bool) (cs : List Char) : Double × List Char :=
  match stripLead "Infinity".data cs with
  | some rest => (.infinity negative, rest)
  | none =>
    let whole := cs.takeWhile Char.isDigit
    let afterWhole := cs.dropWhile Char.isDigit
    let fraction :=
      match afterWhole with
      | '.' :: rest => rest.takeWhile Char.isDigit
      | _ => []
    let afterFraction :=
      match afterWhole with
      | '.' :: rest => rest.dropWhile Char.isDigit
      | _ => afterWhole
    if whole.isEmpty ∧ fraction.isEmpty then (.nan, cs)
    else
      let e := exponentPart afterFraction
      let mantissa := digitsValue (whole ++ fraction)
      (if e.1 then roundDouble negative mantissa (10 ^ (fraction.length + e.2.1))
        else roundDouble negative (mantissa * 10 ^ e.2.1) (10 ^ fraction.length), e.2.2)

/-- The longest decimal literal at the head of `cs`, with its sign. -/
def signedLiteral : List Char → Double × List Char
  | '-' :: rest => unsignedLiteral true rest
  | '+' :: rest => unsignedLiteral false rest
  | cs => unsignedLiteral false cs

/-- The function `parseFloat`: the value of the longest decimal literal at the head of the
text after leading white space, `NaN` if there is none. -/
def parseFloat (text : String) : Double :=
  (signedLiteral (text.data.dropWhile isJsWhiteSpace)).1

/-- The value of the digits `cs` in the radix 16, 8 or 2; `none` when a character is not a
digit of the radix. -/
def radixValue (radix : Nat) (cs : List Char) : Option Nat :=
  cs.foldl (fun value ch =>
    match value, hexValue ch with
    | some v, some d => if d < radix then some (radix * v + d) else none
    | _, _ => none) (some 0)

/-- The hexadecimal, octal or binary literal `cs`, if it begins as one: `NaN` when digits
are missing or wrong. -/
def nonDecimalLiteral : List Char → Option Double
  | '0' :: x :: rest =>
    let radix :=
      if x = 'x' ∨ x = 'X' then 16 else if x = 'o' ∨ x = 'O' then 8
      else if x = 'b' ∨ x = 'B' then 2 else 0
    if radix = 0 then none
    else
      match rest, radixValue radix rest with
      | _ :: _, some value => some (roundDouble false value 1)
      | _, _ => some .nan
  | _ => none

/-- The conversion `Number(text)` of a string: zero for a text of white space, the value of
the text without the white space around it when it is a numeric literal, `NaN` otherwise. -/
def stringToNumber (text : String) : Double :=
  let cs := (jsTrim text).data
  if cs.isEmpty then .finite false 0 1
  else
    match nonDecimalLiteral cs with
    | some value => value
    | none => if (signedLiteral cs).2.isEmpty then (signedLiteral cs).1 else .nan

/-- The function `Math.floor`. -/
def Math.floor : Double → Double
  | .finite negative num den =>
    if negative then .finite true ((num + den - 1) / den) 1 else .finite false (num / den) 1
  | x => x

/-- The conversion `BigInt(x)` of a Number; `none` when it throws a `RangeError` (`x` is not
an integer). -/
def toBigInt : Double → Option Int
  | .finite negative num den =>
    if num % den = 0 then
      some (if negative then -((num / den : Nat) : Int) else ((num / den : Nat) : Int))
    else none
  | _ => none

/-- The value of `Math.pow(10, token.decimals)`: `null` counts as 0, and a power with a
negative exponent is taken to be the double nearest to it. -/
def powTen : Decimals → Double
  | .number n => if 0 ≤ n then Math.pow10 n.toNat else roundDouble false 1 (10 ^ (-n).toNat)
  | .nan => .nan
  | .null => Math.pow10 0

/-- The arithmetic of the page: doubles. `Number(usdPrice)` is the double of the numeral the
price response writes. -/
def doubleDisplay : Display where
  balanceFormatted raw decimals digits := toFixed digits ((toNumber raw).div (powTen decimals))
  usdValue text price := toFixed 2 ((stringToNumber text).mul (stringToNumber price))

/-! ## The amount to send -/

/-- Models `setMaxAmount()`: the text written into the `send-amount` field,
`(Number(balance) / Math.pow(10, config.decimals)).toFixed(6)`; `none` when the function throws
before writing (no account or configuration for the chain, or the balance query rejects). -/
def setMaxAmount (bal : Balances) (s : App) : Option String :=
  match List.lookup s.currentChain s.accounts with
  | none => none
  | some account =>
    match bal.getBalance account with
    | none => none
    | some balance =>
      match List.lookup s.currentChain chainConfigs with
      | none => none
      | some config => some (toFixed 6 ((toNumber balance).div (Math.pow10 config.decimals)))

/-- The amount of the native transfer in `sendTransaction()`,
`BigInt(Math.floor(parseFloat(amount) * Math.pow(10, config.decimals)))`; `none` when `BigInt`
throws. -/
def amountInUnits (amount : String) (decimals : Nat) : Option Int :=
  toBigInt (Math.floor ((parseFloat amount).mul (Math.pow10 decimals)))

/-- Models `sendTransaction()` with the native asset selected: the call
`account.sendTransaction` it makes, as the pair of the `to` and the `value` of its argument
(`Number(amountInUnits)`, the same integer); `none` when it makes no call (a field is empty, or
the `try` block throws before the call). -/
def sendTransaction (recipient amount : String) (s : App) : Option (String × Int) :=
  if !truthy (some recipient) || !truthy (some amount) then none
  else
    match List.lookup s.currentChain chainConfigs with
    | none => none
    | some config =>
      match amountInUnits amount config.decimals with
      | none => none
      | some value =>
        match List.lookup s.currentChain s.accounts with
        | none => none
        | some _ => some (recipient, value)

/-- The page with an unlocked wallet, switched to bitcoin. -/
def bitcoinState : App := { unlockedState with currentChain := "bitcoin" }

/-- An account with a native balance of 99 of the smallest unit. -/
def smallBalances : Balances where
  getBalance _ := some 99
  getTokenBalance _ _ _ := none

/-- An account with a native balance of 999999600000000000 of the smallest unit. -/
def nearOneBalances : Balances where
  getBalance _ := some 999999600000000000
  getTokenBalance _ _ _ := none

/-- The fraction `N / D` is at a relative distance of at most 2^-51 from `A / B`. -/
def Near (N D A B : Nat) : Prop :=
  2 ^ 51 * (N * B) ≤ (2 ^ 51 + 1) * (A * D) ∧ (2 ^ 51 - 1) * (A * D) ≤ 2 ^ 51 * (N * B)

/-- The fraction `A / B` is clear of the ties of the rounding to `k` decimals: counted in
units of the last place, it is farther than its 2^-51th part from every half unit. -/
def ClearOfTies (A B k : Nat) : Prop :=
  A * 10 ^ k ≤ 2 ^ 50 * ((2 * A * 10 ^ k + B) % (2 * B)) ∧
    2 ^ 50 * ((2 * A * 10 ^ k + B) % (2 * B)) + A * 10 ^ k < 2 ^ 51 * B

/-- A price response whose body is `null`. -/
def nullOracle (_ : List String) : Option PriceMap := some .null

/-- The page where USDT was added on ethereum a second time, with the address of the
built-in entry. -/
def repeatedState : App :=
  addCustomToken asciiUpper "0xdAC17F958D2ee523a2206206994597C13D831ec7" "usdt" "Tether USD"
    (.number 6) unlockedState

/-- Balance queries of which the first of a report rejects and the later ones answer 0. -/
def firstQueryFails : Balances where
  getBalance _ := some 0
  getTokenBalance _ n _ := if n = 0 then none else some 0

/-- The tokens of a list that have no oracle id, with their positions. -/
def withoutId (tokens : List (Nat × Token)) : List (Nat × Token) :=
  tokens.filter (fun p => !truthy p.2.coingeckoId)

/-! ## Basic facts -/

theorem getItem_setItem_same (st : Storage) (k v : String) :
    (st.setItem k v).getItem k = some v := by
  simp [Storage.getItem, Storage.setItem]

theorem getItem_setItem_other (st : Storage) (k k' v : String) (h : k' ≠ k) :
    (st.setItem k v).getItem k' = st.getItem k' := by
  simp [Storage.getItem, Storage.setItem, h]

theorem getItem_removeItem_same (st : Storage) (k : String) :
    (st.removeItem k).getItem k = none := by
  simp [Storage.getItem, Storage.removeItem]

theorem getItem_removeItem_other (st : Storage) (k k' : String) (h : k' ≠ k) :
    (st.removeItem k).getItem k' = st.getItem k' := by
  simp [Storage.getItem, Storage.removeItem, h]

theorem truthy_some (v : String) : truthy (some v) = true ↔ v ≠ "" := by
  simp [truthy]

theorem truthy_some_of_ne {v : String} (h : v ≠ "") : truthy (some v) = true :=
  (truthy_some v).2 h

theorem jsLength_empty : jsLength "" = 0 := rfl

theorem ne_empty_of_jsLength_pos {p : String} (h : 0 < jsLength p) : p ≠ "" := by
  intro hp
  rw [hp, jsLength_empty] at h
  exact Nat.lt_irrefl 0 h

@[simp] theorem showToast_storage (msg ty : String) (s : App) :
    (showToast msg ty s).storage = s.storage := rfl

@[simp] theorem showToast_prompts (msg ty : String) (s : App) :
    (showToast msg ty s).prompts = s.prompts := rfl

@[simp] theorem showToast_initCalls (msg ty : String) (s : App) :
    (showToast msg ty s).initCalls = s.initCalls := rfl

@[simp] theorem showToast_wdk (msg ty : String) (s : App) :
    (showToast msg ty s).wdk = s.wdk := rfl

@[simp] theorem showToast_accounts (msg ty : String) (s : App) :
    (showToast msg ty s).accounts = s.accounts := rfl

@[simp] theorem showToast_toasts (msg ty : String) (s : App) :
    (showToast msg ty s).toasts = s.toasts ++ [⟨msg, ty⟩] := rfl

@[simp] theorem initializeWallet_storage (pr : Provider) (m : String) (s : App) :
    (initializeWallet pr m s).storage = s.storage := by
  simp only [initializeWallet]
  split_ifs <;> rfl

@[simp] theorem initializeWallet_prompts (pr : Provider) (m : String) (s : App) :
    (initializeWallet pr m s).prompts = s.prompts := by
  simp only [initializeWallet]
  split_ifs <;> rfl

@[simp] theorem initializeWallet_initCalls (pr : Provider) (m : String) (s : App) :
    (initializeWallet pr m s).initCalls = s.initCalls ++ [m] := by
  simp only [initializeWallet]
  split_ifs <;> rfl

/-- The one toast `initializeWallet` shows: success, or the failure of its `catch`. -/
theorem initializeWallet_toasts (pr : Provider) (m : String) (s : App) :
    (initializeWallet pr m s).toasts = s.toasts ++ [⟨"Wallet loaded successfully", "success"⟩] ∨
    (initializeWallet pr m s).toasts = s.toasts ++ [⟨"Failed to initialize wallet", "error"⟩] := by
  simp only [initializeWallet]
  split_ifs
  · exact Or.inl rfl
  · exact Or.inr rfl
  · exact Or.inr rfl
  · exact Or.inr rfl

/-- When `new WDK(mnemonic)` returns, `this.wdk` is the instance built from `mnemonic`. -/
theorem initializeWallet_wdk (pr : Provider) (m : String) (s : App)
    (h : pr.construct m = true) : (initializeWallet pr m s).wdk = some m := by
  simp only [initializeWallet, h, if_true]
  split_ifs <;> rfl

theorem confirmMnemonic_storage_of_password (c : Cipher) (pr : Provider) (m p : String)
    (s : App) (hp : p ≠ "") (hs : s.storage.getItem keyPass = some p) :
    (confirmMnemonic c pr m s).storage
      = ((s.storage.setItem keyEncrypted (c.encrypt m p)).setItem encryptionPasswordKey
          "1").removeItem keyPlain := by
  simp [confirmMnemonic, hs, truthy_some_of_ne hp, strOf]

theorem confirmMnemonic_storage_of_no_password (c : Cipher) (pr : Provider) (m : String)
    (s : App) (hs : truthy (s.storage.getItem keyPass) = false) :
    (confirmMnemonic c pr m s).storage = s.storage.setItem keyPlain m := by
  simp [confirmMnemonic, hs]

theorem importWallet_storage_of_password (c : Cipher) (pr : Provider) (input p : String)
    (s : App) (hi : jsTrim input ≠ "") (hp : p ≠ "") (hs : s.storage.getItem keyPass = some p) :
    (importWallet c pr input s).storage
      = ((s.storage.setItem keyEncrypted (c.encrypt (jsTrim input) p)).setItem
          encryptionPasswordKey "1").removeItem keyPlain := by
  simp [importWallet, hs, truthy_some_of_ne hp, truthy_some_of_ne hi, strOf]

theorem importWallet_storage_of_no_password (c : Cipher) (pr : Provider) (input : String)
    (s : App) (hi : jsTrim input ≠ "") (hs : truthy (s.storage.getItem keyPass) = false) :
    (importWallet c pr input s).storage = s.storage.setItem keyPlain (jsTrim input) := by
  simp [importWallet, hs, truthy_some_of_ne hi]

/-- The three facts about a storage written by the encrypted branch of a persist. -/
theorem encrypted_write_spec (st : Storage) (ct : String) :
    (((st.setItem keyEncrypted ct).setItem encryptionPasswordKey "1").removeItem
        keyPlain).getItem keyEncrypted = some ct ∧
    (((st.setItem keyEncrypted ct).setItem encryptionPasswordKey "1").removeItem
        keyPlain).getItem encryptionPasswordKey = some "1" ∧
    (((st.setItem keyEncrypted ct).setItem encryptionPasswordKey "1").removeItem
        keyPlain).getItem keyPlain = none := by
  have h1 : keyEncrypted ≠ keyPlain := by decide
  have h2 : keyEncrypted ≠ encryptionPasswordKey := by decide
  have h3 : encryptionPasswordKey ≠ keyPlain := by decide
  simp [Storage.getItem, Storage.setItem, Storage.removeItem, h1, h2, h3]

/-! ## The secret records -/

/-- C1 (defect of the code): after a password is set, a wallet created, the password removed
and a second wallet created, storage holds the second phrase under `wallet_mnemonic_plain`
and still the ciphertext of the first under `wallet_mnemonic_encrypted`: both secret records
are present. The plaintext branch of `confirmMnemonic` does not remove the encrypted record,
while the encrypted branch removes the plaintext one. -/
theorem C1_both_records_after_plaintext_persist (c : Cipher) (pr : Provider) :
    (run c pr App.fresh staleRecordTrace).storage.getItem keyPlain = some otherMnemonic ∧
    (run c pr App.fresh staleRecordTrace).storage.getItem keyEncrypted
      = some (c.encrypt demoMnemonic "secret1") := by
  have h1 : truthy (some "secret1") = true := by decide
  have h2 : decide (jsLength "secret1" < 6) = false := by decide
  have h3 : truthy (some "") = false := by decide
  simp [run, step, staleRecordTrace, saveSettings, confirmMnemonic, h1, h2, h3, App.fresh,
    Storage.getItem, Storage.setItem, Storage.removeItem, Storage.empty, keyPass, keyPlain,
    keyEncrypted, encryptionPasswordKey, strOf, truthy]

/-- C2: with a non-empty remembered password `p` (key `wallet_enc_pass_plain`),
`confirmMnemonic` on the phrase `m` and `importWallet` on an input whose trimmed value `m` is
not empty both leave `wallet_mnemonic_encrypted = encrypt(m, p)`, the flag
`wallet_enc_password = "1"` and no `wallet_mnemonic_plain`, whatever the storage held. -/
theorem C2_persist_with_remembered_password (c : Cipher) (pr : Provider) (s : App)
    (p : String) (hp : p ≠ "") (hs : s.storage.getItem keyPass = some p) :
    (∀ m : String,
      (confirmMnemonic c pr m s).storage.getItem keyEncrypted = some (c.encrypt m p) ∧
      (confirmMnemonic c pr m s).storage.getItem encryptionPasswordKey = some "1" ∧
      (confirmMnemonic c pr m s).storage.getItem keyPlain = none) ∧
    (∀ input : String, jsTrim input ≠ "" →
      (importWallet c pr input s).storage.getItem keyEncrypted
        = some (c.encrypt (jsTrim input) p) ∧
      (importWallet c pr input s).storage.getItem encryptionPasswordKey = some "1" ∧
      (importWallet c pr input s).storage.getItem keyPlain = none) := by
  constructor
  · intro m
    rw [confirmMnemonic_storage_of_password c pr m p s hp hs]
    exact encrypted_write_spec s.storage (c.encrypt m p)
  · intro input hi
    rw [importWallet_storage_of_password c pr input p s hi hp hs]
    exact encrypted_write_spec s.storage (c.encrypt (jsTrim input) p)

/-- C2 at the remembered password "secret1", on a storage that held a plaintext record. -/
theorem C2_persist_with_remembered_password_witness :
    ("secret1" ≠ "" ∧ rememberedState.storage.getItem keyPass = some "secret1") ∧
    rememberedState.storage.getItem keyPlain = some otherMnemonic ∧
    ((confirmMnemonic demoCipher demoProvider demoMnemonic rememberedState).storage.getItem
        keyEncrypted = some (demoCipher.encrypt demoMnemonic "secret1") ∧
      (confirmMnemonic demoCipher demoProvider demoMnemonic rememberedState).storage.getItem
        keyPlain = none) ∧
    ((importWallet demoCipher demoProvider "  able about  " rememberedState).storage.getItem
        keyEncrypted = some (demoCipher.encrypt "able about" "secret1") ∧
      (importWallet demoCipher demoProvider "  able about  " rememberedState).storage.getItem
        keyPlain = none) :=
  have h := C2_persist_with_remembered_password demoCipher demoProvider rememberedState
    "secret1" (by decide) (by decide)
  ⟨⟨by decide, by decide⟩, by decide, ⟨(h.1 demoMnemonic).1, (h.1 demoMnemonic).2.2⟩,
    ⟨(h.2 "  able about  " (by decide)).1, (h.2 "  able about  " (by decide)).2.2⟩⟩

/-- C3: when `wallet_mnemonic_plain` holds the phrase `m` and the password `p` has at least
six characters, `saveSettings(p)` leaves `wallet_mnemonic_encrypted = encrypt(m, p)`, the flag
set, no plaintext record and `p` remembered; so `confirmMnemonic` with no remembered password
followed by `saveSettings(p)` ends with the encrypted record and no plaintext record. -/
theorem C3_setPassword_encrypts_plaintext (c : Cipher) (pr : Provider) (s : App)
    (m p : String) (hm : m ≠ "") (hp : 6 ≤ jsLength p) :
    (s.storage.getItem keyPlain = some m →
      (saveSettings c p s).storage.getItem keyEncrypted = some (c.encrypt m p) ∧
      (saveSettings c p s).storage.getItem encryptionPasswordKey = some "1" ∧
      (saveSettings c p s).storage.getItem keyPlain = none ∧
      (saveSettings c p s).storage.getItem keyPass = some p) ∧
    (truthy (s.storage.getItem keyPass) = false →
      (saveSettings c p (confirmMnemonic c pr m s)).storage.getItem keyEncrypted
        = some (c.encrypt m p) ∧
      (saveSettings c p (confirmMnemonic c pr m s)).storage.getItem encryptionPasswordKey
        = some "1" ∧
      (saveSettings c p (confirmMnemonic c pr m s)).storage.getItem keyPlain = none ∧
      (saveSettings c p (confirmMnemonic c pr m s)).storage.getItem keyPass = some p) ∧
    (truthy (s.storage.getItem keyPass) = false → ∀ input : String, jsTrim input = m →
      (saveSettings c p (importWallet c pr input s)).storage.getItem keyEncrypted
        = some (c.encrypt m p) ∧
      (saveSettings c p (importWallet c pr input s)).storage.getItem encryptionPasswordKey
        = some "1" ∧
      (saveSettings c p (importWallet c pr input s)).storage.getItem keyPlain = none ∧
      (saveSettings c p (importWallet c pr input s)).storage.getItem keyPass = some p) := by
  have hpne : p ≠ "" := ne_empty_of_jsLength_pos (by omega)
  have hlen : ¬ jsLength p < 6 := by omega
  have key : ∀ t : App, t.storage.getItem keyPlain = some m →
      (saveSettings c p t).storage.getItem keyEncrypted = some (c.encrypt m p) ∧
      (saveSettings c p t).storage.getItem encryptionPasswordKey = some "1" ∧
      (saveSettings c p t).storage.getItem keyPlain = none ∧
      (saveSettings c p t).storage.getItem keyPass = some p := by
    intro t ht
    have h1 : keyPlain ≠ encryptionPasswordKey := by decide
    have h2 : keyPlain ≠ keyPass := by decide
    have h3 : keyPass ≠ keyEncrypted := by decide
    have h4 : encryptionPasswordKey ≠ keyEncrypted := by decide
    have h5 : keyPass ≠ keyPlain := by decide
    have h6 : keyPass ≠ encryptionPasswordKey := by decide
    have h7 : encryptionPasswordKey ≠ keyPlain := by decide
    have h8 : keyEncrypted ≠ keyPlain := by decide
    have hplain : ((t.storage.setItem keyPass p).setItem encryptionPasswordKey "1").getItem
        keyPlain = some m := by
      rw [getItem_setItem_other _ _ _ _ h1, getItem_setItem_other _ _ _ _ h2, ht]
    simp only [saveSettings, truthy_some_of_ne hpne, hlen, decide_False, Bool.and_false,
      hplain, truthy_some_of_ne hm, if_true, showToast_storage, strOf, Option.getD_some]
    simp [Storage.getItem, Storage.setItem, Storage.removeItem, h3, h4, h5, h6, h7, h8]
  refine ⟨key s, fun hs => key _ ?_, fun hs input hi => key _ ?_⟩
  · rw [confirmMnemonic_storage_of_no_password c pr m s hs]
    exact getItem_setItem_same _ _ _
  · rw [importWallet_storage_of_no_password c pr input s (hi ▸ hm) hs, hi]
    exact getItem_setItem_same _ _ _

/-- C3 on a storage holding the twelve-word phrase in plaintext, with password "secret1". -/
theorem C3_setPassword_encrypts_plaintext_witness :
    (demoMnemonic ≠ "" ∧ 6 ≤ jsLength "secret1" ∧
      plainState.storage.getItem keyPlain = some demoMnemonic) ∧
    (saveSettings demoCipher "secret1" plainState).storage.getItem keyEncrypted
      = some (demoCipher.encrypt demoMnemonic "secret1") ∧
    (saveSettings demoCipher "secret1" plainState).storage.getItem keyPlain = none ∧
    (saveSettings demoCipher "secret1"
        (confirmMnemonic demoCipher demoProvider demoMnemonic App.fresh)).storage.getItem
      keyPlain = none :=
  have h := C3_setPassword_encrypts_plaintext demoCipher demoProvider plainState demoMnemonic
    "secret1" (by decide) (by decide)
  have h' := C3_setPassword_encrypts_plaintext demoCipher demoProvider App.fresh demoMnemonic
    "secret1" (by decide) (by decide)
  ⟨⟨by decide, by decide, by decide⟩, (h.1 (by decide)).1, (h.1 (by decide)).2.2.1,
    (h'.2.1 (by decide)).2.2.1⟩

/-- C7 (defect of the code): on the empty storage, where no password is remembered, both
persists write the phrase under `wallet_mnemonic_plain`, but only `confirmMnemonic` shows a
toast of type "warning"; `importWallet` shows none. -/
theorem C7_importWallet_shows_no_warning (c : Cipher) (pr : Provider) :
    (confirmMnemonic c pr demoMnemonic App.fresh).storage.getItem keyPlain
      = some demoMnemonic ∧
    considerPasswordToast ∈ (confirmMnemonic c pr demoMnemonic App.fresh).toasts ∧
    (importWallet c pr demoMnemonic App.fresh).storage.getItem keyPlain = some demoMnemonic ∧
    (∀ t ∈ (importWallet c pr demoMnemonic App.fresh).toasts, t.type ≠ "warning") := by
  have hpass : truthy (App.fresh.storage.getItem keyPass) = false := by decide
  have htrim : jsTrim demoMnemonic = demoMnemonic := by decide
  have hne : demoMnemonic ≠ "" := by decide
  refine ⟨?_, ?_, ?_, ?_⟩
  · rw [confirmMnemonic_storage_of_no_password c pr _ _ hpass]
    exact getItem_setItem_same _ _ _
  · simp only [confirmMnemonic, hpass]
    rcases initializeWallet_toasts pr demoMnemonic
      (showToast "Consider setting a password in Settings to encrypt your mnemonic." "warning"
        { App.fresh with storage := App.fresh.storage.setItem keyPlain demoMnemonic })
      with ht | ht <;>
    · simp only [Bool.false_eq_true, if_false]
      rw [ht]
      simp [considerPasswordToast]
  · rw [importWallet_storage_of_no_password c pr _ _ (htrim ▸ hne) hpass, htrim]
    exact getItem_setItem_same _ _ _
  · have h : importWallet c pr demoMnemonic App.fresh
        = initializeWallet pr demoMnemonic
            { App.fresh with storage := App.fresh.storage.setItem keyPlain demoMnemonic } := by
      simp [importWallet, htrim, hpass, truthy_some_of_ne hne]
    rw [h]
    rcases initializeWallet_toasts pr demoMnemonic
      { App.fresh with storage := App.fresh.storage.setItem keyPlain demoMnemonic }
      with ht | ht <;>
    · rw [ht]
      simp [App.fresh]

/-! ## Unlocking -/

/-- C4: assume the cipher decrypts `encrypt(m, p)` under `p` to `m` and writes a non-empty
ciphertext. For a non-empty phrase `m` and a non-empty password `p`, on every page whose
storage holds `wallet_mnemonic_encrypted = encrypt(m, p)` with the flag set,
`checkExistingWallet` with the prompt answered `p` calls `initializeWallet(m)`: the call is
recorded with exactly `m`, and the WDK instance is built from `m` when the provider accepts
it. -/
theorem C4_unlock_undoes_persist (c : Cipher) (pr : Provider) (s : App) (m p : String)
    (hrt : c.decrypt (c.encrypt m p) p = some m) (hct : c.encrypt m p ≠ "")
    (hm : m ≠ "") (hp : p ≠ "")
    (henc : s.storage.getItem keyEncrypted = some (c.encrypt m p))
    (hflag : truthy (s.storage.getItem encryptionPasswordKey) = true) :
    checkExistingWallet c pr (some p) s
      = initializeWallet pr m { s with prompts := s.prompts + 1 } ∧
    (checkExistingWallet c pr (some p) s).initCalls = s.initCalls ++ [m] ∧
    (pr.construct m = true → (checkExistingWallet c pr (some p) s).wdk = some m) := by
  have h : checkExistingWallet c pr (some p) s
      = initializeWallet pr m { s with prompts := s.prompts + 1 } := by
    simp [checkExistingWallet, henc, hflag, truthy_some_of_ne hct, truthy_some_of_ne hp,
      truthy_some_of_ne hm, strOf, hrt]
  refine ⟨h, ?_, fun hc => ?_⟩
  · rw [h, initializeWallet_initCalls]
  · rw [h]
    exact initializeWallet_wdk pr m _ hc

/-- C4 on the scenario: the twelve-word phrase persisted under "secret1", unlocked with
"secret1". -/
theorem C4_unlock_undoes_persist_witness :
    (demoCipher.decrypt (demoCipher.encrypt demoMnemonic "secret1") "secret1"
        = some demoMnemonic ∧
      lockedState.storage.getItem keyEncrypted
        = some (demoCipher.encrypt demoMnemonic "secret1") ∧
      truthy (lockedState.storage.getItem encryptionPasswordKey) = true) ∧
    (checkExistingWallet demoCipher demoProvider (some "secret1") lockedState).initCalls
      = lockedState.initCalls ++ [demoMnemonic] ∧
    (checkExistingWallet demoCipher demoProvider (some "secret1") lockedState).wdk
      = some demoMnemonic :=
  have h := C4_unlock_undoes_persist demoCipher demoProvider lockedState demoMnemonic
    "secret1" (by decide) (by decide) (by decide) (by decide) (by decide) (by decide)
  ⟨⟨by decide, by decide, by decide⟩, h.2.1, h.2.2 rfl⟩

/-- When the prompt is cancelled or answered with the empty string (`if (!pwd)`), the branch
of the encrypted record shows the error toast "Wallet locked. Please enter password in
Settings to load." and returns: no decryption, no `initializeWallet`, storage unchanged. -/
theorem checkExistingWallet_no_answer (c : Cipher) (pr : Provider) (s : App)
    (answer : Option String) (hanswer : truthy answer = false)
    (henc : truthy (s.storage.getItem keyEncrypted) = true)
    (hflag : truthy (s.storage.getItem encryptionPasswordKey) = true) :
    checkExistingWallet c pr answer s
      = showToast "Wallet locked. Please enter password in Settings to load." "error"
          { s with prompts := s.prompts + 1 } := by
  simp [checkExistingWallet, henc, hflag, hanswer]

/-- C5: on every page whose storage holds a non-empty `wallet_mnemonic_encrypted` with the
flag set (and whatever else, a plaintext record included), when the prompt is answered with a
password `p` (a non-empty string: an empty answer is no password) under which decryption
throws or yields the empty string, `checkExistingWallet` shows the error toast
"Invalid password - cannot unlock wallet", does not call `initializeWallet`, leaves `this.wdk`
and `this.accounts` as they were and leaves storage unchanged. -/
theorem C5_wrong_password_stays_locked (c : Cipher) (pr : Provider) (s : App)
    (ct p : String) (henc : s.storage.getItem keyEncrypted = some ct) (hct : ct ≠ "")
    (hflag : truthy (s.storage.getItem encryptionPasswordKey) = true) (hp : p ≠ "")
    (hdec : c.decrypt ct p = none ∨ c.decrypt ct p = some "") :
    (checkExistingWallet c pr (some p) s).toasts
      = s.toasts ++ [⟨"Invalid password - cannot unlock wallet", "error"⟩] ∧
    (checkExistingWallet c pr (some p) s).initCalls = s.initCalls ∧
    (checkExistingWallet c pr (some p) s).wdk = s.wdk ∧
    (checkExistingWallet c pr (some p) s).accounts = s.accounts ∧
    (checkExistingWallet c pr (some p) s).storage = s.storage := by
  have h : checkExistingWallet c pr (some p) s
      = showToast "Invalid password - cannot unlock wallet" "error"
          { s with prompts := s.prompts + 1 } := by
    have h0 : truthy (some "") = false := by decide
    rcases hdec with hd | hd <;>
      simp [checkExistingWallet, henc, hflag, truthy_some_of_ne hct, truthy_some_of_ne hp,
        strOf, hd, h0]
  rw [h]
  exact ⟨rfl, rfl, rfl, rfl, rfl⟩

/-- C5 on a storage that holds the encrypted record, its flag and also a plaintext record,
with the prompt answered "wrong". -/
theorem C5_wrong_password_stays_locked_witness :
    (bothRecordsState.storage.getItem keyEncrypted
        = some (demoCipher.encrypt demoMnemonic "secret1") ∧
      truthy (bothRecordsState.storage.getItem encryptionPasswordKey) = true ∧
      bothRecordsState.storage.getItem keyPlain = some otherMnemonic ∧
      demoCipher.decrypt (demoCipher.encrypt demoMnemonic "secret1") "wrong" = none) ∧
    (checkExistingWallet demoCipher demoProvider (some "wrong") bothRecordsState).toasts
      = [⟨"Invalid password - cannot unlock wallet", "error"⟩] ∧
    (checkExistingWallet demoCipher demoProvider (some "wrong") bothRecordsState).initCalls
      = [] ∧
    (checkExistingWallet demoCipher demoProvider (some "wrong") bothRecordsState).wdk
      = none :=
  have h := C5_wrong_password_stays_locked demoCipher demoProvider bothRecordsState
    (demoCipher.encrypt demoMnemonic "secret1") "wrong" (by decide) (by decide) (by decide)
    (by decide) (Or.inl (by decide))
  ⟨⟨by decide, by decide, by decide, by decide⟩, h.1, h.2.1, h.2.2.1⟩

/-- C8 (as the code has it): when storage holds neither secret record,
`checkExistingWallet` returns the page as it found it: no toast, no prompt, no call of
`initializeWallet`, whatever the prompt would answer. -/
theorem C8_no_record_returns_silently (c : Cipher) (pr : Provider) (answer : Option String)
    (s : App) (henc : s.storage.getItem keyEncrypted = none)
    (hplain : s.storage.getItem keyPlain = none) :
    checkExistingWallet c pr answer s = s := by
  have h0 : truthy none = false := rfl
  simp [checkExistingWallet, emptyPasswordBranch, plainBranch, henc, hplain, h0]

/-- C8 as amended, on the empty storage. -/
theorem C8_no_record_returns_silently_witness :
    (App.fresh.storage.getItem keyEncrypted = none ∧
      App.fresh.storage.getItem keyPlain = none) ∧
    (checkExistingWallet demoCipher demoProvider none App.fresh).toasts = [] ∧
    (checkExistingWallet demoCipher demoProvider none App.fresh).initCalls = [] :=
  have h := C8_no_record_returns_silently demoCipher demoProvider none App.fresh
    (by decide) (by decide)
  ⟨⟨by decide, by decide⟩, congrArg App.toasts h, congrArg App.initCalls h⟩

/-- C8 as stated fails: on the empty storage `checkExistingWallet` shows no error at all. -/
theorem C8_no_wallet_error_counterexample :
    App.fresh.storage.getItem keyEncrypted = none ∧
    App.fresh.storage.getItem keyPlain = none ∧
    ¬ ∃ t ∈ (checkExistingWallet demoCipher demoProvider none App.fresh).toasts,
        t.type = "error" := by
  decide

/-- C9: when storage holds a non-empty plaintext record `m` and no encrypted record,
`checkExistingWallet` shows the plaintext warning and then calls `initializeWallet(m)`,
without calling `prompt`. -/
theorem C9_plaintext_record_unlocks (c : Cipher) (pr : Provider) (answer : Option String)
    (s : App) (m : String) (hm : m ≠ "") (hplain : s.storage.getItem keyPlain = some m)
    (henc : s.storage.getItem keyEncrypted = none) :
    checkExistingWallet c pr answer s
      = initializeWallet pr m (showToast plaintextFoundToast.message "warning" s) ∧
    (checkExistingWallet c pr answer s).initCalls = s.initCalls ++ [m] ∧
    (checkExistingWallet c pr answer s).prompts = s.prompts ∧
    (∃ t, (checkExistingWallet c pr answer s).toasts
        = s.toasts ++ [plaintextFoundToast, t]) := by
  have h0 : truthy none = false := rfl
  have h : checkExistingWallet c pr answer s
      = initializeWallet pr m (showToast plaintextFoundToast.message "warning" s) := by
    simp [checkExistingWallet, emptyPasswordBranch, plainBranch, henc, hplain, h0,
      truthy_some_of_ne hm, strOf, plaintextFoundToast]
  refine ⟨h, ?_, ?_, ?_⟩
  · rw [h, initializeWallet_initCalls, showToast_initCalls]
  · rw [h, initializeWallet_prompts, showToast_prompts]
  · rw [h]
    rcases initializeWallet_toasts pr m (showToast plaintextFoundToast.message "warning" s)
      with ht | ht
    · exact ⟨⟨"Wallet loaded successfully", "success"⟩, by
        rw [ht]; simp [plaintextFoundToast]⟩
    · exact ⟨⟨"Failed to initialize wallet", "error"⟩, by
        rw [ht]; simp [plaintextFoundToast]⟩

/-- C9 on a storage holding only the twelve-word phrase in plaintext. -/
theorem C9_plaintext_record_unlocks_witness :
    (demoMnemonic ≠ "" ∧ plainState.storage.getItem keyPlain = some demoMnemonic ∧
      plainState.storage.getItem keyEncrypted = none) ∧
    (checkExistingWallet demoCipher demoProvider (some "secret1") plainState).initCalls
      = [demoMnemonic] ∧
    (checkExistingWallet demoCipher demoProvider (some "secret1") plainState).prompts = 0 :=
  have h := C9_plaintext_record_unlocks demoCipher demoProvider (some "secret1") plainState
    demoMnemonic (by decide) (by decide) (by decide)
  ⟨⟨by decide, by decide, by decide⟩, h.2.1, h.2.2.1⟩

/-- C10 (as the code has it): with a non-empty encrypted record `ct` and no flag,
`checkExistingWallet` decrypts `ct` with the empty password. When that yields a non-empty
phrase it calls `initializeWallet` with it and never calls `prompt`. When it throws or yields
the empty string, `prompt` is not called either: the function goes on to the plaintext
record (warning and `initializeWallet` when one is stored, else nothing at all). -/
theorem C10_inconsistent_state_never_prompts (c : Cipher) (pr : Provider)
    (answer : Option String) (s : App) (ct : String)
    (henc : s.storage.getItem keyEncrypted = some ct) (hct : ct ≠ "")
    (hflag : truthy (s.storage.getItem encryptionPasswordKey) = false) :
    (∀ dec : String, c.decrypt ct "" = some dec → dec ≠ "" →
      checkExistingWallet c pr answer s = initializeWallet pr dec s ∧
      (checkExistingWallet c pr answer s).initCalls = s.initCalls ++ [dec] ∧
      (checkExistingWallet c pr answer s).prompts = s.prompts) ∧
    ((c.decrypt ct "" = none ∨ c.decrypt ct "" = some "") →
      checkExistingWallet c pr answer s = plainBranch pr (s.storage.getItem keyPlain) s ∧
      (checkExistingWallet c pr answer s).prompts = s.prompts ∧
      (truthy (s.storage.getItem keyPlain) = false →
        checkExistingWallet c pr answer s = s)) := by
  have h0 : truthy (some "") = false := by decide
  constructor
  · intro dec hdec hne
    have h : checkExistingWallet c pr answer s = initializeWallet pr dec s := by
      simp [checkExistingWallet, emptyPasswordBranch, henc, hflag, truthy_some_of_ne hct,
        strOf, hdec, truthy_some_of_ne hne]
    refine ⟨h, ?_, ?_⟩
    · rw [h, initializeWallet_initCalls]
    · rw [h, initializeWallet_prompts]
  · intro hdec
    have h : checkExistingWallet c pr answer s
        = plainBranch pr (s.storage.getItem keyPlain) s := by
      rcases hdec with hd | hd <;>
        simp [checkExistingWallet, emptyPasswordBranch, henc, hflag, truthy_some_of_ne hct,
          strOf, hd, h0]
    refine ⟨h, ?_, fun hp => ?_⟩
    · rw [h]
      unfold plainBranch
      split_ifs
      · rw [initializeWallet_prompts, showToast_prompts]
      · rfl
    · rw [h]
      simp [plainBranch, hp]

/-- C10 as amended, on a record encrypted under the empty password (unlocked without a
prompt) and on a record encrypted under "secret1" (left locked without a prompt). -/
theorem C10_inconsistent_state_never_prompts_witness :
    (emptyPasswordState.storage.getItem keyEncrypted
        = some (demoCipher.encrypt demoMnemonic "") ∧
      truthy (emptyPasswordState.storage.getItem encryptionPasswordKey) = false ∧
      demoCipher.decrypt (demoCipher.encrypt demoMnemonic "") "" = some demoMnemonic) ∧
    (checkExistingWallet demoCipher demoProvider (some "secret1") emptyPasswordState).initCalls
      = [demoMnemonic] ∧
    (checkExistingWallet demoCipher demoProvider (some "secret1") emptyPasswordState).prompts
      = 0 ∧
    checkExistingWallet demoCipher demoProvider (some "secret1") inconsistentState
      = inconsistentState :=
  have h := C10_inconsistent_state_never_prompts demoCipher demoProvider (some "secret1")
    emptyPasswordState (demoCipher.encrypt demoMnemonic "") (by decide) (by decide)
    (by decide)
  have h' := C10_inconsistent_state_never_prompts demoCipher demoProvider (some "secret1")
    inconsistentState (demoCipher.encrypt demoMnemonic "secret1") (by decide) (by decide)
    (by decide)
  ⟨⟨by decide, by decide, by decide⟩, (h.1 demoMnemonic (by decide) (by decide)).2.1,
    (h.1 demoMnemonic (by decide) (by decide)).2.2,
    (h'.2 (Or.inl (by decide))).2.2 (by decide)⟩

/-- C10 as stated fails: with the record encrypted under "secret1" and no flag, decryption
with the empty password throws, and `checkExistingWallet` returns without having called
`prompt`, although the prompt would have been answered with the right password. -/
theorem C10_no_prompt_after_failed_empty_password_counterexample :
    truthy (inconsistentState.storage.getItem keyEncrypted) = true ∧
    inconsistentState.storage.getItem encryptionPasswordKey = none ∧
    demoCipher.decrypt (strOf (inconsistentState.storage.getItem keyEncrypted)) "" = none ∧
    (checkExistingWallet demoCipher demoProvider (some "secret1") inconsistentState).prompts
      = 0 ∧
    (checkExistingWallet demoCipher demoProvider (some "secret1") inconsistentState).initCalls
      = [] := by
  decide

/-! ## Setting the password -/

/-- C6: for a password of 1 to 5 characters (UTF-16 code units, the `length` the code
tests), `saveSettings` shows the error toast "Password should be at least 6 characters" and
changes nothing else: storage, hence every key of it, is as before. For a password of at
least 6 characters `saveSettings` shows a success toast, remembers the password and sets the
flag. -/
theorem C6_weak_password_rejected (c : Cipher) (s : App) (p : String) :
    (1 ≤ jsLength p → jsLength p ≤ 5 →
      saveSettings c p s = showToast "Password should be at least 6 characters" "error" s ∧
      (saveSettings c p s).storage = s.storage) ∧
    (6 ≤ jsLength p →
      (∃ msg, (saveSettings c p s).toasts = s.toasts ++ [⟨msg, "success"⟩]) ∧
      (saveSettings c p s).storage.getItem keyPass = some p ∧
      (saveSettings c p s).storage.getItem encryptionPasswordKey = some "1") := by
  constructor
  · intro h1 h5
    have hne : p ≠ "" := ne_empty_of_jsLength_pos (by omega)
    have hlt : jsLength p < 6 := by omega
    have h : saveSettings c p s
        = showToast "Password should be at least 6 characters" "error" s := by
      simp [saveSettings, truthy_some_of_ne hne, hlt]
    rw [h]
    exact ⟨rfl, rfl⟩
  · intro h6
    have hne : p ≠ "" := ne_empty_of_jsLength_pos (by omega)
    have hlt : ¬ jsLength p < 6 := by omega
    have h1 : keyPass ≠ keyEncrypted := by decide
    have h2 : encryptionPasswordKey ≠ keyEncrypted := by decide
    have h3 : keyPass ≠ keyPlain := by decide
    have h4 : keyPass ≠ encryptionPasswordKey := by decide
    have h5 : encryptionPasswordKey ≠ keyPlain := by decide
    simp only [saveSettings, truthy_some_of_ne hne, hlt, decide_False, Bool.and_false,
      if_true, Bool.false_eq_true, if_false]
    split_ifs
    · refine ⟨⟨_, rfl⟩, ?_, ?_⟩ <;>
        simp [Storage.getItem, Storage.setItem, Storage.removeItem, h1, h2, h3, h4, h5]
    · refine ⟨⟨_, rfl⟩, ?_, ?_⟩ <;>
        simp [Storage.getItem, Storage.setItem, Storage.removeItem, h1, h2, h3, h4, h5]

/-- C6 at the password "short" on a storage with a remembered password and a plaintext
record, and at the accepted password "secret1". -/
theorem C6_weak_password_rejected_witness :
    (1 ≤ jsLength "short" ∧ jsLength "short" ≤ 5 ∧ 6 ≤ jsLength "secret1") ∧
    (saveSettings demoCipher "short" rememberedState).storage = rememberedState.storage ∧
    (saveSettings demoCipher "short" rememberedState).toasts
      = [⟨"Password should be at least 6 characters", "error"⟩] ∧
    (saveSettings demoCipher "secret1" App.fresh).storage.getItem keyPass = some "secret1" :=
  have h := C6_weak_password_rejected demoCipher rememberedState "short"
  have h' := C6_weak_password_rejected demoCipher App.fresh "secret1"
  ⟨⟨by decide, by decide, by decide⟩, (h.1 (by decide) (by decide)).2,
    congrArg App.toasts (h.1 (by decide) (by decide)).1, (h'.2 (by decide)).2.1⟩

/-! ## Export and logout -/

theorem exportMnemonic_of_decrypted (c : Cipher) (s : App) (ct p dec : String)
    (henc : s.storage.getItem keyEncrypted = some ct) (hct : ct ≠ "")
    (hpass : s.storage.getItem keyPass = some p) (hp : p ≠ "")
    (hdec : c.decrypt ct p = some dec) :
    exportMnemonic c s
      = showToast "Mnemonic copied to clipboard (decrypted)." "success" (writeText dec s) := by
  simp [exportMnemonic, henc, hpass, truthy_some_of_ne hct, truthy_some_of_ne hp, strOf, hdec]

theorem exportMnemonic_of_throw (c : Cipher) (s : App) (ct p : String)
    (henc : s.storage.getItem keyEncrypted = some ct) (hct : ct ≠ "")
    (hpass : s.storage.getItem keyPass = some p) (hp : p ≠ "")
    (hdec : c.decrypt ct p = none) :
    exportMnemonic c s
      = showToast "Failed to decrypt mnemonic. Check password in Settings." "error" s := by
  simp [exportMnemonic, henc, hpass, truthy_some_of_ne hct, truthy_some_of_ne hp, strOf, hdec]

/-- C11 (counterexample): after the password was changed from "secret1" to "secret2" an
encrypted record and a remembered password both exist, and the record holds the twelve-word
phrase; `exportMnemonic` shows the failure toast and copies nothing where decryption throws,
and copies the empty string where decryption yields it: in neither case the stored phrase. -/
theorem C11_export_after_password_change_counterexample :
    changedPasswordState.storage.getItem keyEncrypted
      = some (demoCipher.encrypt demoMnemonic "secret1") ∧
    changedPasswordState.storage.getItem keyPass = some "secret2" ∧
    (exportMnemonic demoCipher changedPasswordState).clipboard = [] ∧
    (exportMnemonic demoCipher changedPasswordState).toasts
      = changedPasswordState.toasts
        ++ [⟨"Failed to decrypt mnemonic. Check password in Settings.", "error"⟩] ∧
    (exportMnemonic blankCipher changedPasswordState).clipboard = [""] ∧
    (exportMnemonic blankCipher changedPasswordState).clipboard ≠ [demoMnemonic] := by
  decide

/-- C11 (amended): when a non-empty encrypted record and a non-empty remembered password are
stored, `exportMnemonic` copies the stored secret if the record is its encryption under the
remembered password (and decryption undoes encryption); in general it copies whatever the
decryption under the remembered password returns, with the success toast, and copies nothing
and shows the failure toast when the decryption throws. Otherwise it copies the plaintext
record when one is stored; and when only an encrypted record is stored, with no remembered
password, it shows the error toast "No mnemonic found to export." and copies nothing. -/
theorem C11_export_from_available_form (c : Cipher) (s : App) :
    (∀ m p : String, s.storage.getItem keyEncrypted = some (c.encrypt m p) →
      c.encrypt m p ≠ "" → s.storage.getItem keyPass = some p → p ≠ "" →
      c.decrypt (c.encrypt m p) p = some m →
      (exportMnemonic c s).clipboard = s.clipboard ++ [m] ∧
      (exportMnemonic c s).toasts
        = s.toasts ++ [⟨"Mnemonic copied to clipboard (decrypted).", "success"⟩]) ∧
    (∀ ct p : String, s.storage.getItem keyEncrypted = some ct → ct ≠ "" →
      s.storage.getItem keyPass = some p → p ≠ "" →
      (∀ dec, c.decrypt ct p = some dec →
        (exportMnemonic c s).clipboard = s.clipboard ++ [dec] ∧
        (exportMnemonic c s).toasts
          = s.toasts ++ [⟨"Mnemonic copied to clipboard (decrypted).", "success"⟩]) ∧
      (c.decrypt ct p = none →
        (exportMnemonic c s).clipboard = s.clipboard ∧
        (exportMnemonic c s).toasts
          = s.toasts
            ++ [⟨"Failed to decrypt mnemonic. Check password in Settings.", "error"⟩])) ∧
    (∀ m : String,
      (truthy (s.storage.getItem keyEncrypted) && truthy (s.storage.getItem keyPass)) = false →
      s.storage.getItem keyPlain = some m → m ≠ "" →
      (exportMnemonic c s).clipboard = s.clipboard ++ [m] ∧
      (exportMnemonic c s).toasts = s.toasts ++ [⟨"Mnemonic copied to clipboard.", "success"⟩]) ∧
    (truthy (s.storage.getItem keyEncrypted) = true →
      truthy (s.storage.getItem keyPass) = false →
      truthy (s.storage.getItem keyPlain) = false →
      (exportMnemonic c s).clipboard = s.clipboard ∧
      (exportMnemonic c s).toasts = s.toasts ++ [⟨"No mnemonic found to export.", "error"⟩]) := by
  refine ⟨?_, ?_, ?_, ?_⟩
  · intro m p henc hct hpass hp hdec
    rw [exportMnemonic_of_decrypted c s (c.encrypt m p) p m henc hct hpass hp hdec]
    exact ⟨rfl, rfl⟩
  · intro ct p henc hct hpass hp
    constructor
    · intro dec hdec
      rw [exportMnemonic_of_decrypted c s ct p dec henc hct hpass hp hdec]
      exact ⟨rfl, rfl⟩
    · intro hdec
      rw [exportMnemonic_of_throw c s ct p henc hct hpass hp hdec]
      exact ⟨rfl, rfl⟩
  · intro m hno hplain hm
    have h : exportMnemonic c s
        = showToast "Mnemonic copied to clipboard." "success" (writeText m s) := by
      simp only [exportMnemonic, hno, hplain, truthy_some_of_ne hm, strOf, Option.getD_some,
        Bool.false_eq_true, if_false, if_true]
    rw [h]
    exact ⟨rfl, rfl⟩
  · intro henc hpass hplain
    have h : exportMnemonic c s = showToast "No mnemonic found to export." "error" s := by
      simp [exportMnemonic, henc, hpass, hplain]
    rw [h]
    exact ⟨rfl, rfl⟩

/-- C11 on three pages: an encrypted record with the password it was encrypted under
remembered, a plaintext record alone, an encrypted record alone. -/
theorem C11_export_from_available_form_witness :
    (lockedState.storage.getItem keyEncrypted
        = some (demoCipher.encrypt demoMnemonic "secret1") ∧
      lockedState.storage.getItem keyPass = some "secret1" ∧
      demoCipher.decrypt (demoCipher.encrypt demoMnemonic "secret1") "secret1"
        = some demoMnemonic ∧
      plainState.storage.getItem keyPlain = some demoMnemonic ∧
      truthy (inconsistentState.storage.getItem keyEncrypted) = true ∧
      truthy (inconsistentState.storage.getItem keyPass) = false) ∧
    (exportMnemonic demoCipher lockedState).clipboard = [demoMnemonic] ∧
    (exportMnemonic demoCipher plainState).clipboard = [demoMnemonic] ∧
    (exportMnemonic demoCipher inconsistentState).clipboard = [] ∧
    (exportMnemonic demoCipher inconsistentState).toasts
      = [⟨"No mnemonic found to export.", "error"⟩] :=
  have h1 := (C11_export_from_available_form demoCipher lockedState).1
    demoMnemonic "secret1" (by decide) (by decide) (by decide) (by decide) (by decide)
  have h2 := (C11_export_from_available_form demoCipher plainState).2.2.1 demoMnemonic
    (by decide) (by decide) (by decide)
  have h3 := (C11_export_from_available_form demoCipher inconsistentState).2.2.2
    (by decide) (by decide) (by decide)
  ⟨⟨by decide, by decide, by decide, by decide, by decide, by decide⟩, h1.1, h2.1, h3.1, h3.2⟩

/-- C12 (defect of the code): after the password was changed from "secret1" to "secret2",
the stored ciphertext no longer decrypts under the remembered password; with a cipher that
yields the empty string there, `exportMnemonic` copies the empty string to the clipboard and
shows the success toast "Mnemonic copied to clipboard (decrypted).". -/
theorem C12_export_succeeds_with_empty_decryption :
    changedPasswordState.storage.getItem keyEncrypted
      = some (blankCipher.encrypt demoMnemonic "secret1") ∧
    changedPasswordState.storage.getItem keyPass = some "secret2" ∧
    blankCipher.decrypt (blankCipher.encrypt demoMnemonic "secret1") "secret2" = some "" ∧
    (exportMnemonic blankCipher changedPasswordState).clipboard = [""] ∧
    (exportMnemonic blankCipher changedPasswordState).toasts
      = changedPasswordState.toasts
        ++ [⟨"Mnemonic copied to clipboard (decrypted).", "success"⟩] := by
  have h := exportMnemonic_of_decrypted blankCipher changedPasswordState
    (blankCipher.encrypt demoMnemonic "secret1") "secret2" "" (by decide) (by decide)
    (by decide) (by decide) (by decide)
  refine ⟨by decide, by decide, by decide, ?_, ?_⟩
  · rw [h]
    decide
  · rw [h]
    rfl

/-- C13: after `logout`, `wallet_mnemonic_plain` and `wallet_mnemonic_encrypted` are absent,
while `wallet_enc_pass_plain`, the flag `wallet_enc_password`, `custom_tokens` and the field
`this.customTokens` are as before. -/
theorem C13_logout_removes_only_the_records (s : App) :
    (logout s).storage.getItem keyEncrypted = none ∧
    (logout s).storage.getItem keyPlain = none ∧
    (logout s).storage.getItem keyPass = s.storage.getItem keyPass ∧
    (logout s).storage.getItem encryptionPasswordKey
      = s.storage.getItem encryptionPasswordKey ∧
    (logout s).storage.getItem keyCustomTokens = s.storage.getItem keyCustomTokens ∧
    (logout s).customTokens = s.customTokens := by
  have h1 : keyEncrypted ≠ keyPlain := by decide
  have h2 : keyPass ≠ keyPlain := by decide
  have h3 : keyPass ≠ keyEncrypted := by decide
  have h4 : encryptionPasswordKey ≠ keyPlain := by decide
  have h5 : encryptionPasswordKey ≠ keyEncrypted := by decide
  have h6 : keyCustomTokens ≠ keyPlain := by decide
  have h7 : keyCustomTokens ≠ keyEncrypted := by decide
  refine ⟨?_, ?_, ?_, ?_, ?_, rfl⟩ <;>
    simp [logout, Storage.getItem, Storage.removeItem, h1, h2, h3, h4, h5, h6, h7]

/-- C14 (as the code has it): `logout` leaves `this.accounts` and `this.wdk` exactly as they
were: the account handles derived in the session and the WDK instance built from the seed
stay in memory. -/
theorem C14_logout_keeps_the_accounts (s : App) :
    (logout s).accounts = s.accounts ∧ (logout s).wdk = s.wdk := ⟨rfl, rfl⟩

/-- C14 as stated fails: after a wallet was created and `logout` ran, the accounts map still
holds the five account handles and the WDK instance is still the one built from the seed. -/
theorem C14_accounts_survive_logout_counterexample :
    (logout unlockedState).accounts ≠ [] ∧
    (logout unlockedState).accounts.map Prod.fst = chainNames ∧
    (logout unlockedState).wdk = some demoMnemonic := by
  decide

/-! ## The balance report -/

theorem map_some_filterMap {α β : Type} (f : α → Option β) (l : List α) :
    (l.filterMap f).map some = (l.filter (fun a => (f a).isSome)).map f := by
  induction l with
  | nil => rfl
  | cons a l ih =>
    cases h : f a with
    | none => simp [List.filterMap_cons, List.filter_cons, h, ih]
    | some b => simp [List.filterMap_cons, List.filter_cons, h, ih]

theorem length_filter_enumFrom {α : Type} (q : α → Bool) (l : List α) :
    ∀ n, ((List.enumFrom n l).filter (fun p => q p.2)).length = (l.filter q).length := by
  induction l with
  | nil => intro n; rfl
  | cons a l ih =>
    intro n
    rw [List.enumFrom_cons, List.filter_cons, List.filter_cons]
    by_cases h : q a = true
    · simp [h, ih (n + 1)]
    · simp [h, ih (n + 1)]

/-- On an EVM chain `loadTokens` appends one row per token whose `try` block does not throw,
in list order, sends the price request when there is an id to ask for, and does not throw. -/
theorem loadTokens_of_evm (d : Display) (bal : Balances)
    (oracle : List String → Option PriceMap) (s : App)
    (hevm : isEvm s.currentChain = true) :
    loadTokens d bal oracle s =
      { items := (allTokens s).enum.filterMap (fun p =>
          (tokenBalance bal s p.1 p.2).bind
            (tokenItem d (fetchPriceMap oracle (newSet (cgIds (allTokens s)))) p.2)),
        priceRequests :=
          if (newSet (cgIds (allTokens s))).length != 0 then [newSet (cgIds (allTokens s))]
          else [],
        threw := false } := by
  simp [loadTokens, hevm]

/-- With a response that is not `null` every token whose balance was fetched has a row. -/
theorem tokenItem_object (d : Display) (entries : String → PriceEntry) (token : Token)
    (balance : Nat) : (tokenItem d (.object entries) token balance).isSome = true := by
  unfold tokenItem usdPrice
  split_ifs
  · dsimp only
    generalize entries (strOf token.coingeckoId) = e
    cases e <;> rfl
  · rfl

/-- With a `null` response the tokens that have a row are those without an oracle id. -/
theorem tokenItem_null (d : Display) (token : Token) (balance : Nat) :
    (tokenItem d .null token balance).isSome = !truthy token.coingeckoId := by
  unfold tokenItem usdPrice
  split_ifs with h
  · simp [h]
  · simp [h]

/-- The rows of a stretch of the list whose balance queries all answer. -/
theorem rows_of_answers (d : Display) (bal : Balances) (priceMap : PriceMap) (s : App)
    (raw : Nat → Nat) (l : List (Nat × Token))
    (hall : ∀ p ∈ l, tokenBalance bal s p.1 p.2 = some (raw p.1)) :
    (l.filterMap (fun p => (tokenBalance bal s p.1 p.2).bind (tokenItem d priceMap p.2))).map
        some
      = (l.filter (fun p => (tokenItem d priceMap p.2 (raw p.1)).isSome)).map
          (fun p => tokenItem d priceMap p.2 (raw p.1)) := by
  have hcongr : l.filterMap (fun p => (tokenBalance bal s p.1 p.2).bind
        (tokenItem d priceMap p.2))
      = l.filterMap (fun p => tokenItem d priceMap p.2 (raw p.1)) := by
    apply List.filterMap_congr
    intro p hp
    rw [hall p hp]
    rfl
  rw [hcongr, map_some_filterMap]

theorem rows_of_answers_object (d : Display) (bal : Balances) (entries : String → PriceEntry)
    (s : App) (raw : Nat → Nat) (l : List (Nat × Token))
    (hall : ∀ p ∈ l, tokenBalance bal s p.1 p.2 = some (raw p.1)) :
    (l.filterMap (fun p =>
        (tokenBalance bal s p.1 p.2).bind (tokenItem d (.object entries) p.2))).map some
      = l.map (fun p => tokenItem d (.object entries) p.2 (raw p.1)) := by
  rw [rows_of_answers d bal (.object entries) s raw l hall]
  congr 1
  apply List.filter_eq_self.2
  intro p _
  exact tokenItem_object d entries p.2 (raw p.1)

theorem rows_of_answers_null (d : Display) (bal : Balances) (s : App) (raw : Nat → Nat)
    (l : List (Nat × Token))
    (hall : ∀ p ∈ l, tokenBalance bal s p.1 p.2 = some (raw p.1)) :
    (l.filterMap (fun p =>
        (tokenBalance bal s p.1 p.2).bind (tokenItem d .null p.2))).map some
      = (withoutId l).map (fun p => tokenItem d .null p.2 (raw p.1)) := by
  rw [rows_of_answers d bal .null s raw l hall]
  congr 1
  unfold withoutId
  apply List.filter_congr
  intro p _
  exact tokenItem_null d p.2 (raw p.1)

/-- A token with no oracle id, or with no entry in a price response that is not `null`, has
the USD value "0.00" whenever its displayed balance is a finite number. -/
theorem usdValue_of_no_price (d : Display) (priceMap : PriceMap) (token : Token)
    (text : String) (hfinite : nonFinite text = false)
    (hprice : truthy token.coingeckoId = false ∨
      ∃ entries, priceMap = .object entries ∧
        entries (strOf token.coingeckoId) = PriceEntry.absent) :
    (usdPrice priceMap token).map (usdValue d text) = some "0.00" := by
  have hz : usdPrice priceMap token = some UsdPrice.zero := by
    unfold usdPrice
    rcases hprice with h | ⟨entries, hmap, h⟩
    · simp [h]
    · rw [hmap]
      simp only [h]
      split_ifs <;> rfl
  rw [hz]
  simp [usdValue, hfinite]

/-- When the price request fails, or none is sent, `priceMap` is the empty object. -/
theorem fetchPriceMap_of_failure (oracle : List String → Option PriceMap)
    (uniqueIds : List String) (h : uniqueIds = [] ∨ oracle uniqueIds = none) :
    fetchPriceMap oracle uniqueIds = .object (fun _ => PriceEntry.absent) := by
  unfold fetchPriceMap
  rcases h with h | h
  · simp [h]
  · rw [h]
    split_ifs <;> rfl

/-- C15 (as the code has it): on an EVM chain the token list is the built-in list of the
chain followed by its custom list, with no entry removed. When every balance query answers
and the price response is not `null`, `loadTokens` shows one row per entry of that
concatenation, in order, so an address listed twice gets two rows; when the price response is
`null`, the rows are those of the entries without an oracle id, again one per entry. -/
theorem C15_token_list_is_the_concatenation (d : Display) (bal : Balances)
    (oracle : List String → Option PriceMap) (s : App) (raw : Nat → Nat)
    (hevm : isEvm s.currentChain = true)
    (hall : ∀ p ∈ (allTokens s).enum, tokenBalance bal s p.1 p.2 = some (raw p.1)) :
    allTokens s = (List.lookup s.currentChain defaultTokens).getD []
      ++ (List.lookup s.currentChain s.customTokens).getD [] ∧
    (∀ entries, fetchPriceMap oracle (newSet (cgIds (allTokens s))) = .object entries →
      (loadTokens d bal oracle s).items.map some
        = (allTokens s).enum.map (fun p => tokenItem d (.object entries) p.2 (raw p.1)) ∧
      (loadTokens d bal oracle s).items.length
        = ((List.lookup s.currentChain defaultTokens).getD []).length
          + ((List.lookup s.currentChain s.customTokens).getD []).length) ∧
    (fetchPriceMap oracle (newSet (cgIds (allTokens s))) = .null →
      (loadTokens d bal oracle s).items.map some
        = (withoutId (allTokens s).enum).map (fun p => tokenItem d .null p.2 (raw p.1)) ∧
      (loadTokens d bal oracle s).items.length
        = ((allTokens s).filter (fun t => !truthy t.coingeckoId)).length) := by
  refine ⟨rfl, ?_, ?_⟩
  · intro entries hmap
    have hitems : (loadTokens d bal oracle s).items.map some
        = (allTokens s).enum.map (fun p => tokenItem d (.object entries) p.2 (raw p.1)) := by
      rw [loadTokens_of_evm d bal oracle s hevm]
      simp only [hmap]
      exact rows_of_answers_object d bal entries s raw _ hall
    refine ⟨hitems, ?_⟩
    have hlen := congrArg List.length hitems
    rw [List.length_map, List.length_map, List.enum_length] at hlen
    rw [hlen, allTokens, List.length_append]
  · intro hmap
    have hitems : (loadTokens d bal oracle s).items.map some
        = (withoutId (allTokens s).enum).map (fun p => tokenItem d .null p.2 (raw p.1)) := by
      rw [loadTokens_of_evm d bal oracle s hevm]
      simp only [hmap]
      exact rows_of_answers_null d bal s raw _ hall
    refine ⟨hitems, ?_⟩
    have hlen := congrArg List.length hitems
    rw [List.length_map, List.length_map] at hlen
    rw [hlen]
    exact length_filter_enumFrom (fun t => !truthy t.coingeckoId) (allTokens s) 0

/-- C15 as amended, on the page where USDT was added a second time on ethereum: four rows
with the prices of the scenario, and with a `null` price response the one row of the added
entry, which has no oracle id. -/
theorem C15_token_list_is_the_concatenation_witness :
    (isEvm duplicateState.currentChain = true ∧
      ∀ p ∈ (allTokens duplicateState).enum,
        tokenBalance scenarioBalances duplicateState p.1 p.2 = some 0) ∧
    (loadTokens demoDisplay scenarioBalances scenarioOracle duplicateState).items.length
      = 3 + 1 ∧
    (loadTokens demoDisplay scenarioBalances nullOracle duplicateState).items
      = [.token "USDT" "Tether USD" "0.0000" "0.00"] :=
  have h := C15_token_list_is_the_concatenation demoDisplay scenarioBalances scenarioOracle
    duplicateState (fun _ => 0) (by decide) (by decide)
  ⟨⟨by decide, by decide⟩, (h.2.1 scenarioPrices rfl).2, by decide⟩

/-- C15 as stated fails: after USDT was added on ethereum with its address in lower case,
the token list holds that address twice (compared without regard to case) and `loadTokens`
shows four rows, two of them for USDT. -/
theorem C15_duplicate_address_counterexample :
    isEvm duplicateState.currentChain = true ∧
    ¬ ((allTokens duplicateState).map (fun t => asciiLower t.address)).Nodup ∧
    (loadTokens demoDisplay scenarioBalances scenarioOracle duplicateState).items
      = [.token "USDT" "Tether USD" "0.0000" "0.00", .token "USDC" "USD Coin" "0.0000" "0.00",
         .token "DAI" "Dai Stablecoin" "0.0000" "0.00",
         .token "USDT" "Tether USD" "0.0000" "0.00"] := by
  decide

/-- C16 (as the code has it): on an EVM chain, when the balance query of exactly one token
of the list fails, `loadTokens` does not throw and the failed token gets no row. With a price
response that is not `null` there is one row for each of the other tokens, each with its own
balance and value and in list order, so the report has one row less than the list has
tokens; with a `null` response the rows are those of the other tokens that have no oracle
id. The failed query is the one at its position: another entry with the same address has
its row when its own query answers. -/
theorem C16_failed_token_gets_no_row (d : Display) (bal : Balances)
    (oracle : List String → Option PriceMap) (s : App) (raw : Nat → Nat)
    (before after : List Token) (failed : Token)
    (hevm : isEvm s.currentChain = true)
    (hlist : allTokens s = before ++ failed :: after)
    (hfail : tokenBalance bal s before.length failed = none)
    (hok : ∀ p ∈ before.enum ++ after.enumFrom (before.length + 1),
      tokenBalance bal s p.1 p.2 = some (raw p.1)) :
    (∀ entries, fetchPriceMap oracle (newSet (cgIds (allTokens s))) = .object entries →
      (loadTokens d bal oracle s).items.map some
        = (before.enum ++ after.enumFrom (before.length + 1)).map
            (fun p => tokenItem d (.object entries) p.2 (raw p.1)) ∧
      (loadTokens d bal oracle s).items.length + 1 = (allTokens s).length) ∧
    (fetchPriceMap oracle (newSet (cgIds (allTokens s))) = .null →
      (loadTokens d bal oracle s).items.map some
        = (withoutId (before.enum ++ after.enumFrom (before.length + 1))).map
            (fun p => tokenItem d .null p.2 (raw p.1))) ∧
    (loadTokens d bal oracle s).threw = false := by
  have henum : (allTokens s).enum
      = before.enum ++ (before.length, failed) :: after.enumFrom (before.length + 1) := by
    rw [hlist, List.enum_append, List.enumFrom_cons]
  have hdrop : ∀ priceMap : PriceMap,
      (allTokens s).enum.filterMap (fun p =>
          (tokenBalance bal s p.1 p.2).bind (tokenItem d priceMap p.2))
        = (before.enum ++ after.enumFrom (before.length + 1)).filterMap (fun p =>
          (tokenBalance bal s p.1 p.2).bind (tokenItem d priceMap p.2)) := by
    intro priceMap
    rw [henum, List.filterMap_append, List.filterMap_cons, List.filterMap_append]
    simp only [hfail, Option.none_bind]
  refine ⟨?_, ?_, ?_⟩
  · intro entries hmap
    have hitems : (loadTokens d bal oracle s).items.map some
        = (before.enum ++ after.enumFrom (before.length + 1)).map
            (fun p => tokenItem d (.object entries) p.2 (raw p.1)) := by
      rw [loadTokens_of_evm d bal oracle s hevm]
      simp only [hmap]
      rw [hdrop]
      exact rows_of_answers_object d bal entries s raw _ hok
    refine ⟨hitems, ?_⟩
    have hlen := congrArg List.length hitems
    rw [List.length_map, List.length_map, List.length_append, List.enum_length,
      List.enumFrom_length] at hlen
    rw [hlen, hlist, List.length_append, List.length_cons]
    omega
  · intro hmap
    rw [loadTokens_of_evm d bal oracle s hevm]
    simp only [hmap]
    rw [hdrop]
    exact rows_of_answers_null d bal s raw _ hok
  · rw [loadTokens_of_evm d bal oracle s hevm]

/-- C16 as amended, on the page where USDT is listed twice on ethereum with one address:
the first query of the report rejects and the later ones answer, so the built-in USDT has no
row and the entry added with the same address has one. -/
theorem C16_failed_token_gets_no_row_witness :
    (isEvm repeatedState.currentChain = true ∧
      (allTokens repeatedState).map (fun t => t.address)
        = ["0xdAC17F958D2ee523a2206206994597C13D831ec7",
           "0xA0b86991c6218b36c1d19D4a2e9Eb0cE3606eB48",
           "0x6B175474E89094C44Da98b954EedeAC495271d0F",
           "0xdAC17F958D2ee523a2206206994597C13D831ec7"] ∧
      tokenBalance firstQueryFails repeatedState 0
        ⟨"0xdAC17F958D2ee523a2206206994597C13D831ec7", "USDT", "Tether USD", .number 6,
          some "tether"⟩ = none) ∧
    (loadTokens demoDisplay firstQueryFails scenarioOracle repeatedState).items.length + 1
      = (allTokens repeatedState).length ∧
    (loadTokens demoDisplay firstQueryFails scenarioOracle repeatedState).items
      = [.token "USDC" "USD Coin" "0.0000" "0.00", .token "DAI" "Dai Stablecoin" "0.0000" "0.00",
         .token "USDT" "Tether USD" "0.0000" "0.00"] ∧
    (loadTokens demoDisplay firstQueryFails scenarioOracle repeatedState).threw = false :=
  have h := C16_failed_token_gets_no_row demoDisplay firstQueryFails scenarioOracle
    repeatedState (fun _ => 0) []
    [⟨"0xA0b86991c6218b36c1d19D4a2e9Eb0cE3606eB48", "USDC", "USD Coin", .number 6,
        some "usd-coin"⟩,
      ⟨"0x6B175474E89094C44Da98b954EedeAC495271d0F", "DAI", "Dai Stablecoin", .number 18,
        some "dai"⟩,
      ⟨"0xdAC17F958D2ee523a2206206994597C13D831ec7", "USDT", "Tether USD", .number 6, none⟩]
    ⟨"0xdAC17F958D2ee523a2206206994597C13D831ec7", "USDT", "Tether USD", .number 6,
      some "tether"⟩
    (by decide) (by decide) (by decide) (by decide)
  ⟨⟨by decide, by decide, by decide⟩, (h.1 scenarioPrices rfl).2, by decide, h.2.2⟩

/-- C16 as stated fails: on polygon with the USDC query rejecting, the list has two tokens
and the report has one row, the one of USDT; there is no zero-valued row for USDC. -/
theorem C16_no_zero_row_counterexample :
    (allTokens polygonState).length = 2 ∧
    tokenBalance failingBalances polygonState 0 polygonUsdt = some 1500000 ∧
    tokenBalance failingBalances polygonState 1 polygonUsdc = none ∧
    (loadTokens demoDisplay failingBalances scenarioOracle polygonState).items
      = [.token "USDT" "Tether USD" "1.5000" "1.50"] := by
  decide

/-- C17 (defect of the code): on polygon, with both balance queries answering and a price
response whose entry for tether has no `usd` price, the USDT row shows its balance and the
USD value "NaN", whatever the double arithmetic computes; only the test on `priceMap[id]`
stands before the read of `.usd`. -/
theorem C17_entry_without_usd_shows_NaN (d : Display) :
    (loadTokens d scenarioBalances noUsdOracle polygonState).items
      = [.token "USDT" "Tether USD" (d.balanceFormatted 1500000 (.number 6) 4) "NaN",
         .token "USDC" "USD Coin" (d.balanceFormatted 0 (.number 6) 4)
           (d.usdValue (d.balanceFormatted 0 (.number 6) 4) "0.999")] := by
  rw [loadTokens_of_evm d scenarioBalances noUsdOracle polygonState (by decide)]
  have hl : allTokens polygonState = [polygonUsdt, polygonUsdc] := by decide
  have h1 : tokenBalance scenarioBalances polygonState 0 polygonUsdt = some 1500000 := by
    decide
  have h2 : tokenBalance scenarioBalances polygonState 1 polygonUsdc = some 0 := by decide
  have hids : newSet (cgIds [polygonUsdt, polygonUsdc]) = ["tether", "usd-coin"] := by decide
  have hmap : fetchPriceMap noUsdOracle ["tether", "usd-coin"] = .object noUsdPrices := rfl
  have hp1 : usdPrice (.object noUsdPrices) polygonUsdt = some UsdPrice.undefined := by decide
  have hp2 : usdPrice (.object noUsdPrices) polygonUsdc = some (UsdPrice.quoted "0.999") := by
    decide
  simp only [hl, hids, hmap, List.enum_cons, List.enumFrom_cons, List.enumFrom_nil,
    List.filterMap_cons, List.filterMap_nil, h1, h2, Option.some_bind, tokenItem, hp1, hp2,
    Option.map_some', tokenRow, usdValue]
  rfl

/-! ## The price request -/

theorem foldl_insert_eq (ids acc : List String) :
    ids.foldl (fun set id => if set.contains id then set else set ++ [id]) acc
      = acc ++ (firsts ids).filter (fun id => !acc.contains id) := by
  induction ids generalizing acc with
  | nil => simp [firsts]
  | cons x rest ih =>
    rw [List.foldl_cons, firsts]
    by_cases hx : x ∈ acc
    · have hc : acc.contains x = true := by simpa using hx
      rw [if_pos hc, ih acc, List.filter_cons]
      simp only [hc, Bool.not_true, Bool.false_eq_true, if_false, List.filter_filter]
      congr 1
      apply List.filter_congr
      intro y _
      by_cases hy : y = x
      · subst hy
        simp [hx]
      · simp [hy]
    · have hc : acc.contains x = false := by simpa using hx
      rw [if_neg (by simp [hx]), ih (acc ++ [x]), List.filter_cons]
      simp only [hc, Bool.false_eq_true, if_false, Bool.not_false, if_true,
        List.filter_filter, List.append_assoc, List.singleton_append]
      congr 2
      apply List.filter_congr
      intro y _
      by_cases hy : y = x
      · subst hy
        simp
      · simp [hy, Bool.and_comm]

theorem newSet_eq_firsts (ids : List String) : newSet ids = firsts ids := by
  unfold newSet
  rw [foldl_insert_eq]
  simp

theorem mem_firsts (ids : List String) (id : String) : id ∈ firsts ids ↔ id ∈ ids := by
  induction ids with
  | nil => simp [firsts]
  | cons x rest ih =>
    simp only [firsts, List.mem_cons, List.mem_filter, ih, bne_iff_ne, ne_eq, decide_not]
    by_cases h : id = x <;> simp [h]

theorem nodup_firsts (ids : List String) : (firsts ids).Nodup := by
  induction ids with
  | nil => simp [firsts]
  | cons x rest ih =>
    rw [firsts, List.nodup_cons]
    exact ⟨by simp [List.mem_filter], ih.filter _⟩

theorem pairwise_firsts (ids : List String) :
    (firsts ids).Pairwise (fun a b => ids.indexOf a < ids.indexOf b) := by
  induction ids with
  | nil => simp [firsts]
  | cons x rest ih =>
    rw [firsts, List.pairwise_cons]
    constructor
    · intro b hb
      have hne : x ≠ b := by
        intro h
        simp [List.mem_filter, h] at hb
      rw [List.indexOf_cons_self, List.indexOf_cons_ne _ hne]
      exact Nat.succ_pos _
    · refine List.Pairwise.imp_of_mem ?_ (ih.filter _)
      intro a b ha hb hab
      have hxa : x ≠ a := by
        intro h
        simp [List.mem_filter, h] at ha
      have hxb : x ≠ b := by
        intro h
        simp [List.mem_filter, h] at hb
      rw [List.indexOf_cons_ne _ hxa, List.indexOf_cons_ne _ hxb]
      exact Nat.succ_lt_succ hab

theorem mem_cgIds (tokens : List Token) (id : String) :
    id ∈ cgIds tokens ↔ ∃ t ∈ tokens, t.coingeckoId = some id ∧ id ≠ "" := by
  unfold cgIds
  rw [List.mem_filterMap]
  constructor
  · rintro ⟨t, ht, h⟩
    refine ⟨t, ht, ?_⟩
    split_ifs at h with hc
    · rw [h] at hc
      exact ⟨h, (truthy_some id).1 hc⟩
  · rintro ⟨t, ht, h, hne⟩
    refine ⟨t, ht, ?_⟩
    rw [h, if_pos (truthy_some_of_ne hne)]

theorem cgIds_eq_nil (tokens : List Token)
    (h : ∀ t ∈ tokens, truthy t.coingeckoId = false) : cgIds tokens = [] := by
  unfold cgIds
  rw [List.filterMap_eq_nil_iff]
  intro t ht
  simp [h t ht]

/-- C19: `loadTokens` sends at most one price request, and on an EVM chain it sends exactly
one, for the list `[...new Set(cgIds)]`, when a listed token has an id. The ids of the
request are the non-empty `coingeckoId`s of the listed tokens, each once, in the order of
their first occurrence in the list; no request is sent when no listed token has an id, nor
on a chain that is not an EVM chain. -/
theorem C19_one_batched_price_request (d : Display) (bal : Balances)
    (oracle : List String → Option PriceMap) (s : App) :
    (loadTokens d bal oracle s).priceRequests.length ≤ 1 ∧
    (isEvm s.currentChain = true → (∃ t ∈ allTokens s, truthy t.coingeckoId = true) →
      (loadTokens d bal oracle s).priceRequests = [newSet (cgIds (allTokens s))]) ∧
    (∀ ids ∈ (loadTokens d bal oracle s).priceRequests,
      ids ≠ [] ∧ ids.Nodup ∧
      (∀ id, id ∈ ids ↔ ∃ t ∈ allTokens s, t.coingeckoId = some id ∧ id ≠ "") ∧
      ids.Pairwise (fun a b =>
        (cgIds (allTokens s)).indexOf a < (cgIds (allTokens s)).indexOf b)) ∧
    ((∀ t ∈ allTokens s, truthy t.coingeckoId = false) →
      (loadTokens d bal oracle s).priceRequests = []) ∧
    (isEvm s.currentChain = false → (loadTokens d bal oracle s).priceRequests = []) := by
  have hnon : isEvm s.currentChain = false → (loadTokens d bal oracle s).priceRequests = [] := by
    intro h
    simp only [loadTokens, h, Bool.not_false, if_true]
    split <;> rfl
  by_cases hevm : isEvm s.currentChain = true
  · have hreq : (loadTokens d bal oracle s).priceRequests
        = if (firsts (cgIds (allTokens s))).length != 0 then [firsts (cgIds (allTokens s))]
          else [] := by
      rw [loadTokens_of_evm d bal oracle s hevm, newSet_eq_firsts]
    refine ⟨?_, ?_, ?_, ?_, hnon⟩
    · rw [hreq]
      split_ifs <;> simp
    · intro _ hex
      obtain ⟨t, ht, hid⟩ := hex
      cases hc : t.coingeckoId with
      | none =>
        rw [hc] at hid
        exact absurd hid (by decide)
      | some id =>
        rw [hc] at hid
        have hne : id ≠ "" := (truthy_some id).1 hid
        have hmem : id ∈ firsts (cgIds (allTokens s)) :=
          (mem_firsts _ id).2 ((mem_cgIds _ id).2 ⟨t, ht, hc, hne⟩)
        have hlen : ((firsts (cgIds (allTokens s))).length != 0) = true := by
          cases hf : firsts (cgIds (allTokens s)) with
          | nil =>
            rw [hf] at hmem
            exact absurd hmem (List.not_mem_nil id)
          | cons a rest => rfl
        rw [hreq, if_pos hlen, newSet_eq_firsts]
    · intro ids hids
      rw [hreq] at hids
      split_ifs at hids with hlen
      · have hid : ids = firsts (cgIds (allTokens s)) := by simpa using hids
        subst hid
        refine ⟨?_, nodup_firsts _, fun id => ?_, pairwise_firsts _⟩
        · intro h
          simp [h] at hlen
        · rw [mem_firsts, mem_cgIds]
      · simp at hids
    · intro hnone
      rw [hreq, cgIds_eq_nil _ hnone]
      rfl
  · have hfalse : isEvm s.currentChain = false := by simpa using hevm
    have hnil := hnon hfalse
    refine ⟨?_, fun h => absurd h hevm, ?_, fun _ => hnil, hnon⟩
    · rw [hnil]
      exact Nat.zero_le 1
    · intro ids hids
      rw [hnil] at hids
      simp at hids

/-- C19 on three pages: ethereum with USDT added a second time (one request for three ids),
tron (no request), and arbitrum, which has no built-in token (no request). -/
theorem C19_one_batched_price_request_witness :
    (loadTokens demoDisplay scenarioBalances scenarioOracle duplicateState).priceRequests
      = [["tether", "usd-coin", "dai"]] ∧
    (isEvm tronState.currentChain = false ∧
      (loadTokens demoDisplay scenarioBalances scenarioOracle tronState).priceRequests = []) ∧
    ((∀ t ∈ allTokens arbitrumState, truthy t.coingeckoId = false) ∧
      (loadTokens demoDisplay scenarioBalances scenarioOracle arbitrumState).priceRequests
        = []) :=
  have h := C19_one_batched_price_request demoDisplay scenarioBalances scenarioOracle
  ⟨((h duplicateState).2.1 (by decide) (by decide)).trans (by decide),
    ⟨by decide, (h tronState).2.2.2.2 (by decide)⟩,
    ⟨by decide, (h arbitrumState).2.2.2.1 (by decide)⟩⟩

/-! ## Adding a token -/

/-- C20: when the address, the symbol or the name is empty, `addCustomToken` shows the error
toast "Please fill all required fields" and changes nothing else: `this.customTokens` and
storage, `custom_tokens` included, are as before. -/
theorem C20_empty_field_rejected (toUpperCase : String → String)
    (address symbol name : String) (decimals : Decimals) (s : App)
    (h : address = "" ∨ symbol = "" ∨ name = "") :
    addCustomToken toUpperCase address symbol name decimals s
      = showToast "Please fill all required fields" "error" s ∧
    (addCustomToken toUpperCase address symbol name decimals s).customTokens
      = s.customTokens ∧
    (addCustomToken toUpperCase address symbol name decimals s).storage = s.storage ∧
    (addCustomToken toUpperCase address symbol name decimals s).storage.getItem
      keyCustomTokens = s.storage.getItem keyCustomTokens := by
  have h0 : truthy (some "") = false := by decide
  have hrej : addCustomToken toUpperCase address symbol name decimals s
      = showToast "Please fill all required fields" "error" s := by
    rcases h with h | h | h <;> simp [addCustomToken, h, h0]
  rw [hrej]
  exact ⟨rfl, rfl, rfl, rfl⟩

/-- C20 on the page that already holds a custom token, with the symbol left empty. -/
theorem C20_empty_field_rejected_witness :
    ("0xA0b8" = "" ∨ "" = "" ∨ "USD Coin" = "") ∧
    (addCustomToken asciiUpper "0xA0b8" "" "USD Coin" (.number 6) duplicateState).customTokens
      = duplicateState.customTokens ∧
    (addCustomToken asciiUpper "0xA0b8" "" "USD Coin" (.number 6)
        duplicateState).storage.getItem keyCustomTokens
      = duplicateState.storage.getItem keyCustomTokens ∧
    (addCustomToken asciiUpper "0xA0b8" "" "USD Coin" (.number 6) duplicateState).toasts
      = duplicateState.toasts ++ [⟨"Please fill all required fields", "error"⟩] :=
  have h := C20_empty_field_rejected asciiUpper "0xA0b8" "" "USD Coin" (.number 6)
    duplicateState (Or.inr (Or.inl rfl))
  ⟨Or.inr (Or.inl rfl), h.2.1, h.2.2.2, congrArg App.toasts h.1⟩

theorem lookup_assign_same {α : Type} (obj : List (String × α)) (key : String) (value : α) :
    List.lookup key (assign obj key value) = some value := by
  unfold assign
  split_ifs with h
  · induction obj with
    | nil => simp at h
    | cons e rest ih =>
      obtain ⟨k, v⟩ := e
      by_cases hk : k = key
      · subst hk
        simp [List.lookup_cons]
      · have hrest : rest.any (fun e => e.1 == key) = true := by
          simpa [hk] using h
        have hne : (key == k) = false := by
          simpa using fun hkk : key = k => hk hkk.symm
        have hne' : (k == key) = false := by simpa using hk
        simp only [List.map_cons, hne', Bool.false_eq_true, if_false, List.lookup_cons, hne]
        exact ih hrest
  · rw [List.lookup_append]
    have hnone : List.lookup key obj = none := by
      rw [List.lookup_eq_none_iff]
      intro e he
      simp only [List.any_eq_true, not_exists, not_and, Bool.not_eq_true] at h
      have hk := h e he
      have hne : e.1 ≠ key := by simpa using hk
      simpa using fun heq : key = e.1 => hne heq.symm
    simp [hnone, List.lookup_cons]

theorem lookup_assign_other {α : Type} (obj : List (String × α)) (key other : String)
    (value : α) (hne : other ≠ key) :
    List.lookup other (assign obj key value) = List.lookup other obj := by
  have h1 : (other == key) = false := by simpa using hne
  unfold assign
  split_ifs with h
  · clear h
    induction obj with
    | nil => rfl
    | cons e rest ih =>
      obtain ⟨k, v⟩ := e
      by_cases hk : k = key
      · subst hk
        simp only [List.map_cons, beq_self_eq_true, if_true, List.lookup_cons, h1]
        exact ih
      · have hne' : (k == key) = false := by simpa using hk
        simp only [List.map_cons, hne', Bool.false_eq_true, if_false, List.lookup_cons]
        cases other == k
        · exact ih
        · rfl
  · rw [List.lookup_append]
    simp [List.lookup_cons, h1]

/-- The catalog after an accepted `addCustomToken`. -/
theorem addCustomToken_customTokens (toUpperCase : String → String)
    (address symbol name : String) (decimals : Decimals) (s : App)
    (ha : address ≠ "") (hs : symbol ≠ "") (hn : name ≠ "") :
    (addCustomToken toUpperCase address symbol name decimals s).customTokens
      = assign
          (if (List.lookup s.currentChain s.customTokens).isNone then
            assign s.customTokens s.currentChain [] else s.customTokens)
          s.currentChain
          ((List.lookup s.currentChain s.customTokens).getD []
            ++ [⟨address, toUpperCase symbol, name, decimals, none⟩]) := by
  simp only [addCustomToken, truthy_some_of_ne ha, truthy_some_of_ne hs,
    truthy_some_of_ne hn, Bool.not_true, Bool.or_self, Bool.false_eq_true, if_false]
  cases hl : List.lookup s.currentChain s.customTokens with
  | none => simp [showToast, saveCustomTokens, lookup_assign_same]
  | some l => simp [showToast, saveCustomTokens, hl]

/-- An accepted `addCustomToken` writes the serialisation of the new catalog. -/
theorem addCustomToken_storage (toUpperCase : String → String)
    (address symbol name : String) (decimals : Decimals) (s : App)
    (ha : address ≠ "") (hs : symbol ≠ "") (hn : name ≠ "") :
    (addCustomToken toUpperCase address symbol name decimals s).storage
      = s.storage.setItem keyCustomTokens
          (stringify (addCustomToken toUpperCase address symbol name decimals s).customTokens) := by
  simp only [addCustomToken, truthy_some_of_ne ha, truthy_some_of_ne hs,
    truthy_some_of_ne hn, Bool.not_true, Bool.or_self, Bool.false_eq_true, if_false]
  cases hl : List.lookup s.currentChain s.customTokens with
  | none => simp [showToast, saveCustomTokens]
  | some l => simp [showToast, saveCustomTokens]

/-- C21: when the address, the symbol and the name are not empty, after `addCustomToken` the
custom list of the current chain is its previous list (empty when the chain had none) with
the new token appended at the end, whether or not its address was listed already; the lists
of the other chains are as before; and `custom_tokens` holds the serialisation of the whole
of `this.customTokens`. -/
theorem C21_token_appended_and_persisted (toUpperCase : String → String)
    (address symbol name : String) (decimals : Decimals) (s : App)
    (ha : address ≠ "") (hs : symbol ≠ "") (hn : name ≠ "") :
    List.lookup s.currentChain
        (addCustomToken toUpperCase address symbol name decimals s).customTokens
      = some ((List.lookup s.currentChain s.customTokens).getD []
          ++ [⟨address, toUpperCase symbol, name, decimals, none⟩]) ∧
    (∀ chain : String, chain ≠ s.currentChain →
      List.lookup chain (addCustomToken toUpperCase address symbol name decimals s).customTokens
        = List.lookup chain s.customTokens) ∧
    (addCustomToken toUpperCase address symbol name decimals s).storage.getItem keyCustomTokens
      = some (stringify
          (addCustomToken toUpperCase address symbol name decimals s).customTokens) := by
  refine ⟨?_, ?_, ?_⟩
  · rw [addCustomToken_customTokens toUpperCase address symbol name decimals s ha hs hn]
    exact lookup_assign_same _ _ _
  · intro chain hne
    rw [addCustomToken_customTokens toUpperCase address symbol name decimals s ha hs hn,
      lookup_assign_other _ _ _ _ hne]
    split_ifs
    · exact lookup_assign_other _ _ _ _ hne
    · rfl
  · rw [addCustomToken_storage toUpperCase address symbol name decimals s ha hs hn]
    exact getItem_setItem_same _ _ _

/-- C21 on the page that already lists USDT twice on ethereum: the same address is added a
third time, and polygon has no list before or after. -/
theorem C21_token_appended_and_persisted_witness :
    List.lookup "ethereum"
        (addCustomToken asciiUpper "0xdac17f958d2ee523a2206206994597c13d831ec7" "usdt"
          "Tether USD" (.number 6) duplicateState).customTokens
      = some [⟨"0xdac17f958d2ee523a2206206994597c13d831ec7", "USDT", "Tether USD", .number 6,
            none⟩,
          ⟨"0xdac17f958d2ee523a2206206994597c13d831ec7", "USDT", "Tether USD", .number 6,
            none⟩] ∧
    List.lookup "polygon"
        (addCustomToken asciiUpper "0xdac17f958d2ee523a2206206994597c13d831ec7" "usdt"
          "Tether USD" (.number 6) duplicateState).customTokens
      = List.lookup "polygon" duplicateState.customTokens :=
  have h := C21_token_appended_and_persisted asciiUpper
    "0xdac17f958d2ee523a2206206994597c13d831ec7" "usdt" "Tether USD" (.number 6)
    duplicateState (by decide) (by decide) (by decide)
  ⟨h.1.trans (by decide), h.2.1 "polygon" (by decide)⟩

/-! ## Reachable states -/

theorem checkExistingWallet_storage (c : Cipher) (pr : Provider) (answer : Option String)
    (s : App) : (checkExistingWallet c pr answer s).storage = s.storage := by
  unfold checkExistingWallet
  simp only []
  split_ifs
  · rfl
  · split
    · split_ifs
      · rfl
      · exact initializeWallet_storage _ _ _
    · rfl
  · split
    · rename_i s' h
      unfold emptyPasswordBranch at h
      split_ifs at h
      · split at h
        · split_ifs at h
          · cases h
            exact initializeWallet_storage _ _ _
        · cases h
    · unfold plainBranch
      split_ifs
      · rw [initializeWallet_storage]
        rfl
      · rfl

theorem flagWithRecord_of_encrypted_write (st : Storage) (ct : String) :
    FlagWithRecord
      (((st.setItem keyEncrypted ct).setItem encryptionPasswordKey "1").removeItem keyPlain) :=
  fun _ => (encrypted_write_spec st ct).2.1

theorem flagWithRecord_of_same (st st' : Storage)
    (henc : st'.getItem keyEncrypted = st.getItem keyEncrypted)
    (hflag : st'.getItem encryptionPasswordKey = st.getItem encryptionPasswordKey)
    (h : FlagWithRecord st) : FlagWithRecord st' := by
  intro he
  rw [hflag]
  exact h (by rwa [henc] at he)

theorem flagWithRecord_setItem_plain (st : Storage) (m : String) (h : FlagWithRecord st) :
    FlagWithRecord (st.setItem keyPlain m) :=
  flagWithRecord_of_same st _
    (getItem_setItem_other _ _ _ _ (by decide)) (getItem_setItem_other _ _ _ _ (by decide)) h

theorem flagWithRecord_confirmMnemonic (c : Cipher) (pr : Provider) (m : String) (s : App)
    (h : FlagWithRecord s.storage) : FlagWithRecord (confirmMnemonic c pr m s).storage := by
  unfold confirmMnemonic
  simp only [initializeWallet_storage]
  split_ifs
  · exact flagWithRecord_of_encrypted_write _ _
  · exact flagWithRecord_setItem_plain _ _ h

theorem flagWithRecord_importWallet (c : Cipher) (pr : Provider) (input : String) (s : App)
    (h : FlagWithRecord s.storage) : FlagWithRecord (importWallet c pr input s).storage := by
  unfold importWallet
  simp only []
  split_ifs
  · exact h
  · rw [initializeWallet_storage]
    exact flagWithRecord_of_encrypted_write _ _
  · rw [initializeWallet_storage]
    exact flagWithRecord_setItem_plain _ _ h

theorem flagWithRecord_saveSettings (c : Cipher) (pwd : String) (s : App)
    (h : FlagWithRecord s.storage) : FlagWithRecord (saveSettings c pwd s).storage := by
  have h1 : encryptionPasswordKey ≠ keyPlain := by decide
  have h2 : encryptionPasswordKey ≠ keyEncrypted := by decide
  have h3 : keyEncrypted ≠ keyPass := by decide
  have h4 : encryptionPasswordKey ≠ keyPass := by decide
  unfold saveSettings
  simp only []
  split_ifs
  · exact h
  · intro _
    simp [Storage.getItem, Storage.setItem, Storage.removeItem, h1, h2]
  · intro _
    simp [Storage.getItem, Storage.setItem, Storage.removeItem, h1, h2]
  · exact flagWithRecord_of_same s.storage _
      (getItem_removeItem_other _ _ _ h3) (getItem_removeItem_other _ _ _ h4) h

theorem logout_removes_encrypted (s : App) :
    (logout s).storage.getItem keyEncrypted = none := by
  have h1 : keyEncrypted ≠ keyPlain := by decide
  simp [logout, Storage.getItem, Storage.removeItem, h1]

theorem flagWithRecord_logout (s : App) : FlagWithRecord (logout s).storage :=
  fun he => absurd (logout_removes_encrypted s) he

theorem flagWithRecord_step (c : Cipher) (pr : Provider) (s : App) (op : Op)
    (h : FlagWithRecord s.storage) : FlagWithRecord (step c pr s op).storage := by
  cases op with
  | confirmMnemonic m => exact flagWithRecord_confirmMnemonic c pr m s h
  | importWallet input => exact flagWithRecord_importWallet c pr input s h
  | saveSettings pwd => exact flagWithRecord_saveSettings c pwd s h
  | logout => exact flagWithRecord_logout s
  | checkExistingWallet answer =>
    show FlagWithRecord (checkExistingWallet c pr answer s).storage
    rw [checkExistingWallet_storage]
    exact h

theorem flagWithRecord_run (c : Cipher) (pr : Provider) (ops : List Op) (s : App)
    (h : FlagWithRecord s.storage) : FlagWithRecord (run c pr s ops).storage := by
  induction ops generalizing s with
  | nil => exact h
  | cons op rest ih => exact ih (step c pr s op) (flagWithRecord_step c pr s op h)

/-- C23: in every state reached from the empty storage by a sequence of `confirmMnemonic`,
`importWallet`, `saveSettings`, `logout` and `checkExistingWallet`, each run to its end, if
`wallet_mnemonic_encrypted` is present then the flag `wallet_enc_password` is present, with
the value "1". -/
theorem C23_encrypted_record_has_its_flag (c : Cipher) (pr : Provider) (ops : List Op) :
    (run c pr App.fresh ops).storage.getItem keyEncrypted ≠ none →
    (run c pr App.fresh ops).storage.getItem encryptionPasswordKey = some "1" :=
  flagWithRecord_run c pr ops App.fresh (fun h => absurd rfl h)

/-- C23 on the sequence that sets a password, creates a wallet, removes the password and
creates a second wallet. -/
theorem C23_encrypted_record_has_its_flag_witness :
    (run demoCipher demoProvider App.fresh staleRecordTrace).storage.getItem keyEncrypted
      ≠ none ∧
    (run demoCipher demoProvider App.fresh staleRecordTrace).storage.getItem
      encryptionPasswordKey = some "1" :=
  ⟨by decide, C23_encrypted_record_has_its_flag demoCipher demoProvider staleRecordTrace
    (by decide)⟩

/-- C24 (defect of the code): after a password was set, a wallet created, the password
removed and a second wallet created, the second phrase is the one last persisted and no
logout followed; yet `checkExistingWallet`, with the prompt answered by the password that
decrypts the stored ciphertext, initialises the wallet with the first phrase. The stale
encrypted record, which the plaintext persist left in storage, is the one it reads. -/
theorem C24_unlock_opens_the_stale_wallet :
    staleState.storage.getItem keyPlain = some otherMnemonic ∧
    staleState.initCalls = [demoMnemonic, otherMnemonic] ∧
    demoCipher.decrypt (strOf (staleState.storage.getItem keyEncrypted)) "secret1"
      = some demoMnemonic ∧
    (checkExistingWallet demoCipher demoProvider (some "secret1") staleState).initCalls
      = [demoMnemonic, otherMnemonic, demoMnemonic] ∧
    (checkExistingWallet demoCipher demoProvider (some "secret1") staleState).wdk
      = some demoMnemonic := by
  decide

/-- C25: on a page with an encrypted record `ct` and no plaintext record, `saveSettings(p)`
with `p` of at least six characters writes the remembered password and the flag and nothing
else: `wallet_mnemonic_encrypted` is still `ct`, so under every password it decrypts exactly
as before (to the phrase under the old password, and not under `p` if it did not before). -/
theorem C25_password_change_keeps_the_ciphertext (c : Cipher) (s : App) (ct p : String)
    (henc : s.storage.getItem keyEncrypted = some ct)
    (hplain : truthy (s.storage.getItem keyPlain) = false) (hp : 6 ≤ jsLength p) :
    (saveSettings c p s).storage
      = (s.storage.setItem keyPass p).setItem encryptionPasswordKey "1" ∧
    (saveSettings c p s).storage.getItem keyEncrypted = some ct ∧
    (∀ q : String,
      c.decrypt (strOf ((saveSettings c p s).storage.getItem keyEncrypted)) q
        = c.decrypt ct q) ∧
    (∀ key : String, key ≠ keyPass → key ≠ encryptionPasswordKey →
      (saveSettings c p s).storage.getItem key = s.storage.getItem key) := by
  have hpne : p ≠ "" := ne_empty_of_jsLength_pos (by omega)
  have hlen : ¬ jsLength p < 6 := by omega
  have h1 : keyPlain ≠ encryptionPasswordKey := by decide
  have h2 : keyPlain ≠ keyPass := by decide
  have hplain' : truthy (((s.storage.setItem keyPass p).setItem encryptionPasswordKey
      "1").getItem keyPlain) = false := by
    rw [getItem_setItem_other _ _ _ _ h1, getItem_setItem_other _ _ _ _ h2, hplain]
  have hsto : (saveSettings c p s).storage
      = (s.storage.setItem keyPass p).setItem encryptionPasswordKey "1" := by
    simp only [saveSettings, truthy_some_of_ne hpne, hlen, decide_False, Bool.and_false,
      hplain', Bool.false_eq_true, if_false, if_true, showToast_storage]
  have h3 : keyEncrypted ≠ encryptionPasswordKey := by decide
  have h4 : keyEncrypted ≠ keyPass := by decide
  have henc' : (saveSettings c p s).storage.getItem keyEncrypted = some ct := by
    rw [hsto, getItem_setItem_other _ _ _ _ h3, getItem_setItem_other _ _ _ _ h4, henc]
  refine ⟨hsto, henc', fun q => ?_, fun key hk1 hk2 => ?_⟩
  · rw [henc']
    rfl
  · rw [hsto, getItem_setItem_other _ _ _ _ hk2, getItem_setItem_other _ _ _ _ hk1]

/-- C25 on the locked page, the password changed from "secret1" to "secret2". -/
theorem C25_password_change_keeps_the_ciphertext_witness :
    (lockedState.storage.getItem keyEncrypted
        = some (demoCipher.encrypt demoMnemonic "secret1") ∧
      truthy (lockedState.storage.getItem keyPlain) = false ∧ 6 ≤ jsLength "secret2") ∧
    (saveSettings demoCipher "secret2" lockedState).storage.getItem keyEncrypted
      = some (demoCipher.encrypt demoMnemonic "secret1") ∧
    demoCipher.decrypt
        (strOf ((saveSettings demoCipher "secret2" lockedState).storage.getItem keyEncrypted))
        "secret1" = some demoMnemonic ∧
    demoCipher.decrypt
        (strOf ((saveSettings demoCipher "secret2" lockedState).storage.getItem keyEncrypted))
        "secret2" = none :=
  have h := C25_password_change_keeps_the_ciphertext demoCipher lockedState
    (demoCipher.encrypt demoMnemonic "secret1") "secret2" (by decide) (by decide) (by decide)
  ⟨⟨by decide, by decide, by decide⟩, h.2.1, (h.2.2.1 "secret1").trans (by decide),
    (h.2.2.1 "secret2").trans (by decide)⟩

/-! ## Importing a wallet -/

theorem jsTrim_of_whitespace (input : String)
    (h : input.data.all isJsWhiteSpace = true) : jsTrim input = "" := by
  have hd : input.data.dropWhile isJsWhiteSpace = [] := by
    rw [List.dropWhile_eq_nil_iff]
    simpa using h
  simp [jsTrim, hd]

/-- C27: `importWallet` rejects an input that is empty or consists of white space only,
which trims to the empty string: it shows an error toast and leaves storage and the rest of
the page unchanged. For every other input it first writes the trimmed input as the secret
record (encrypted under the remembered password when there is one, else in plaintext) and
then calls `initializeWallet` on it; whatever the provider does, the record stays. -/
theorem C27_import_writes_before_initialising (c : Cipher) (pr : Provider) (input : String)
    (s : App) :
    (input.data.all isJsWhiteSpace = true → jsTrim input = "") ∧
    (jsTrim input = "" →
      importWallet c pr input s = showToast "Please enter a mnemonic phrase" "error" s ∧
      (importWallet c pr input s).storage = s.storage ∧
      (importWallet c pr input s).initCalls = s.initCalls) ∧
    (jsTrim input ≠ "" →
      (importWallet c pr input s).initCalls = s.initCalls ++ [jsTrim input] ∧
      (∀ p : String, s.storage.getItem keyPass = some p → p ≠ "" →
        (importWallet c pr input s).storage.getItem keyEncrypted
          = some (c.encrypt (jsTrim input) p)) ∧
      (truthy (s.storage.getItem keyPass) = false →
        (importWallet c pr input s).storage.getItem keyPlain = some (jsTrim input))) := by
  refine ⟨jsTrim_of_whitespace input, fun h => ?_, fun h => ?_⟩
  · have h0 : truthy (some "") = false := by decide
    have hrej : importWallet c pr input s
        = showToast "Please enter a mnemonic phrase" "error" s := by
      simp [importWallet, h, h0]
    rw [hrej]
    exact ⟨rfl, rfl, rfl⟩
  · refine ⟨?_, fun p hp hpne => ?_, fun hno => ?_⟩
    · simp only [importWallet, truthy_some_of_ne h, Bool.not_true, Bool.false_eq_true,
        if_false, initializeWallet_initCalls]
      split_ifs <;> rfl
    · rw [importWallet_storage_of_password c pr input p s h hpne hp]
      exact (encrypted_write_spec _ _).1
    · rw [importWallet_storage_of_no_password c pr input s h hno]
      exact getItem_setItem_same _ _ _

/-- C27 with a provider that rejects every seed: a white-space input changes nothing, and the
input "  not a mnemonic " is stored, trimmed, although no wallet could be built from it. -/
theorem C27_import_writes_before_initialising_witness :
    (" \n".data.all isJsWhiteSpace = true ∧ jsTrim "  not a mnemonic " ≠ "" ∧
      truthy (App.fresh.storage.getItem keyPass) = false ∧
      rejectingProvider.construct "not a mnemonic" = false) ∧
    (importWallet demoCipher rejectingProvider " \n" App.fresh).storage = App.fresh.storage ∧
    (importWallet demoCipher rejectingProvider "  not a mnemonic " App.fresh).storage.getItem
      keyPlain = some "not a mnemonic" ∧
    (importWallet demoCipher rejectingProvider "  not a mnemonic " App.fresh).wdk = none :=
  have h := C27_import_writes_before_initialising demoCipher rejectingProvider " \n" App.fresh
  have h' := C27_import_writes_before_initialising demoCipher rejectingProvider
    "  not a mnemonic " App.fresh
  ⟨⟨by decide, by decide, by decide, rfl⟩, (h.2.1 (h.1 (by decide))).2.1,
    ((h'.2.2 (by decide)).2.2 (by decide)).trans (by decide), by decide⟩

/-! ## Reading back what `stringify` writes -/

theorem intercalate_go_data (acc sep : String) (parts : List String) :
    (String.intercalate.go acc sep parts).data
      = acc.data ++ parts.flatMap (fun a => sep.data ++ a.data) := by
  induction parts generalizing acc with
  | nil => simp [String.intercalate.go]
  | cons a rest ih =>
    rw [String.intercalate.go, ih]
    simp [String.data_append, List.append_assoc]

theorem jsonJoin_data (parts : List String) :
    (jsonJoin parts).data = joinChars (parts.map String.data) := by
  cases parts with
  | nil => rfl
  | cons a rest =>
    unfold jsonJoin
    rw [String.intercalate, intercalate_go_data]
    simp [joinChars, List.flatMap_map]

theorem stripLead_append (pre rest : List Char) : stripLead pre (pre ++ rest) = some rest := by
  induction pre with
  | nil => cases rest <;> rfl
  | cons a pre ih => simp [stripLead, ih]

theorem char_eq_ofNat (ch : Char) (n : Nat) (h : ch.toNat = n) : Char.ofNat n = ch := by
  rw [← h]
  exact Char.ofNat_toNat ch

theorem hexValue_low :
    ∀ n, n < 32 →
      hexValue ("0123456789abcdef".data.getD (n / 16) '0') = some (n / 16) ∧
      hexValue ("0123456789abcdef".data.getD (n % 16) '0') = some (n % 16) := by
  decide

/-- One character of a string, as `jsonChar` writes it, is read back by one step of the
parser. -/
theorem parseStringBody_jsonChar (ch : Char) (tail : List Char) (fuel : Nat) :
    parseStringBody (fuel + 1) (jsonChar ch ++ tail)
      = (parseStringBody fuel tail).map (fun r => (ch :: r.1, r.2)) := by
  have h92 : (Char.ofNat 92).toNat = 92 := by decide
  have h34 : (Char.ofNat 34).toNat = 34 := by decide
  unfold jsonChar
  simp only []
  split_ifs with c34 c92 c8 c9 c10 c12 c13 c32
  · have hc : Char.ofNat 34 = ch := char_eq_ofNat ch 34 (by simpa using c34)
    subst hc
    simp [parseStringBody, h92, h34, unescape]
  · have hc : Char.ofNat 92 = ch := char_eq_ofNat ch 92 (by simpa using c92)
    subst hc
    simp [parseStringBody, h92, h34, unescape]
  · have hc : Char.ofNat 8 = ch := char_eq_ofNat ch 8 (by simpa using c8)
    subst hc
    simp [parseStringBody, h92, h34, unescape]
  · have hc : Char.ofNat 9 = ch := char_eq_ofNat ch 9 (by simpa using c9)
    subst hc
    simp [parseStringBody, h92, h34, unescape]
  · have hc : Char.ofNat 10 = ch := char_eq_ofNat ch 10 (by simpa using c10)
    subst hc
    simp [parseStringBody, h92, h34, unescape]
  · have hc : Char.ofNat 12 = ch := char_eq_ofNat ch 12 (by simpa using c12)
    subst hc
    simp [parseStringBody, h92, h34, unescape]
  · have hc : Char.ofNat 13 = ch := char_eq_ofNat ch 13 (by simpa using c13)
    subst hc
    simp [parseStringBody, h92, h34, unescape]
  · have hhex := hexValue_low ch.toNat c32
    have h0 : hexValue '0' = some 0 := by decide
    have hcode : ch.toNat / 16 * 16 + ch.toNat % 16 = ch.toNat := by omega
    have hlt : ch.toNat < 55296 := by omega
    obtain ⟨hx1, hx2⟩ := hhex
    generalize "0123456789abcdef".data.getD (ch.toNat / 16) '0' = d1 at hx1 ⊢
    generalize "0123456789abcdef".data.getD (ch.toNat % 16) '0' = d2 at hx2 ⊢
    simp [parseStringBody, h92, h0, hx1, hx2, hcode, hlt, Char.ofNat_toNat]
  · have n34 : ¬ ch.toNat = 34 := by simpa using c34
    have n92 : ¬ ch.toNat = 92 := by simpa using c92
    simp [parseStringBody, n34, n92, c32]

theorem parseStringBody_flatMap (cs rest : List Char) (fuel : Nat) (hfuel : cs.length < fuel) :
    parseStringBody fuel (cs.flatMap jsonChar ++ Char.ofNat 34 :: rest) = some (cs, rest) := by
  induction cs generalizing fuel with
  | nil =>
    obtain ⟨f, rfl⟩ : ∃ f, fuel = f + 1 := ⟨fuel - 1, by simp at hfuel; omega⟩
    have h34 : (Char.ofNat 34).toNat = 34 := by decide
    simp [parseStringBody, h34]
  | cons ch cs ih =>
    obtain ⟨f, rfl⟩ : ∃ f, fuel = f + 1 := ⟨fuel - 1, by simp at hfuel; omega⟩
    rw [List.flatMap_cons, List.append_assoc, parseStringBody_jsonChar,
      ih f (by simp at hfuel; omega)]
    rfl

theorem length_le_flatMap_jsonChar (cs : List Char) :
    cs.length ≤ (cs.flatMap jsonChar).length := by
  induction cs with
  | nil => simp
  | cons ch cs ih =>
    have h1 : 1 ≤ (jsonChar ch).length := by
      unfold jsonChar
      simp only []
      split_ifs <;> simp
    simp only [List.flatMap_cons, List.length_append, List.length_cons]
    omega

/-- A string is read back from the text `jsonString` writes for it. -/
theorem parseString_jsonString (text : String) (rest : List Char) :
    parseString ((jsonString text).data ++ rest) = some (text, rest) := by
  have h34 : (Char.ofNat 34).toNat = 34 := by decide
  have hlen := length_le_flatMap_jsonChar text.data
  show parseString (Char.ofNat 34 :: (text.data.flatMap jsonChar ++ [Char.ofNat 34]) ++ rest) = _
  simp only [List.cons_append, List.append_assoc, List.singleton_append, parseString, h34,
    beq_self_eq_true, if_true]
  rw [parseStringBody_flatMap _ _ _ (by simp only [List.length_append, List.length_cons]; omega)]
  rfl

theorem toDigitsCore_acc (fuel n : Nat) (ds : List Char) :
    Nat.toDigitsCore 10 fuel n ds = Nat.toDigitsCore 10 fuel n [] ++ ds := by
  induction fuel generalizing n ds with
  | zero => simp [Nat.toDigitsCore]
  | succ fuel ih =>
    simp only [Nat.toDigitsCore]
    split_ifs
    · simp
    · rw [ih (n / 10) (Nat.digitChar (n % 10) :: ds), ih (n / 10) [Nat.digitChar (n % 10)]]
      simp

theorem digitChar_facts :
    ∀ d, d < 10 →
      (Nat.digitChar d).isDigit = true ∧ (Nat.digitChar d).toNat - 48 = d ∧
      (d ≠ 0 → Nat.digitChar d ≠ '0') := by
  decide

theorem digitsValue_append (ds : List Char) (ch : Char) :
    digitsValue (ds ++ [ch]) = 10 * digitsValue ds + (ch.toNat - 48) := by
  simp [digitsValue, List.foldl_append]

/-- The digits `Nat.repr` writes: decimal digits of value `n`, with no leading zero. -/
theorem toDigitsCore_spec (fuel n : Nat) (hfuel : n < fuel) :
    (∀ ch ∈ Nat.toDigitsCore 10 fuel n [], ch.isDigit = true) ∧
    digitsValue (Nat.toDigitsCore 10 fuel n []) = n ∧
    (∃ ch rest, Nat.toDigitsCore 10 fuel n [] = ch :: rest ∧
      (n ≠ 0 → ch ≠ '0') ∧ (n = 0 → rest = [])) := by
  induction fuel generalizing n with
  | zero => omega
  | succ fuel ih =>
    have hd := digitChar_facts (n % 10) (Nat.mod_lt n (by decide))
    simp only [Nat.toDigitsCore]
    split_ifs with h0
    · have hn : n % 10 = n := by omega
      refine ⟨?_, ?_, ⟨Nat.digitChar (n % 10), [], rfl, ?_, fun _ => rfl⟩⟩
      · intro ch hch
        simp only [List.mem_singleton] at hch
        rw [hch]
        exact hd.1
      · have hv := hd.2.1
        simp only [digitsValue, List.foldl_cons, List.foldl_nil, hv]
        omega
      · intro hne
        exact hd.2.2 (by omega)
    · have hlt : n / 10 < fuel := by omega
      obtain ⟨hall, hval, ch, rest, hcons, hhead, _⟩ := ih (n / 10) hlt
      rw [toDigitsCore_acc]
      refine ⟨?_, ?_, ⟨ch, rest ++ [Nat.digitChar (n % 10)], ?_, ?_, ?_⟩⟩
      · intro c hc
        rcases List.mem_append.1 hc with h | h
        · exact hall c h
        · simp only [List.mem_singleton] at h
          rw [h]
          exact hd.1
      · rw [digitsValue_append, hval, hd.2.1]
        omega
      · rw [hcons]
        rfl
      · intro _
        exact hhead h0
      · intro hn
        omega

theorem takeWhile_append_stop {α : Type} (p : α → Bool) (ds : List α) (c : α) (r : List α)
    (hall : ∀ x ∈ ds, p x = true) (hc : p c = false) :
    (ds ++ c :: r).takeWhile p = ds ∧ (ds ++ c :: r).dropWhile p = c :: r := by
  induction ds with
  | nil => simp [List.takeWhile, List.dropWhile, hc]
  | cons x ds ih =>
    have hx : p x = true := hall x (List.mem_cons_self x ds)
    have ih' := ih (fun y hy => hall y (List.mem_cons_of_mem x hy))
    simp [List.takeWhile, List.dropWhile, hx, ih'.1, ih'.2]

/-- The characters that may follow a value inside the text of a catalog. -/
theorem after_value_facts (c : Char) (hc : c = ',' ∨ c = Char.ofNat 125) :
    c.isDigit = false ∧ c ≠ '.' ∧ c ≠ 'e' ∧ c ≠ 'E' := by
  rcases hc with h | h <;> subst h <;> decide

/-- A natural number up to 2^53 is read back from its decimal digits. -/
theorem parseNat_toDigits (n : Nat) (c : Char) (r : List Char) (hn : n ≤ 2 ^ 53)
    (hc : c = ',' ∨ c = Char.ofNat 125) :
    parseNat (Nat.toDigits 10 n ++ c :: r) = some (n, c :: r) := by
  obtain ⟨hall, hval, ch, rest, hcons, hhead, hzero⟩ := toDigitsCore_spec (n + 1) n (by omega)
  obtain ⟨hdig, hdot, he, hE⟩ := after_value_facts c hc
  have htw := takeWhile_append_stop Char.isDigit (Nat.toDigits 10 n) c r hall hdig
  have hlead : (ch == '0' && (ch :: rest).length != 1) = false := by
    by_cases h0 : n = 0
    · simp [hzero h0]
    · simp [hhead h0]
  unfold parseNat
  simp only [htw.1, htw.2]
  unfold Nat.toDigits
  simp only [hcons, List.isEmpty_cons, Bool.false_eq_true, if_false, List.head?_cons]
  have hcons' : Nat.toDigitsCore 10 (n + 1) n [] = ch :: rest := hcons
  rw [← hcons', hval]
  rw [hcons']
  have h1 : (some ch == some '0' && (ch :: rest).length != 1) = false := by
    simpa using hlead
  have h2 : (some c == some '.' || some c == some 'e' || some c == some 'E') = false := by
    simp [hdot, he, hE]
  have hz : ch = '0' → rest = [] := fun h =>
    hzero (Classical.byContradiction fun hne => hhead hne h)
  have hn' : n ≤ 9007199254740992 := by
    have h53 : (2 : Nat) ^ 53 = 9007199254740992 := by norm_num
    omega
  simp [hdot, he, hE, hn']
  exact hz

theorem stripLead_cons_append (a : Char) (pre rest : List Char) :
    stripLead (a :: pre) (a :: (pre ++ rest)) = some rest := by
  simp [stripLead, stripLead_append]

theorem toString_ofNat_data (m : Nat) : (toString (Int.ofNat m)).data = Nat.toDigits 10 m :=
  rfl

theorem toString_negSucc_data (m : Nat) :
    (toString (Int.negSucc m)).data = '-' :: Nat.toDigits 10 (m + 1) := rfl

theorem toDigits_head (n : Nat) :
    ∃ ch rest, Nat.toDigits 10 n = ch :: rest ∧ ch.isDigit = true := by
  obtain ⟨hall, _, ch, rest, hcons, _, _⟩ := toDigitsCore_spec (n + 1) n (by omega)
  exact ⟨ch, rest, hcons, hall ch (by rw [hcons]; exact List.mem_cons_self ch rest)⟩

/-- A `decimals` value is read back from its text, `NaN` as `null`. -/
theorem parseDecimals_jsonDecimals (d : Decimals) (c : Char) (r : List Char)
    (hd : Readable d) (hc : c = ',' ∨ c = Char.ofNat 125) :
    parseDecimals ((jsonDecimals d).data ++ c :: r) = some (reloadDecimals d, c :: r) := by
  cases d with
  | nan =>
    show parseDecimals ("null".data ++ c :: r) = _
    unfold parseDecimals
    rw [stripLead_append]
    rfl
  | null =>
    show parseDecimals ("null".data ++ c :: r) = _
    unfold parseDecimals
    rw [stripLead_append]
    rfl
  | number n =>
    cases n with
    | ofNat m =>
      have hm : m ≤ 2 ^ 53 := hd
      obtain ⟨ch, rest, hcons, hdig⟩ := toDigits_head m
      have hn : ch ≠ 'n' := by
        intro h
        rw [h] at hdig
        exact absurd hdig (by decide)
      have hminus : ch ≠ '-' := by
        intro h
        rw [h] at hdig
        exact absurd hdig (by decide)
      have hparse := parseNat_toDigits m c r hm hc
      show parseDecimals ((toString (Int.ofNat m)).data ++ c :: r) = _
      rw [toString_ofNat_data]
      rw [hcons] at hparse ⊢
      unfold parseDecimals
      have hstrip : stripLead "null".data (ch :: rest ++ c :: r) = none := by
        simp [stripLead, Ne.symm hn]
      rw [hstrip]
      simp only []
      split
      · rename_i cs' heq
        simp only [List.cons_append, List.cons.injEq] at heq
        exact absurd heq.1 hminus
      · rw [hparse]
        rfl
    | negSucc m =>
      have hm : m + 1 ≤ 2 ^ 53 := hd
      have hparse := parseNat_toDigits (m + 1) c r hm hc
      show parseDecimals ((toString (Int.negSucc m)).data ++ c :: r) = _
      rw [toString_negSucc_data]
      unfold parseDecimals
      have hstrip : stripLead "null".data ('-' :: Nat.toDigits 10 (m + 1) ++ c :: r) = none := by
        simp [stripLead]
      rw [hstrip]
      simp only [List.cons_append, hparse]
      simp [reloadDecimals, Int.negSucc_eq]

theorem jsonToken_data (t : Token) :
    (jsonToken t).data
      = Char.ofNat 123 :: (keyChars "address" ++ ((jsonString t.address).data ++
          (',' :: (keyChars "symbol" ++ ((jsonString t.symbol).data ++
          (',' :: (keyChars "name" ++ ((jsonString t.name).data ++
          (',' :: (keyChars "decimals" ++ ((jsonDecimals t.decimals).data
            ++ tokenTail t))))))))))) := by
  have hs : ∀ ch : Char, (String.singleton ch).data = [ch] := fun _ => rfl
  have hcolon : ":".data = [':'] := rfl
  unfold jsonToken tokenTail
  cases t.coingeckoId with
  | none =>
    simp only [String.data_append, jsonJoin_data, hs, hcolon, List.map_cons, List.map_nil,
      List.append_nil, joinChars, List.flatMap_cons, List.flatMap_nil, keyChars,
      List.append_assoc, List.cons_append, List.nil_append, List.singleton_append]
  | some id =>
    simp only [String.data_append, jsonJoin_data, hs, hcolon, List.map_cons, List.map_nil,
      List.append_nil, joinChars, List.flatMap_cons, List.flatMap_nil, keyChars,
      List.append_assoc, List.cons_append, List.nil_append, List.singleton_append,
      List.map_append]

/-- A token is read back from its text, a `NaN` in `decimals` as `null`. -/
theorem parseToken_jsonToken (t : Token) (rest : List Char) (hd : Readable t.decimals) :
    parseToken ((jsonToken t).data ++ rest) = some (reloadToken t, rest) := by
  obtain ⟨address, symbol, name, decimals, cg⟩ := t
  have h125 : (Char.ofNat 125).toNat = 125 := by decide
  rw [jsonToken_data]
  cases cg with
  | none =>
    have hdec := parseDecimals_jsonDecimals decimals (Char.ofNat 125) rest hd (Or.inr rfl)
    simp only [tokenTail, List.cons_append, List.append_assoc, List.nil_append, parseToken,
      stripLead_cons_append, parseString_jsonString, Option.bind_eq_bind, Option.some_bind,
      List.singleton_append, hdec, h125, beq_self_eq_true, if_true]
    rfl
  | some id =>
    have hdec := parseDecimals_jsonDecimals decimals ','
      (keyChars "coingeckoId" ++ ((jsonString id).data ++ (Char.ofNat 125 :: rest))) hd
      (Or.inl rfl)
    have hcomma : (','.toNat == 125) = false := by decide
    simp only [tokenTail, List.cons_append, List.append_assoc, List.nil_append, parseToken,
      stripLead_cons_append, stripLead_append, parseString_jsonString, Option.bind_eq_bind,
      Option.some_bind, List.singleton_append, hdec, h125, hcomma, beq_self_eq_true, if_true,
      Bool.false_eq_true, if_false]
    rfl

theorem jsonToken_data_cons (t : Token) :
    ∃ tail, (jsonToken t).data = Char.ofNat 123 :: tail := ⟨_, jsonToken_data t⟩

/-- The tokens of an array are read back from the text between its brackets. -/
theorem parseTokenList_join (ts : List Token) (t : Token) (r : List Char) (fuel : Nat)
    (hfuel : ts.length < fuel) (hd : ∀ u ∈ t :: ts, Readable u.decimals) :
    parseTokenList fuel
        (joinChars ((t :: ts).map (fun u => (jsonToken u).data)) ++ ']' :: r)
      = some ((t :: ts).map reloadToken, r) := by
  induction ts generalizing t fuel with
  | nil =>
    obtain ⟨f, rfl⟩ : ∃ f, fuel = f + 1 := ⟨fuel - 1, by simp at hfuel; omega⟩
    have ht := parseToken_jsonToken t (']' :: r) (hd t (List.mem_cons_self t []))
    simp only [List.map_cons, List.map_nil, joinChars, List.flatMap_nil, List.append_nil,
      parseTokenList, ht]
    rfl
  | cons u us ih =>
    obtain ⟨f, rfl⟩ : ∃ f, fuel = f + 1 := ⟨fuel - 1, by simp at hfuel; omega⟩
    have hrest : ∀ v ∈ u :: us, Readable v.decimals :=
      fun v hv => hd v (List.mem_cons_of_mem t hv)
    have ih' := ih u f (by simp at hfuel; omega) hrest
    simp only [List.map_cons, joinChars, List.flatMap_cons, List.append_assoc,
      List.cons_append] at ih' ⊢
    have ht := parseToken_jsonToken t
      (',' :: ((jsonToken u).data ++
        (List.flatMap (us.map (fun u => (jsonToken u).data)) (fun x => ',' :: x)
          ++ ']' :: r)))
      (hd t (List.mem_cons_self t _))
    simp only [parseTokenList, ht, beq_self_eq_true, if_true, ih']
    rfl

theorem length_le_joinChars (ts : List Token) (t : Token) (r : List Char) :
    ts.length < (joinChars ((t :: ts).map (fun u => (jsonToken u).data)) ++ ']' :: r).length := by
  obtain ⟨tail, htail⟩ := jsonToken_data_cons t
  have hflat : ∀ l : List Token,
      l.length
        ≤ (List.flatMap (l.map (fun u => (jsonToken u).data)) (fun x => ',' :: x)).length := by
    intro l
    induction l with
    | nil => simp
    | cons a l ih =>
      simp only [List.map_cons, List.flatMap_cons, List.length_append, List.length_cons]
      omega
  have := hflat ts
  simp only [List.map_cons, joinChars, htail, List.length_append, List.length_cons]
  omega

/-- An array of tokens is read back from its text. -/
theorem parseArray_tokens (ts : List Token) (r : List Char)
    (hd : ∀ u ∈ ts, Readable u.decimals) :
    parseArray ('[' :: (joinChars (ts.map (fun u => (jsonToken u).data)) ++ ']' :: r))
      = some (ts.map reloadToken, r) := by
  cases ts with
  | nil => rfl
  | cons t ts =>
    obtain ⟨tail, htail⟩ := jsonToken_data_cons t
    have hlist := parseTokenList_join ts t r _ (length_le_joinChars ts t r) hd
    have hne : Char.ofNat 123 ≠ ']' := by decide
    simp only [List.map_cons, joinChars, htail, List.cons_append] at hlist ⊢
    unfold parseArray
    split
    · rename_i heq
      simp only [List.cons.injEq, true_and] at heq
      exact absurd heq.1 hne
    · rename_i rest _ heq
      simp only [List.cons.injEq, true_and] at heq
      rw [← heq]
      exact hlist
    · rename_i h1 h2
      exact absurd rfl (h2 _)

theorem joinChars_cons (a : List Char) (rest : List (List Char)) :
    joinChars (a :: rest) = a ++ rest.flatMap (fun x => ',' :: x) := rfl

theorem memberChars_cons (e : String × List Token) :
    ∃ tail, memberChars e = Char.ofNat 34 :: tail := ⟨_, rfl⟩

/-- One member of the catalog is read back: its key, the colon and its array. -/
theorem parseMember (e : String × List Token) (r : List Char)
    (hd : ∀ u ∈ e.2, Readable u.decimals) :
    parseString (memberChars e ++ r)
      = some (e.1, ':' :: '[' ::
          (joinChars (e.2.map (fun t => (jsonToken t).data)) ++ ']' :: r)) ∧
    parseArray ('[' :: (joinChars (e.2.map (fun t => (jsonToken t).data)) ++ ']' :: r))
      = some (e.2.map reloadToken, r) := by
  refine ⟨?_, parseArray_tokens e.2 r hd⟩
  unfold memberChars
  rw [List.append_assoc, parseString_jsonString]
  simp

/-- The members of the catalog are read back from the text between its braces. -/
theorem parseMembers_join (es : List (String × List Token)) (e : String × List Token)
    (r : List Char) (fuel : Nat) (hfuel : es.length < fuel)
    (hd : ∀ m ∈ e :: es, ∀ u ∈ m.2, Readable u.decimals) :
    parseMembers fuel (joinChars ((e :: es).map memberChars) ++ Char.ofNat 125 :: r)
      = some (reloadCatalog (e :: es), r) := by
  have h125 : (Char.ofNat 125).toNat = 125 := by decide
  have hb : (Char.ofNat 125 == ',') = false := by decide
  induction es generalizing e fuel with
  | nil =>
    obtain ⟨f, rfl⟩ : ∃ f, fuel = f + 1 := ⟨fuel - 1, by simp at hfuel; omega⟩
    obtain ⟨hs, ha⟩ := parseMember e (Char.ofNat 125 :: r) (hd e (List.mem_cons_self e []))
    simp only [List.map_cons, List.map_nil, joinChars_cons, List.flatMap_nil, List.append_nil,
      parseMembers, hs, beq_self_eq_true, if_true, ha, hb, Bool.false_eq_true, if_false, h125,
      reloadCatalog]
  | cons m ms ih =>
    obtain ⟨f, rfl⟩ : ∃ f, fuel = f + 1 := ⟨fuel - 1, by simp at hfuel; omega⟩
    have hrest : ∀ x ∈ m :: ms, ∀ u ∈ x.2, Readable u.decimals :=
      fun x hx => hd x (List.mem_cons_of_mem e hx)
    have ih' := ih m f (by simp at hfuel; omega) hrest
    simp only [List.map_cons, joinChars_cons, List.flatMap_cons, List.append_assoc,
      List.cons_append] at ih' ⊢
    obtain ⟨hs, ha⟩ := parseMember e
      (',' :: (memberChars m ++
        (List.flatMap (ms.map memberChars) (fun x => ',' :: x) ++ Char.ofNat 125 :: r)))
      (hd e (List.mem_cons_self e _))
    simp only [parseMembers, hs, beq_self_eq_true, if_true, ha, ih', reloadCatalog,
      List.map_cons, Option.map_some']

theorem length_le_joinMembers (es : List (String × List Token)) (e : String × List Token)
    (r : List Char) :
    es.length < (joinChars ((e :: es).map memberChars) ++ Char.ofNat 125 :: r).length := by
  obtain ⟨tail, htail⟩ := memberChars_cons e
  have hflat : ∀ l : List (String × List Token),
      l.length ≤ (List.flatMap (l.map memberChars) (fun x => ',' :: x)).length := by
    intro l
    induction l with
    | nil => simp
    | cons a l ih =>
      simp only [List.map_cons, List.flatMap_cons, List.length_append, List.length_cons]
      omega
  have := hflat es
  simp only [List.map_cons, joinChars_cons, htail, List.length_append, List.length_cons]
  omega

theorem stringify_data (customTokens : List (String × List Token)) :
    (stringify customTokens).data
      = Char.ofNat 123 :: (joinChars (customTokens.map memberChars) ++ [Char.ofNat 125]) := by
  have hs : ∀ ch : Char, (String.singleton ch).data = [ch] := fun _ => rfl
  have h1 : ":[".data = [':', '['] := rfl
  have h2 : "]".data = [']'] := rfl
  have hm : (customTokens.map (fun e =>
      jsonString e.1 ++ ":[" ++ jsonJoin (e.2.map jsonToken) ++ "]")).map String.data
      = customTokens.map memberChars := by
    rw [List.map_map]
    apply List.map_congr_left
    intro e _
    simp only [Function.comp, String.data_append, h1, h2, jsonJoin_data, memberChars,
      List.map_map, List.append_assoc, List.cons_append, List.nil_append]
    rfl
  unfold stringify
  simp only [String.data_append, hs, jsonJoin_data, hm, List.singleton_append,
    List.append_assoc, List.cons_append, List.nil_append]

theorem assign_of_absent {α : Type} (obj : List (String × α)) (key : String) (value : α)
    (h : ∀ a ∈ obj, a.1 ≠ key) : assign obj key value = obj ++ [(key, value)] := by
  unfold assign
  rw [if_neg]
  simp only [List.any_eq_true, not_exists, not_and, Bool.not_eq_true]
  intro a ha
  simpa using h a ha

/-- Assigning the members of an object with distinct keys, in order, builds that object. -/
theorem foldl_assign_of_nodup {α : Type} (members acc : List (String × α))
    (hdis : ∀ e ∈ members, ∀ a ∈ acc, a.1 ≠ e.1) (hnodup : (members.map Prod.fst).Nodup) :
    members.foldl (fun obj e => assign obj e.1 e.2) acc = acc ++ members := by
  induction members generalizing acc with
  | nil => simp
  | cons e es ih =>
    rw [List.map_cons, List.nodup_cons] at hnodup
    rw [List.foldl_cons, assign_of_absent acc e.1 e.2 (hdis e (List.mem_cons_self e es)),
      ih _ ?_ hnodup.2]
    · simp
    · intro x hx a ha
      rcases List.mem_append.1 ha with h | h
      · exact hdis x (List.mem_cons_of_mem e hx) a h
      · simp only [List.mem_singleton] at h
        rw [h]
        intro heq
        exact hnodup.1 (List.mem_map.2 ⟨x, hx, heq.symm⟩)

theorem reloadCatalog_keys (customTokens : List (String × List Token)) :
    (reloadCatalog customTokens).map Prod.fst = customTokens.map Prod.fst := by
  simp [reloadCatalog, List.map_map, Function.comp]

/-- `JSON.parse` of `JSON.stringify` of a catalog with distinct keys gives the catalog back,
every `NaN` in a `decimals` field replaced by `null`. -/
theorem parseCatalog_stringify (customTokens : List (String × List Token))
    (hkeys : (customTokens.map Prod.fst).Nodup)
    (hd : ∀ e ∈ customTokens, ∀ u ∈ e.2, Readable u.decimals) :
    parseCatalog (stringify customTokens) = some (reloadCatalog customTokens) := by
  have h123 : (Char.ofNat 123).toNat = 123 := by decide
  have h125 : (Char.ofNat 125).toNat = 125 := by decide
  unfold parseCatalog
  rw [stringify_data]
  simp only [h123, beq_self_eq_true, if_true]
  cases customTokens with
  | nil =>
    simp only [List.map_nil, joinChars, List.nil_append, h125, beq_self_eq_true, if_true]
    rfl
  | cons e es =>
    have hparse := parseMembers_join es e [] _ (length_le_joinMembers es e []) hd
    obtain ⟨tail, htail⟩ := memberChars_cons e
    have hfold := foldl_assign_of_nodup (reloadCatalog (e :: es)) []
      (fun _ _ a ha => absurd ha (List.not_mem_nil a))
      (by rw [reloadCatalog_keys]; exact hkeys)
    split
    · rename_i ch' heq
      rw [List.map_cons, joinChars_cons, htail] at heq
      simp only [List.cons_append, List.cons.injEq, List.append_eq_nil, and_false,
        List.cons_ne_nil] at heq
    · rw [hparse]
      simp only [hfold, List.nil_append]

theorem stringify_truthy (customTokens : List (String × List Token)) :
    truthy (some (stringify customTokens)) = true := by
  apply truthy_some_of_ne
  intro h
  have hdata := stringify_data customTokens
  rw [h] at hdata
  exact absurd hdata (by simp)

/-- What `loadCustomTokens` reads right after `saveCustomTokens`. -/
theorem loadCustomTokens_saveCustomTokens (s : App)
    (hkeys : (s.customTokens.map Prod.fst).Nodup)
    (hd : ∀ e ∈ s.customTokens, ∀ u ∈ e.2, Readable u.decimals) :
    loadCustomTokens (saveCustomTokens s).storage = some (reloadCatalog s.customTokens) := by
  unfold loadCustomTokens saveCustomTokens
  simp only [getItem_setItem_same, stringify_truthy, if_true, strOf, Option.getD_some]
  exact parseCatalog_stringify _ hkeys hd

/-! ## Catalogs built with the add-token form -/

theorem mem_assign {α : Type} (obj : List (String × α)) (key : String) (value : α)
    (e : String × α) (he : e ∈ assign obj key value) : e ∈ obj ∨ e = (key, value) := by
  unfold assign at he
  split_ifs at he
  · rw [List.mem_map] at he
    obtain ⟨a, ha, hae⟩ := he
    split_ifs at hae
    · exact Or.inr hae.symm
    · exact Or.inl (hae ▸ ha)
  · rcases List.mem_append.1 he with h | h
    · exact Or.inl h
    · exact Or.inr (by simpa using h)

theorem assign_keys_nodup {α : Type} (obj : List (String × α)) (key : String) (value : α)
    (h : (obj.map Prod.fst).Nodup) : ((assign obj key value).map Prod.fst).Nodup := by
  unfold assign
  split_ifs with hany
  · have hkeys : (obj.map (fun e => if e.1 == key then (key, value) else e)).map Prod.fst
        = obj.map Prod.fst := by
      rw [List.map_map]
      apply List.map_congr_left
      intro e _
      simp only [Function.comp]
      split_ifs with hk
      · exact (by simpa using hk : e.1 = key).symm
      · rfl
    rw [hkeys]
    exact h
  · simp only [List.any_eq_true, not_exists, not_and, Bool.not_eq_true] at hany
    rw [List.map_append, List.nodup_append]
    refine ⟨h, by simp, ?_⟩
    intro k hk hk'
    simp only [List.map_cons, List.map_nil, List.mem_singleton] at hk'
    obtain ⟨e, he, hek⟩ := List.mem_map.1 hk
    have := hany e he
    rw [hek, hk'] at this
    simp at this

theorem lookup_mem {α : Type} (obj : List (String × α)) (key : String) (value : α)
    (h : List.lookup key obj = some value) : (key, value) ∈ obj := by
  obtain ⟨l₁, l₂, hl, _⟩ := List.lookup_eq_some_iff.1 h
  rw [hl]
  simp

/-- A property of the `decimals` values of a catalog is kept by `addCustomToken` when the
submitted value has it. -/
theorem addCustomToken_decimals (P : Decimals → Prop) (toUpperCase : String → String)
    (address symbol name : String) (decimals : Decimals) (s : App) (hP : P decimals)
    (h : ∀ e ∈ s.customTokens, ∀ u ∈ e.2, P u.decimals) :
    ∀ e ∈ (addCustomToken toUpperCase address symbol name decimals s).customTokens,
      ∀ u ∈ e.2, P u.decimals := by
  by_cases hacc : address ≠ "" ∧ symbol ≠ "" ∧ name ≠ ""
  · obtain ⟨ha, hs, hn⟩ := hacc
    rw [addCustomToken_customTokens toUpperCase address symbol name decimals s ha hs hn]
    intro e he u hu
    rcases mem_assign _ _ _ e he with hold | hnew
    · have hold' : e ∈ s.customTokens ∨ e = (s.currentChain, []) := by
        split_ifs at hold
        · exact mem_assign _ _ _ e hold
        · exact Or.inl hold
      rcases hold' with h1 | h1
      · exact h e h1 u hu
      · rw [h1] at hu
        exact absurd hu (List.not_mem_nil u)
    · rw [hnew] at hu
      rcases List.mem_append.1 hu with h1 | h1
      · cases hl : List.lookup s.currentChain s.customTokens with
        | none =>
          rw [hl] at h1
          exact absurd h1 (List.not_mem_nil u)
        | some l =>
          rw [hl] at h1
          exact h _ (lookup_mem _ _ _ hl) u h1
      · simp only [List.mem_singleton] at h1
        rw [h1]
        exact hP
  · have h0 : truthy (some "") = false := by decide
    have hrej : addCustomToken toUpperCase address symbol name decimals s
        = showToast "Please fill all required fields" "error" s := by
      have : address = "" ∨ symbol = "" ∨ name = "" := by
        by_contra hcon
        simp only [not_or] at hcon
        exact hacc ⟨hcon.1, hcon.2.1, hcon.2.2⟩
      rcases this with h1 | h1 | h1 <;> simp [addCustomToken, h1, h0]
    rw [hrej]
    exact h

theorem loadCustomTokens_setItem (st : Storage) (customTokens : List (String × List Token))
    (hkeys : (customTokens.map Prod.fst).Nodup)
    (hd : ∀ e ∈ customTokens, ∀ u ∈ e.2, Readable u.decimals) :
    loadCustomTokens (st.setItem keyCustomTokens (stringify customTokens))
      = some (reloadCatalog customTokens) := by
  have h := loadCustomTokens_saveCustomTokens
    { App.fresh with storage := st, customTokens := customTokens } hkeys hd
  simpa [saveCustomTokens] using h

theorem addCustomToken_keys_nodup (toUpperCase : String → String)
    (address symbol name : String) (decimals : Decimals) (s : App)
    (h : (s.customTokens.map Prod.fst).Nodup) :
    ((addCustomToken toUpperCase address symbol name decimals s).customTokens.map
      Prod.fst).Nodup := by
  by_cases hacc : address ≠ "" ∧ symbol ≠ "" ∧ name ≠ ""
  · obtain ⟨ha, hs, hn⟩ := hacc
    rw [addCustomToken_customTokens toUpperCase address symbol name decimals s ha hs hn]
    apply assign_keys_nodup
    split_ifs
    · exact assign_keys_nodup _ _ _ h
    · exact h
  · have h0 : truthy (some "") = false := by decide
    have hrej : addCustomToken toUpperCase address symbol name decimals s
        = showToast "Please fill all required fields" "error" s := by
      have : address = "" ∨ symbol = "" ∨ name = "" := by
        by_contra hcon
        simp only [not_or] at hcon
        exact hacc ⟨hcon.1, hcon.2.1, hcon.2.2⟩
      rcases this with h1 | h1 | h1 <;> simp [addCustomToken, h1, h0]
    rw [hrej]
    exact h

theorem addCustomToken_catalogSaved (toUpperCase : String → String)
    (address symbol name : String) (decimals : Decimals) (s : App)
    (hr : Readable decimals) (h : CatalogSaved s) :
    CatalogSaved (addCustomToken toUpperCase address symbol name decimals s) := by
  obtain ⟨hk, hd, hl⟩ := h
  have hk' := addCustomToken_keys_nodup toUpperCase address symbol name decimals s hk
  have hd' := addCustomToken_decimals Readable toUpperCase address symbol name decimals s hr hd
  refine ⟨hk', hd', ?_⟩
  by_cases hacc : address ≠ "" ∧ symbol ≠ "" ∧ name ≠ ""
  · obtain ⟨ha, hs, hn⟩ := hacc
    rw [addCustomToken_storage toUpperCase address symbol name decimals s ha hs hn]
    exact loadCustomTokens_setItem _ _ hk' hd'
  · have h0 : truthy (some "") = false := by decide
    have hrej : addCustomToken toUpperCase address symbol name decimals s
        = showToast "Please fill all required fields" "error" s := by
      have : address = "" ∨ symbol = "" ∨ name = "" := by
        by_contra hcon
        simp only [not_or] at hcon
        exact hacc ⟨hcon.1, hcon.2.1, hcon.2.2⟩
      rcases this with h1 | h1 | h1 <;> simp [addCustomToken, h1, h0]
    rw [hrej]
    exact hl

theorem addTokens_catalogSaved (toUpperCase : String → String) (forms : List TokenForm) :
    ∀ s : App, (∀ f ∈ forms, Readable f.decimals) → CatalogSaved s →
      CatalogSaved (addTokens toUpperCase forms s) := by
  induction forms with
  | nil => intro s _ h; exact h
  | cons f rest ih =>
    intro s hr h
    have hstep : addTokens toUpperCase (f :: rest) s
        = addTokens toUpperCase rest
            (addCustomToken toUpperCase f.address f.symbol f.name f.decimals
              (switchChain f.chain s)) := rfl
    rw [hstep]
    apply ih
    · intro g hg
      exact hr g (List.mem_cons_of_mem f hg)
    · apply addCustomToken_catalogSaved
      · exact hr f (List.mem_cons_self f rest)
      · exact h

theorem addTokens_decimals (P : Decimals → Prop) (toUpperCase : String → String)
    (forms : List TokenForm) :
    ∀ s : App, (∀ f ∈ forms, P f.decimals) → (∀ e ∈ s.customTokens, ∀ u ∈ e.2, P u.decimals) →
      ∀ e ∈ (addTokens toUpperCase forms s).customTokens, ∀ u ∈ e.2, P u.decimals := by
  induction forms with
  | nil => intro s _ h; exact h
  | cons f rest ih =>
    intro s hr h
    have hstep : addTokens toUpperCase (f :: rest) s
        = addTokens toUpperCase rest
            (addCustomToken toUpperCase f.address f.symbol f.name f.decimals
              (switchChain f.chain s)) := rfl
    rw [hstep]
    apply ih
    · intro g hg
      exact hr g (List.mem_cons_of_mem f hg)
    · apply addCustomToken_decimals P
      · exact hr f (List.mem_cons_self f rest)
      · exact h

theorem reloadCatalog_of_no_nan (customTokens : List (String × List Token))
    (h : ∀ e ∈ customTokens, ∀ u ∈ e.2, u.decimals ≠ Decimals.nan) :
    reloadCatalog customTokens = customTokens := by
  unfold reloadCatalog
  conv_rhs => rw [← List.map_id customTokens]
  apply List.map_congr_left
  intro e he
  have hlist : e.2.map reloadToken = e.2 := by
    conv_rhs => rw [← List.map_id e.2]
    apply List.map_congr_left
    intro u hu
    have hne := h e he u hu
    cases u with
    | mk address symbol name decimals coingeckoId =>
      cases decimals with
      | nan => exact absurd rfl hne
      | number n => rfl
      | null => rfl
  rw [hlist]
  rfl

theorem loadCustomTokens_of_nothing (st : Storage) (h : st.getItem keyCustomTokens = none) :
    loadCustomTokens st = some [] := by
  simp [loadCustomTokens, h, truthy]

theorem catalogSaved_fresh : CatalogSaved App.fresh := by
  refine ⟨by simp [App.fresh], ?_, ?_⟩
  · intro e he
    simp [App.fresh] at he
  · rfl

/-! ## C22: the catalog read back from storage -/

set_option maxRecDepth 100000 in
/-- C22 (counterexample): a token added with the decimals field left empty has `NaN` as its
`decimals` in memory, and `loadCustomTokens` reads it back from the saved text with `null`
there, so the catalog read back is not the one in memory. -/
theorem C22_empty_decimals_comes_back_null :
    (addTokens asciiUpper [emptyDecimalsForm] App.fresh).customTokens
        = [("ethereum", [⟨"0xabc", "TOK", "Token", Decimals.nan, none⟩])] ∧
      loadCustomTokens (addTokens asciiUpper [emptyDecimalsForm] App.fresh).storage
        = some [("ethereum", [⟨"0xabc", "TOK", "Token", Decimals.null, none⟩])] ∧
      loadCustomTokens (addTokens asciiUpper [emptyDecimalsForm] App.fresh).storage
        ≠ some (addTokens asciiUpper [emptyDecimalsForm] App.fresh).customTokens := by
  decide

/-- C22 (amended): after any sequence of submissions of the add-token form from a fresh
state, with `decimals` values that are `NaN`, `null` or integers of magnitude up to 2^53,
`loadCustomTokens` reads from storage the catalog in memory with every `NaN` replaced by
`null`; it reads the catalog in memory itself when no submitted `decimals` is `NaN`; and
it gives the empty catalog whenever nothing is stored under the key. -/
theorem C22_catalog_read_back (toUpperCase : String → String) (forms : List TokenForm)
    (hread : ∀ f ∈ forms, Readable f.decimals) :
    loadCustomTokens (addTokens toUpperCase forms App.fresh).storage
        = some (reloadCatalog (addTokens toUpperCase forms App.fresh).customTokens) ∧
      ((∀ f ∈ forms, f.decimals ≠ Decimals.nan) →
        loadCustomTokens (addTokens toUpperCase forms App.fresh).storage
          = some (addTokens toUpperCase forms App.fresh).customTokens) ∧
      (∀ st : Storage, st.getItem keyCustomTokens = none → loadCustomTokens st = some []) := by
  have hsaved := addTokens_catalogSaved toUpperCase forms App.fresh hread catalogSaved_fresh
  refine ⟨hsaved.2.2, ?_, loadCustomTokens_of_nothing⟩
  intro hnan
  have hno := addTokens_decimals (fun d => d ≠ Decimals.nan) toUpperCase forms App.fresh hnan
    (by intro e he; simp [App.fresh] at he)
  rw [hsaved.2.2, reloadCatalog_of_no_nan _ hno]

set_option maxRecDepth 100000 in
/-- C22 (witness): three numeric submissions on two chains, one symbol with a quote in it,
are read back as they are in memory. -/
theorem C22_catalog_read_back_witness :
    (∀ f ∈ numericForms, Readable f.decimals) ∧
      (∀ f ∈ numericForms, f.decimals ≠ Decimals.nan) ∧
      (addTokens asciiUpper numericForms App.fresh).customTokens
        = [("ethereum", [⟨"0xabc", "TOK", "Token", Decimals.number 18, none⟩,
                         ⟨"0xabc", "TOK", "Token", Decimals.number 6, none⟩]),
           ("polygon", [⟨"0xdef", "Q\"T", "Quoted", Decimals.number 0, none⟩])] ∧
      loadCustomTokens (addTokens asciiUpper numericForms App.fresh).storage
        = some (addTokens asciiUpper numericForms App.fresh).customTokens :=
  ⟨by simp [numericForms, Readable], by simp [numericForms], by decide,
    (C22_catalog_read_back asciiUpper numericForms (by simp [numericForms, Readable])).2.1
      (by simp [numericForms])⟩

/-! ## C26: the maximum amount -/

set_option maxRecDepth 100000 in
/-- C26 (failing input): on bitcoin with a balance of 99 satoshi `setMaxAmount` fills in
"0.000001", which is 100 satoshi, and `sendTransaction` with that amount asks for the value
100; on ethereum with a balance of 999999600000000000 wei the amount filled in is "1.000000"
and the value asked is 10^18. Both exceed the balance. -/
theorem C26_max_amount_exceeds_the_balance :
    (setMaxAmount smallBalances bitcoinState = some "0.000001" ∧
      readFixed "0.000001" = some (1, 1000000) ∧ 99 * 1000000 < 1 * 10 ^ 8 ∧
      sendTransaction "bc1q" "0.000001" bitcoinState = some ("bc1q", 100)) ∧
    (setMaxAmount nearOneBalances unlockedState = some "1.000000" ∧
      readFixed "1.000000" = some (1000000, 1000000) ∧
      999999600000000000 * 1000000 < 1000000 * 10 ^ 18 ∧
      sendTransaction "0xabc" "1.000000" unlockedState
        = some ("0xabc", 1000000000000000000)) := by
  decide

/-! ## Rounding in double arithmetic -/

theorem bitLength_zero (fuel : Nat) : bitLength fuel 0 = 0 := by
  cases fuel <;> simp [bitLength]

theorem bitLength_spec : ∀ (fuel n : Nat), 0 < n → n ≤ fuel →
    2 ^ (bitLength fuel n - 1) ≤ n ∧ n < 2 ^ bitLength fuel n ∧ 0 < bitLength fuel n := by
  intro fuel
  induction fuel with
  | zero => intro n h1 h2; omega
  | succ f ih =>
    intro n hn hle
    have hstep : bitLength (f + 1) n = bitLength f (n / 2) + 1 := by
      simp [bitLength, Nat.pos_iff_ne_zero.1 hn]
    rw [hstep]
    by_cases h2 : n / 2 = 0
    · have h1 : n = 1 := by omega
      subst h1
      simp [bitLength_zero]
    · have hpos : 0 < n / 2 := Nat.pos_of_ne_zero h2
      obtain ⟨a, b, c⟩ := ih (n / 2) hpos (by omega)
      refine ⟨?_, ?_, by omega⟩
      · have he : bitLength f (n / 2) + 1 - 1 = (bitLength f (n / 2) - 1) + 1 := by omega
        rw [he, pow_succ]
        omega
      · rw [pow_succ]
        omega

theorem bitLength_le (x k : Nat) (h : x < 2 ^ k) : bitLength x x ≤ k := by
  rcases Nat.eq_zero_or_pos x with h0 | h0
  · rw [h0, bitLength_zero]
    exact Nat.zero_le k
  · obtain ⟨a, _, _⟩ := bitLength_spec x x h0 (le_refl x)
    have hlt : 2 ^ (bitLength x x - 1) < 2 ^ k := lt_of_le_of_lt a h
    have := (Nat.pow_lt_pow_iff_right (by norm_num : 1 < 2)).1 hlt
    omega

theorem nearestEven_spec (n d : Nat) (hd : 0 < d) :
    2 * (nearestEven n d * d) ≤ 2 * n + d ∧ 2 * n ≤ 2 * (nearestEven n d * d) + d := by
  have h1 := Nat.div_add_mod n d
  have h2 := Nat.mod_lt n hd
  unfold nearestEven
  simp only []
  split_ifs with h
  · have e : (n / d + 1) * d = d * (n / d) + d := by ring
    rw [e]
    generalize d * (n / d) = p at *
    rcases h with h | ⟨h, _⟩ <;> constructor <;> omega
  · have e : n / d * d = d * (n / d) := by ring
    rw [e]
    simp only [not_or, not_lt, not_and] at h
    generalize d * (n / d) = p at *
    constructor <;> omega

theorem scaling_spec (num den : Nat) (hn : 0 < num) (hd : 0 < den)
    (hlow : den ≤ 2 ^ 200 * num) (hhigh : num ≤ 2 ^ 200 * den) :
    2 ^ 52 * (den * 2 ^ (scaling num den).2) ≤ num * 2 ^ (scaling num den).1 ∧
      num * 2 ^ (scaling num den).1 < 2 ^ 54 * (den * 2 ^ (scaling num den).2) ∧
      (scaling num den).2 ≤ 150 := by
  obtain ⟨n1, n2, n3⟩ := bitLength_spec num num hn (le_refl num)
  obtain ⟨d1, d2, d3⟩ := bitLength_spec den den hd (le_refl den)
  -- the bit lengths are within 1001 of each other
  have hbd : bitLength den den ≤ bitLength num num + 200 := by
    have h : 2 ^ (bitLength den den - 1) < 2 ^ (200 + bitLength num num) := by
      calc 2 ^ (bitLength den den - 1) ≤ den := d1
        _ ≤ 2 ^ 200 * num := hlow
        _ < 2 ^ 200 * 2 ^ bitLength num num :=
          Nat.mul_lt_mul_of_pos_left n2 (by positivity)
        _ = 2 ^ (200 + bitLength num num) := (pow_add 2 200 _).symm
    have := (Nat.pow_lt_pow_iff_right (by norm_num : 1 < 2)).1 h
    omega
  have hbn : bitLength num num ≤ bitLength den den + 200 := by
    have h : 2 ^ (bitLength num num - 1) < 2 ^ (200 + bitLength den den) := by
      calc 2 ^ (bitLength num num - 1) ≤ num := n1
        _ ≤ 2 ^ 200 * den := hhigh
        _ < 2 ^ 200 * 2 ^ bitLength den den :=
          Nat.mul_lt_mul_of_pos_left d2 (by positivity)
        _ = 2 ^ (200 + bitLength den den) := (pow_add 2 200 _).symm
    have := (Nat.pow_lt_pow_iff_right (by norm_num : 1 < 2)).1 h
    omega
  generalize hbn' : bitLength num num = bn at *
  generalize hbd' : bitLength den den = bd at *
  have hfst : (scaling num den).1 = min (if 2 ^ 53 ≤ num * 2 ^ (53 + bd - bn) / (den * 2 ^ (bn - (53 + bd)))
      then 53 + bd - bn - 1 else 53 + bd - bn) 1074 := by
    simp only [scaling, hbn', hbd']
  have hsnd : (scaling num den).2 = if 2 ^ 53 ≤ num * 2 ^ (53 + bd - bn) / (den * 2 ^ (bn - (53 + bd)))
      ∧ 53 + bd - bn = 0 then bn - (53 + bd) + 1 else bn - (53 + bd) := by
    simp only [scaling, hbn', hbd']
  rw [hfst, hsnd]
  generalize hup0 : 53 + bd - bn = up0 at *
  generalize hdown0 : bn - (53 + bd) = down0 at *
  have hid : bn + up0 = 53 + bd + down0 := by omega
  have hd0pos : 0 < den * 2 ^ down0 := by positivity
  -- the bounds before the adjustment
  have ha : 2 ^ 52 * (den * 2 ^ down0) < num * 2 ^ up0 + 1 := by
    have h1 : den * 2 ^ down0 < 2 ^ (bd + down0) := by
      rw [pow_add]
      exact Nat.mul_lt_mul_of_pos_right d2 (by positivity)
    have h2 : 2 ^ (bn - 1 + up0) ≤ num * 2 ^ up0 := by
      rw [pow_add]
      exact Nat.mul_le_mul_right _ n1
    have h3 : 2 ^ 52 * 2 ^ (bd + down0) = 2 ^ (bn - 1 + up0) := by
      rw [← pow_add]
      congr 1
      omega
    have h4 : 2 ^ 52 * (den * 2 ^ down0) < 2 ^ 52 * 2 ^ (bd + down0) :=
      Nat.mul_lt_mul_of_pos_left h1 (by positivity)
    omega
  have hb : num * 2 ^ up0 < 2 ^ 54 * (den * 2 ^ down0) := by
    have h1 : num * 2 ^ up0 < 2 ^ (bn + up0) := by
      rw [pow_add]
      exact Nat.mul_lt_mul_of_pos_right n2 (by positivity)
    have h2 : 2 ^ (bd - 1 + down0) ≤ den * 2 ^ down0 := by
      rw [pow_add]
      exact Nat.mul_le_mul_right _ d1
    have h3 : 2 ^ (bn + up0) = 2 ^ 54 * 2 ^ (bd - 1 + down0) := by
      rw [← pow_add]
      congr 1
      omega
    have h4 : 2 ^ 54 * 2 ^ (bd - 1 + down0) ≤ 2 ^ 54 * (den * 2 ^ down0) :=
      Nat.mul_le_mul_left _ h2
    omega
  have hcap : up0 ≤ 1074 := by omega
  by_cases hw : 2 ^ 53 ≤ num * 2 ^ up0 / (den * 2 ^ down0)
  · have hw' : 2 ^ 53 * (den * 2 ^ down0) ≤ num * 2 ^ up0 :=
      (Nat.le_div_iff_mul_le hd0pos).1 hw
    by_cases h0 : up0 = 0
    · subst h0
      simp only [pow_zero, mul_one] at hw hw' hb ha ⊢
      simp only [hw, and_self, if_true]
      have e : den * 2 ^ (down0 + 1) = 2 * (den * 2 ^ down0) := by ring
      rw [e]
      simp only [Nat.zero_sub, Nat.zero_le, min_eq_left, pow_zero, mul_one]
      refine ⟨by omega, by omega, by omega⟩
    · simp only [hw, h0, and_false, if_true, if_false]
      have hmin : min (up0 - 1) 1074 = up0 - 1 := min_eq_left (by omega)
      rw [hmin]
      have e : num * 2 ^ up0 = 2 * (num * 2 ^ (up0 - 1)) := by
        have : up0 = (up0 - 1) + 1 := by omega
        conv_lhs => rw [this, pow_succ]
        ring
      rw [e] at hw' hb
      refine ⟨by omega, by omega, by omega⟩
  · simp only [hw, false_and, if_false]
    rw [min_eq_left hcap]
    refine ⟨by omega, hb, by omega⟩

/-- Within the range of the normal doubles, `roundDouble` gives a fraction at a relative
distance of at most 2^-53 from the one it rounds. -/
theorem roundDouble_spec (s : Bool) (num den : Nat) (hn : 0 < num) (hd : 0 < den)
    (hlow : den ≤ 2 ^ 200 * num) (hhigh : num ≤ 2 ^ 200 * den) :
    ∃ N D, roundDouble s num den = .finite s N D ∧ 0 < D ∧
      2 ^ 53 * (N * den) ≤ (2 ^ 53 + 1) * (num * D) ∧
      (2 ^ 53 - 1) * (num * D) ≤ 2 ^ 53 * (N * den) := by
  obtain ⟨h1, h2, h3⟩ := scaling_spec num den hn hd hlow hhigh
  have hdpos : 0 < den * 2 ^ (scaling num den).2 := by positivity
  obtain ⟨r1, r2⟩ := nearestEven_spec (num * 2 ^ (scaling num den).1)
    (den * 2 ^ (scaling num den).2) hdpos
  have hdef : roundDouble s num den =
      if 1024 + (scaling num den).1 <
          bitLength (nearestEven (num * 2 ^ (scaling num den).1)
              (den * 2 ^ (scaling num den).2) * 2 ^ (scaling num den).2)
            (nearestEven (num * 2 ^ (scaling num den).1)
              (den * 2 ^ (scaling num den).2) * 2 ^ (scaling num den).2)
      then .infinity s
      else .finite s (nearestEven (num * 2 ^ (scaling num den).1)
              (den * 2 ^ (scaling num den).2) * 2 ^ (scaling num den).2)
          (2 ^ (scaling num den).1) := by
    simp only [roundDouble, hd.ne', hn.ne', if_false]
  generalize (scaling num den).1 = up at *
  generalize (scaling num den).2 = down at *
  generalize hm : nearestEven (num * 2 ^ up) (den * 2 ^ down) = m at *
  have hmlt : m < 2 ^ 55 := by
    have h : m * (den * 2 ^ down) < 2 ^ 55 * (den * 2 ^ down) := by
      generalize den * 2 ^ down = d at *
      generalize num * 2 ^ up = n at *
      generalize m * d = p at *
      omega
    exact Nat.lt_of_mul_lt_mul_right h
  have hbits : bitLength (m * 2 ^ down) (m * 2 ^ down) ≤ 55 + down := by
    apply bitLength_le
    rw [pow_add]
    exact Nat.mul_lt_mul_of_pos_right hmlt (by positivity)
  refine ⟨m * 2 ^ down, 2 ^ up, ?_, by positivity, ?_, ?_⟩
  · rw [hdef, if_neg (by omega)]
  · have e : m * 2 ^ down * den = m * (den * 2 ^ down) := by ring
    rw [e]
    generalize den * 2 ^ down = d at *
    generalize num * 2 ^ up = n at *
    generalize m * d = p at *
    omega
  · have e : m * 2 ^ down * den = m * (den * 2 ^ down) := by ring
    rw [e]
    generalize den * 2 ^ down = d at *
    generalize num * 2 ^ up = n at *
    generalize m * d = p at *
    omega

set_option maxRecDepth 100000 in
/-- The powers of ten up to 10^22 are doubles. -/
theorem pow10_exact (d : Nat) (hd : d ≤ 22) :
    ∃ P Q, Math.pow10 d = .finite false P Q ∧ 0 < Q ∧ P = 10 ^ d * Q := by
  interval_cases d <;> exact ⟨_, _, rfl, by decide, by decide⟩

theorem fixedText_rounded (N D k : Nat) :
    fixedText N D k = fixedText ((2 * N * 10 ^ k + D) / (2 * D)) (10 ^ k) k := by
  have h : (2 * ((2 * N * 10 ^ k + D) / (2 * D)) * 10 ^ k + 10 ^ k) / (2 * 10 ^ k)
      = (2 * N * 10 ^ k + D) / (2 * D) := by
    generalize (2 * N * 10 ^ k + D) / (2 * D) = n
    have hp : 0 < 10 ^ k := by positivity
    apply Nat.div_eq_of_lt_le
    · have e : n * (2 * 10 ^ k) = 2 * n * 10 ^ k := by ring
      omega
    · have e : (n + 1) * (2 * 10 ^ k) = 2 * n * 10 ^ k + 2 * 10 ^ k := by ring
      omega
  simp only [fixedText, h]

theorem toNumber_zero : toNumber 0 = .finite false 0 1 := by
  simp [toNumber, roundDouble]

/-- The quotient of a balance by a power of ten up to 10^22, computed in doubles, is a
fraction at a relative distance of at most 2^-51 from the exact quotient. -/
theorem quotient_near (raw d : Nat) (hd : d ≤ 22) (hraw : raw ≤ 2 ^ 50 * 10 ^ 22) :
    ∃ N D, (toNumber raw).div (Math.pow10 d) = .finite false N D ∧ 0 < D ∧
      Near N D raw (10 ^ d) := by
  obtain ⟨P, Q, hP, hQ, hPQ⟩ := pow10_exact d hd
  have hT : 0 < 10 ^ d := by positivity
  have hPpos : 0 < P := by rw [hPQ]; positivity
  rcases Nat.eq_zero_or_pos raw with h0 | hpos
  · subst h0
    refine ⟨0, 1, ?_, one_pos, ?_⟩
    · rw [toNumber_zero, hP]
      simp only [Double.div, hPpos.ne', if_false, Nat.zero_mul]
      simp [roundDouble, hPpos.ne']
    · unfold Near
      simp
  · have hT22 : 10 ^ d ≤ 10 ^ 22 := Nat.pow_le_pow_right (by norm_num) hd
    obtain ⟨a, b, ha, hb, ha1, ha2⟩ := roundDouble_spec false raw 1 hpos one_pos
      (by omega) (by norm_num at hraw ⊢; omega)
    simp only [Nat.mul_one] at ha1 ha2
    have e53 : 2 ^ 53 - 1 = 9007199254740991 := by norm_num
    rw [e53] at ha2
    have hapos : 0 < a := by
      rcases Nat.eq_zero_or_pos a with h | h
      · rw [h] at ha2
        have : 0 < raw * b := Nat.mul_pos hpos hb
        omega
      · exact h
    -- the double of the balance lies between half and twice the balance
    have hab1 : a ≤ 2 * (raw * b) := by omega
    have hab2 : raw * b ≤ 2 * a := by omega
    obtain ⟨N, D, hN, hD, hN1, hN2⟩ := roundDouble_spec false (a * Q) (b * P)
      (Nat.mul_pos hapos hQ) (Nat.mul_pos hb hPpos)
      (by
        rw [hPQ]
        have h1 : b ≤ 2 * a := le_trans (Nat.le_mul_of_pos_left b hpos) hab2
        have h2 : b * (10 ^ d * Q) ≤ (2 * a) * (10 ^ 22 * Q) :=
          Nat.mul_le_mul h1 (Nat.mul_le_mul_right Q hT22)
        have h3 : (2 * a) * (10 ^ 22 * Q) ≤ 2 ^ 200 * (a * Q) := by
          have e1 : (2 * a) * (10 ^ 22 * Q) = (2 * 10 ^ 22) * (a * Q) := by ring
          rw [e1]
          exact Nat.mul_le_mul_right _ (by norm_num)
        exact le_trans h2 h3)
      (by
        rw [hPQ]
        have h1 : a * Q ≤ 2 * (raw * b) * Q := Nat.mul_le_mul_right Q hab1
        have h2 : 2 * (raw * b) * Q ≤ 2 * (2 ^ 50 * 10 ^ 22 * b) * Q :=
          Nat.mul_le_mul_right Q (Nat.mul_le_mul_left 2 (Nat.mul_le_mul_right b hraw))
        have h3 : 2 * (2 ^ 50 * 10 ^ 22 * b) * Q ≤ 2 ^ 200 * (b * (10 ^ d * Q)) := by
          have e1 : 2 * (2 ^ 50 * 10 ^ 22 * b) * Q = (2 * 2 ^ 50 * 10 ^ 22) * (b * Q) := by ring
          have e2 : 2 ^ 200 * (b * (10 ^ d * Q)) = (2 ^ 200 * 10 ^ d) * (b * Q) := by ring
          rw [e1, e2]
          apply Nat.mul_le_mul_right
          calc 2 * 2 ^ 50 * 10 ^ 22 ≤ 2 ^ 200 * 1 := by norm_num
            _ ≤ 2 ^ 200 * 10 ^ d := Nat.mul_le_mul_left _ hT
        exact le_trans h1 (le_trans h2 h3))
    have hdiv : (toNumber raw).div (Math.pow10 d) = .finite false N D := by
      rw [toNumber, ha, hP]
      simp only [Double.div, hPpos.ne', if_false]
      exact hN
    rw [hPQ] at hN1 hN2
    rw [e53] at hN2
    -- the quotient double against the exact quotient
    have hA : 2 ^ 106 * (N * 10 ^ d) ≤ (2 ^ 53 + 1) ^ 2 * (raw * D) := by
      have hbQ : 0 < b * Q := Nat.mul_pos hb hQ
      apply Nat.le_of_mul_le_mul_right _ hbQ
      have h1 := Nat.mul_le_mul_right (Q * D) ha1
      linarith [h1, hN1]
    have hB : 9007199254740991 ^ 2 * (raw * D) ≤ 2 ^ 106 * (N * 10 ^ d) := by
      have hbQ : 0 < b * Q := Nat.mul_pos hb hQ
      apply Nat.le_of_mul_le_mul_right _ hbQ
      have h1 := Nat.mul_le_mul_right (Q * D) ha2
      linarith [h1, hN2]
    refine ⟨N, D, hdiv, hD, ?_⟩
    have hpos' : 0 ≤ raw * D := Nat.zero_le _
    have e51 : 2 ^ 51 - 1 = 2251799813685247 := by norm_num
    unfold Near
    rw [e51]
    constructor
    · linarith [hA, hpos']
    · linarith [hB, hpos']

theorem digitsValue_concat (a b : List Char) :
    digitsValue (a ++ b) = digitsValue a * 10 ^ b.length + digitsValue b := by
  induction b using List.reverseRecOn with
  | nil => simp [digitsValue]
  | append_singleton b ch ih =>
    rw [← List.append_assoc, digitsValue_append, digitsValue_append, ih]
    simp only [List.length_append, List.length_singleton, pow_succ]
    ring

theorem digitsValue_zeros (z : Nat) : digitsValue (List.replicate z '0') = 0 := by
  induction z with
  | zero => rfl
  | succ z ih =>
    rw [List.replicate_succ', digitsValue_append, ih]
    rfl

/-- The digits of a number below `10 ^ k` are at most `k`. -/
theorem toDigitsCore_length (fuel : Nat) :
    ∀ n k, n < fuel → 0 < k → n < 10 ^ k → (Nat.toDigitsCore 10 fuel n []).length ≤ k := by
  induction fuel with
  | zero => intro n k h; omega
  | succ fuel ih =>
    intro n k hfuel hk hn
    simp only [Nat.toDigitsCore]
    split_ifs with h0
    · simpa using hk
    · rw [toDigitsCore_acc]
      have hk2 : 2 ≤ k := by
        by_contra hcon
        have hk1 : k = 1 := by omega
        rw [hk1] at hn
        omega
      have hlt : n / 10 < 10 ^ (k - 1) := by
        have e : 10 ^ k = 10 ^ (k - 1) * 10 := by
          rw [← pow_succ]
          congr 1
          omega
        rw [e] at hn
        exact Nat.div_lt_of_lt_mul (by omega)
      have := ih (n / 10) (k - 1) (by omega) (by omega) hlt
      simp only [List.length_append, List.length_singleton]
      omega

theorem toString_nat_data (m : Nat) : (toString m).data = Nat.toDigits 10 m := rfl

theorem takeWhile_all {α : Type} (p : α → Bool) (l : List α) (h : ∀ x ∈ l, p x = true) :
    l.takeWhile p = l ∧ l.dropWhile p = [] := by
  induction l with
  | nil => simp
  | cons x l ih =>
    have hx := h x (List.mem_cons_self x l)
    have ih' := ih (fun y hy => h y (List.mem_cons_of_mem x hy))
    simp [List.takeWhile, List.dropWhile, hx, ih'.1, ih'.2]

theorem dropWhile_none {α : Type} (p : α → Bool) (l : List α) (h : ∀ x ∈ l, p x = false) :
    l.dropWhile p = l := by
  cases l with
  | nil => rfl
  | cons x l => simp [List.dropWhile, h x (List.mem_cons_self x l)]

/-- What the literal reader needs to know of a digit. -/
theorem digit_facts (ch : Char) (h : ch.isDigit = true) :
    isJsWhiteSpace ch = false ∧ ch ≠ '-' ∧ ch ≠ '+' ∧ ch ≠ 'I' ∧ ch ≠ '.' ∧
      ch ≠ 'x' ∧ ch ≠ 'X' ∧ ch ≠ 'o' ∧ ch ≠ 'O' ∧ ch ≠ 'b' ∧ ch ≠ 'B' := by
  have hr : 48 ≤ ch.toNat ∧ ch.toNat ≤ 57 := by
    simp only [Char.isDigit, Bool.and_eq_true, decide_eq_true_eq] at h
    exact ⟨h.1, h.2⟩
  have hne : ∀ c : Char, (c.toNat < 48 ∨ 57 < c.toNat) → ch ≠ c := by
    intro c hc heq
    rw [heq] at hr
    omega
  refine ⟨?_, hne _ (by decide), hne _ (by decide), hne _ (by decide), hne _ (by decide),
    hne _ (by decide), hne _ (by decide), hne _ (by decide), hne _ (by decide),
    hne _ (by decide), hne _ (by decide)⟩
  simp only [isJsWhiteSpace]
  generalize ch.toNat = n at hr
  have h1 : (n == 9) = false := by simp; omega
  simp only [Bool.or_eq_false_iff, Bool.and_eq_false_iff, beq_eq_false_iff_ne, ne_eq,
    decide_eq_false_iff_not, not_le]
  omega

theorem jsTrim_plain (cs : List Char) (h : ∀ c ∈ cs, isJsWhiteSpace c = false) :
    jsTrim (String.mk cs) = String.mk cs := by
  unfold jsTrim
  rw [dropWhile_none _ cs h, dropWhile_none _ cs.reverse (fun c hc => h c (List.mem_reverse.1 hc)),
    List.reverse_reverse]

theorem nonDecimalLiteral_digits (w : Char) (rest : List Char)
    (hrest : ∀ x more, rest = x :: more → x.isDigit = true ∨ x = '.') :
    nonDecimalLiteral (w :: rest) = none := by
  unfold nonDecimalLiteral
  split
  · rename_i x more heq
    injection heq with h1 h2
    have hx : x.isDigit = true ∨ x = '.' := hrest x more h2
    have hfacts : x ≠ 'x' ∧ x ≠ 'X' ∧ x ≠ 'o' ∧ x ≠ 'O' ∧ x ≠ 'b' ∧ x ≠ 'B' := by
      rcases hx with hx | hx
      · have := digit_facts x hx
        exact ⟨this.2.2.2.2.2.1, this.2.2.2.2.2.2.1, this.2.2.2.2.2.2.2.1,
          this.2.2.2.2.2.2.2.2.1, this.2.2.2.2.2.2.2.2.2.1, this.2.2.2.2.2.2.2.2.2.2⟩
      · rw [hx]
        decide
    obtain ⟨f1, f2, f3, f4, f5, f6⟩ := hfacts
    simp [f1, f2, f3, f4, f5, f6]
  · rfl

theorem signedLiteral_digits (w : Char) (rest : List Char) (hw : w.isDigit = true) :
    signedLiteral (w :: rest) = unsignedLiteral false (w :: rest) := by
  have hf := digit_facts w hw
  unfold signedLiteral
  split
  · rename_i heq
    injection heq with h1 h2
    exact absurd h1 hf.2.1
  · rename_i heq
    injection heq with h1 h2
    exact absurd h1 hf.2.2.1
  · rfl

/-- A numeral of digits with a point is read as the fraction it writes, rounded. -/
theorem stringToNumber_digits (w : Char) (W Fr : List Char)
    (hWd : ∀ c ∈ w :: W, c.isDigit = true) (hFd : ∀ c ∈ Fr, c.isDigit = true) :
    stringToNumber (String.mk ((w :: W) ++ '.' :: Fr))
      = roundDouble false (digitsValue ((w :: W) ++ Fr)) (10 ^ Fr.length) := by
  have hw : w.isDigit = true := hWd w (List.mem_cons_self w W)
  have hall : ∀ c ∈ (w :: W) ++ '.' :: Fr, isJsWhiteSpace c = false := by
    intro c hc
    rcases List.mem_append.1 hc with h | h
    · exact (digit_facts c (hWd c h)).1
    · rcases List.mem_cons.1 h with h | h
      · rw [h]
        decide
      · exact (digit_facts c (hFd c h)).1
  have hnon : nonDecimalLiteral ((w :: W) ++ '.' :: Fr) = none := by
    apply nonDecimalLiteral_digits w _
    intro x more heq
    cases W with
    | nil =>
      injection heq with h1 h2
      exact Or.inr h1.symm
    | cons c W =>
      injection heq with h1 h2
      exact Or.inl (h1 ▸ hWd c (by simp))
  have hI : stripLead "Infinity".data ((w :: W) ++ '.' :: Fr) = none := by
    have e : "Infinity".data = 'I' :: "nfinity".data := rfl
    have hne : ¬ 'I' = w := fun h => (digit_facts w hw).2.2.2.1 h.symm
    rw [e]
    simp [stripLead, hne]
  have hdot : Char.isDigit '.' = false := by decide
  obtain ⟨t1, t2⟩ := takeWhile_append_stop Char.isDigit (w :: W) '.' Fr hWd hdot
  obtain ⟨t3, t4⟩ := takeWhile_all Char.isDigit Fr hFd
  have hu : unsignedLiteral false ((w :: W) ++ '.' :: Fr)
      = (roundDouble false (digitsValue ((w :: W) ++ Fr)) (10 ^ Fr.length), []) := by
    unfold unsignedLiteral
    rw [hI]
    simp only [t1, t2, t3, t4]
    simp [exponentPart]
  have hs := signedLiteral_digits w (W ++ '.' :: Fr) hw
  rw [← List.cons_append] at hs
  unfold stringToNumber
  rw [jsTrim_plain _ hall]
  simp only [hnon, hs, hu]
  simp

theorem half_up_self (n p : Nat) (hp : 0 < p) : (2 * n * p + p) / (2 * p) = n := by
  apply Nat.div_eq_of_lt_le
  · have e : n * (2 * p) = 2 * n * p := by ring
    omega
  · have e : (n + 1) * (2 * p) = 2 * n * p + 2 * p := by ring
    omega

/-- The text of a numeral with `k` decimals is read back as the fraction it writes,
rounded to a double. -/
theorem stringToNumber_fixedText (n k : Nat) (hk : 0 < k) :
    stringToNumber (fixedText n (10 ^ k) k) = roundDouble false n (10 ^ k) := by
  have hp : 0 < 10 ^ k := by positivity
  obtain ⟨hWall, hWval, w, W, hWcons, _, _⟩ :=
    toDigitsCore_spec (n / 10 ^ k + 1) (n / 10 ^ k) (by omega)
  obtain ⟨hFall, hFval, _⟩ := toDigitsCore_spec (n % 10 ^ k + 1) (n % 10 ^ k) (by omega)
  have hFlen := toDigitsCore_length (n % 10 ^ k + 1) (n % 10 ^ k) k (by omega) hk
    (Nat.mod_lt n hp)
  have hW : (toString (n / 10 ^ k)).data = w :: W := hWcons
  have hF : (toString (n % 10 ^ k)).data = Nat.toDigitsCore 10 (n % 10 ^ k + 1) (n % 10 ^ k) [] :=
    rfl
  generalize Nat.toDigitsCore 10 (n % 10 ^ k + 1) (n % 10 ^ k) [] = F at *
  have htext : fixedText n (10 ^ k) k
      = String.mk ((w :: W) ++ '.' :: (List.replicate (k - F.length) '0' ++ F)) := by
    simp only [fixedText, half_up_self n (10 ^ k) hp, hW, hF, hk.ne', if_false]
  have hFr : ∀ c ∈ List.replicate (k - F.length) '0' ++ F, c.isDigit = true := by
    intro c hc
    rcases List.mem_append.1 hc with h | h
    · rw [(List.mem_replicate.1 h).2]
      rfl
    · exact hFall c h
  rw [hWcons] at hWall hWval
  rw [htext, stringToNumber_digits w W _ hWall hFr]
  have hlen : (List.replicate (k - F.length) '0' ++ F).length = k := by
    simp only [List.length_append, List.length_replicate]
    omega
  have hval : digitsValue ((w :: W) ++ (List.replicate (k - F.length) '0' ++ F)) = n := by
    rw [digitsValue_concat, hlen, hWval, digitsValue_concat, digitsValue_zeros, hFval]
    have := Nat.div_add_mod n (10 ^ k)
    have e : n / 10 ^ k * 10 ^ k = 10 ^ k * (n / 10 ^ k) := by ring
    omega
  rw [hlen, hval]

/-- The text `toFixed` shows for a double at a relative distance of at most 2^-51 from a
fraction `A / B`: a numeral of less than one unit of its last place away from `A / B`. -/
theorem toFixed_near (N D A B k : Nat) (hD : 0 < D) (hB : 0 < B) (hnear : Near N D A B)
    (hsize : A * 10 ^ k ≤ 2 ^ 49 * B) :
    ∃ n, toFixed k (.finite false N D) = fixedText n (10 ^ k) k ∧
      fixedText N D k = fixedText n (10 ^ k) k ∧
      n * B < A * 10 ^ k + B ∧ A * 10 ^ k < n * B + B := by
  have e51 : 2 ^ 51 - 1 = 2251799813685247 := by norm_num
  unfold Near at hnear
  rw [e51] at hnear
  obtain ⟨hup, hlo⟩ := hnear
  have hK : 0 < 10 ^ k := by positivity
  have hBD : 0 < B * D := Nat.mul_pos hB hD
  have hsmall : ¬ 10 ^ 21 * D ≤ N := by
    intro hcon
    have h2 := Nat.mul_le_mul_right B hcon
    have h3 := Nat.mul_le_mul_right D (le_trans (Nat.le_mul_of_pos_right A hK) hsize)
    linarith [h2, h3, hup, hBD]
  have hdm := Nat.div_add_mod (2 * N * 10 ^ k + D) (2 * D)
  have hml := Nat.mod_lt (2 * N * 10 ^ k + D) (by omega : 0 < 2 * D)
  refine ⟨(2 * N * 10 ^ k + D) / (2 * D), ?_, fixedText_rounded N D k, ?_, ?_⟩
  · simp only [toFixed, hsmall, if_false]
    rw [← fixedText_rounded N D k]
    simp
  · generalize (2 * N * 10 ^ k + D) / (2 * D) = n at *
    generalize (2 * N * 10 ^ k + D) % (2 * D) = r at *
    apply Nat.lt_of_mul_lt_mul_right (a := D)
    have h1 := Nat.mul_le_mul_right (10 ^ k) hup
    have h2 := Nat.mul_le_mul_right D hsize
    have h3 : (2 * D * n + r) * B = (2 * N * 10 ^ k + D) * B := by rw [hdm]
    have h4 : r * B < 2 * D * B := Nat.mul_lt_mul_of_pos_right hml hB
    have h5 : 0 ≤ r * B := Nat.zero_le _
    linarith [h1, h2, hBD, h3, h4, h5]
  · generalize (2 * N * 10 ^ k + D) / (2 * D) = n at *
    generalize (2 * N * 10 ^ k + D) % (2 * D) = r at *
    apply Nat.lt_of_mul_lt_mul_right (a := D)
    have h1 := Nat.mul_le_mul_right (10 ^ k) hlo
    have h2 := Nat.mul_le_mul_right D hsize
    have h3 : (2 * D * n + r) * B = (2 * N * 10 ^ k + D) * B := by rw [hdm]
    have h4 : r * B < 2 * D * B := Nat.mul_lt_mul_of_pos_right hml hB
    have h5 : 0 ≤ r * B := Nat.zero_le _
    linarith [h1, h2, hBD, h3, h4, h5]

/-- The rounding of `toFixed`: the text is the fraction of the double rounded half up to `k`
decimals, and when the double is at a relative distance of at most 2^-51 from a fraction
`A / B` that is clear of ties, it is `A / B` rounded to `k` decimals. -/
theorem toFixed_rounds (N D A B k : Nat) (hD : 0 < D) (hB : 0 < B) (hnear : Near N D A B)
    (hsize : A * 10 ^ k ≤ 2 ^ 49 * B) :
    toFixed k (.finite false N D) = fixedText N D k ∧
      (ClearOfTies A B k → fixedText N D k = fixedText A B k) := by
  have e51 : 2 ^ 51 - 1 = 2251799813685247 := by norm_num
  unfold Near at hnear
  rw [e51] at hnear
  obtain ⟨hup, hlo⟩ := hnear
  have hK : 0 < 10 ^ k := by positivity
  have hBD : 0 < B * D := Nat.mul_pos hB hD
  have hsmall : ¬ 10 ^ 21 * D ≤ N := by
    intro hcon
    have h2 := Nat.mul_le_mul_right B hcon
    have h3 := Nat.mul_le_mul_right D (le_trans (Nat.le_mul_of_pos_right A hK) hsize)
    linarith [h2, h3, hup, hBD]
  constructor
  · simp only [toFixed, hsmall, if_false]
    simp
  · intro hclear
    obtain ⟨hc1, hc2⟩ := hclear
    have hdm := Nat.div_add_mod (2 * A * 10 ^ k + B) (2 * B)
    generalize (2 * A * 10 ^ k + B) / (2 * B) = m at hdm
    generalize (2 * A * 10 ^ k + B) % (2 * B) = r at hdm hc1 hc2
    have hn : (2 * N * 10 ^ k + D) / (2 * D) = m := by
      have h1 := Nat.mul_le_mul_right (10 ^ k) hup
      have h2 := Nat.mul_le_mul_right (10 ^ k) hlo
      have h3 : (2 * B * m + r) * D = (2 * A * 10 ^ k + B) * D := by rw [hdm]
      have h4 := Nat.mul_le_mul_right D hc1
      have h5 := Nat.mul_lt_mul_of_pos_right hc2 hD
      apply Nat.div_eq_of_lt_le
      · apply Nat.le_of_mul_le_mul_right _ hB
        linarith [h2, h3, h4]
      · apply Nat.lt_of_mul_lt_mul_right (a := B)
        linarith [h1, h3, h5]
    have hm : (2 * A * 10 ^ k + B) / (2 * B) = m := by
      apply Nat.div_eq_of_lt_le
      · have e : m * (2 * B) = 2 * B * m := by ring
        omega
      · have hr := Nat.mod_lt (2 * A * 10 ^ k + B) (by omega : 0 < 2 * B)
        have hr' : r < 2 * B := by
          have hc : 2 ^ 50 * r < 2 ^ 51 * B := by omega
          omega
        have e : (m + 1) * (2 * B) = 2 * B * m + 2 * B := by ring
        omega
    rw [fixedText_rounded N D k, fixedText_rounded A B k, hn, hm]

/-- The double of a fraction between 2^-64 and 2^64 is a fraction between 2^-65 and
2^65. -/
theorem roundDouble_size (num den : Nat) (hn : 0 < num) (hd : 0 < den)
    (hlow : den ≤ 2 ^ 64 * num) (hhigh : num ≤ 2 ^ 64 * den) :
    ∃ a b, roundDouble false num den = .finite false a b ∧ 0 < a ∧ 0 < b ∧
      2 ^ 53 * (a * den) ≤ (2 ^ 53 + 1) * (num * b) ∧
      9007199254740991 * (num * b) ≤ 2 ^ 53 * (a * den) ∧
      b ≤ 2 ^ 65 * a ∧ a ≤ 2 ^ 65 * b := by
  obtain ⟨a, b, ha, hb, h1, h2⟩ := roundDouble_spec false num den hn hd
    (le_trans hlow (Nat.mul_le_mul_right _ (by norm_num)))
    (le_trans hhigh (Nat.mul_le_mul_right _ (by norm_num)))
  have e53 : 2 ^ 53 - 1 = 9007199254740991 := by norm_num
  rw [e53] at h2
  have hnb : 0 < num * b := Nat.mul_pos hn hb
  have hapos : 0 < a := by
    rcases Nat.eq_zero_or_pos a with h | h
    · rw [h] at h2
      omega
    · exact h
  refine ⟨a, b, ha, hapos, hb, h1, h2, ?_, ?_⟩
  · apply Nat.le_of_mul_le_mul_right _ hd
    have h3 := Nat.mul_le_mul_right b hlow
    linarith [h2, h3]
  · apply Nat.le_of_mul_le_mul_right _ hd
    have h3 := Nat.mul_le_mul_right b hhigh
    linarith [h1, h3]

/-- The product of the doubles of two fractions between 2^-64 and 2^64 is a double at a
relative distance of at most 2^-51 from the product of the fractions. -/
theorem mul_near (tn td pn pd : Nat) (htn : 0 < tn) (htd : 0 < td) (hpn : 0 < pn)
    (hpd : 0 < pd) (ht1 : td ≤ 2 ^ 64 * tn) (ht2 : tn ≤ 2 ^ 64 * td)
    (hp1 : pd ≤ 2 ^ 64 * pn) (hp2 : pn ≤ 2 ^ 64 * pd) :
    ∃ N D, (roundDouble false tn td).mul (roundDouble false pn pd) = .finite false N D ∧
      0 < D ∧ Near N D (tn * pn) (td * pd) := by
  obtain ⟨a1, b1, e1, ha1, hb1, u1, l1, s1, g1⟩ := roundDouble_size tn td htn htd ht1 ht2
  obtain ⟨a2, b2, e2, ha2, hb2, u2, l2, s2, g2⟩ := roundDouble_size pn pd hpn hpd hp1 hp2
  have hsb : b1 * b2 ≤ 2 ^ 200 * (a1 * a2) := by
    have h := Nat.mul_le_mul s1 s2
    have e : 2 ^ 65 * a1 * (2 ^ 65 * a2) = 2 ^ 130 * (a1 * a2) := by ring
    rw [e] at h
    exact le_trans h (Nat.mul_le_mul_right _ (by norm_num))
  have hsa : a1 * a2 ≤ 2 ^ 200 * (b1 * b2) := by
    have h := Nat.mul_le_mul g1 g2
    have e : 2 ^ 65 * b1 * (2 ^ 65 * b2) = 2 ^ 130 * (b1 * b2) := by ring
    rw [e] at h
    exact le_trans h (Nat.mul_le_mul_right _ (by norm_num))
  obtain ⟨N, D, hN, hD, u3, l3⟩ := roundDouble_spec false (a1 * a2) (b1 * b2)
    (Nat.mul_pos ha1 ha2) (Nat.mul_pos hb1 hb2) hsb hsa
  have e53 : 2 ^ 53 - 1 = 9007199254740991 := by norm_num
  rw [e53] at l3
  have hbb : 0 < b1 * b2 := Nat.mul_pos hb1 hb2
  have e51 : 2 ^ 51 - 1 = 2251799813685247 := by norm_num
  unfold Near
  rw [e51]
  refine ⟨N, D, ?_, hD, ?_, ?_⟩
  · rw [e1, e2]
    simp only [Double.mul]
    exact hN
  · apply Nat.le_of_mul_le_mul_right _ hbb
    have hm := Nat.mul_le_mul_right D (Nat.mul_le_mul u1 u2)
    have h3 := Nat.mul_le_mul_right (td * pd) u3
    have hpos : 0 ≤ tn * pn * D * (b1 * b2) := Nat.zero_le _
    linarith [hm, h3, hpos]
  · apply Nat.le_of_mul_le_mul_right _ hbb
    have hm := Nat.mul_le_mul_right D (Nat.mul_le_mul l1 l2)
    have h3 := Nat.mul_le_mul_right (td * pd) l3
    have hpos : 0 ≤ tn * pn * D * (b1 * b2) := Nat.zero_le _
    linarith [hm, h3, hpos]

theorem powTen_number (d : Nat) : powTen (.number (d : Int)) = Math.pow10 d := by
  simp [powTen]

theorem mul_zero_left (a b : Nat) (hb : 0 < b) :
    (Double.finite false 0 1).mul (.finite false a b) = .finite false 0 1 := by
  simp [Double.mul, roundDouble, hb.ne']

/-! ## C18: the rows in double arithmetic -/

set_option maxRecDepth 100000 in
/-- C18 (counterexample): in double arithmetic a balance of 1000049999999999999 units of a
token with 18 decimals is displayed as "1.0001", where the exact quotient rounds to
"1.0000"; and USDT with 1015000 units at the price 1.00 is displayed as "1.0150" with the
USD value "1.01", where 1.0150 times 1.00 rounds to "1.02". -/
theorem C18_rounding_of_doubles_counterexample :
    doubleDisplay.balanceFormatted 1000049999999999999 (.number 18) 4 = "1.0001" ∧
      fixedText 1000049999999999999 (10 ^ 18) 4 = "1.0000" ∧
      tokenItem doubleDisplay (.object scenarioPrices) polygonUsdt 1015000
        = some (.token "USDT" "Tether USD" "1.0150" "1.01") ∧
      readFixed "1.0150" = some (10150, 10000) ∧ readFixed "1.00" = some (100, 100) ∧
      fixedText (10150 * 100) (10000 * 100) 2 = "1.02" := by
  decide

/-- C18 (amended): in the double arithmetic of the page, for a decimal exponent `d` up to 22
and a balance of at most 2^49 units of the last displayed place, the displayed balance, with
any number `k` of decimals (4 in a token row, 6 for a native amount), is the double quotient
rounded half up to `k` decimals; that double is at a relative distance of at most 2^-51 from
`raw / 10^d`, and the displayed balance is `raw / 10^d` itself rounded to `k` decimals
whenever `raw / 10^d` is clear of ties. In a token row whose price is a number between 2^-64
and 2^64, of a value of at most 2^49 cents, the USD value is the double product of the
displayed balance and the price rounded half up to 2 decimals; that double is at a relative
distance of at most 2^-51 from the displayed (already rounded) balance times the price, and
the USD value is that product itself rounded to 2 decimals whenever it is clear of ties. -/
theorem C18_rows_in_double_arithmetic (raw d : Nat) (hd : d ≤ 22) :
    (∀ k, raw * 10 ^ k ≤ 2 ^ 49 * 10 ^ d →
      ∃ N D, (toNumber raw).div (Math.pow10 d) = .finite false N D ∧ 0 < D ∧
        Near N D raw (10 ^ d) ∧
        doubleDisplay.balanceFormatted raw (.number (d : Int)) k = fixedText N D k ∧
        (ClearOfTies raw (10 ^ d) k →
          doubleDisplay.balanceFormatted raw (.number (d : Int)) k
            = fixedText raw (10 ^ d) k)) ∧
    (∀ (entries : String → PriceEntry) (token : Token) (price : String) (pn pd : Nat),
      token.decimals = .number (d : Int) →
      usdPrice (.object entries) token = some (.quoted price) →
      stringToNumber price = roundDouble false pn pd → 0 < pn → 0 < pd →
      pd ≤ 2 ^ 64 * pn → pn ≤ 2 ^ 64 * pd →
      raw * 10 ^ 4 ≤ 2 ^ 49 * 10 ^ d →
      (raw * 10 ^ 4 + 10 ^ d) * (pn * 10 ^ 2) ≤ 2 ^ 49 * (10 ^ 4 * pd) * 10 ^ d →
      ∃ n N D, doubleDisplay.balanceFormatted raw (.number (d : Int)) 4
          = fixedText n (10 ^ 4) 4 ∧
        (stringToNumber (fixedText n (10 ^ 4) 4)).mul (stringToNumber price)
          = .finite false N D ∧ 0 < D ∧
        Near N D (n * pn) (10 ^ 4 * pd) ∧
        tokenItem doubleDisplay (.object entries) token raw
          = some (.token token.symbol token.name (fixedText n (10 ^ 4) 4)
              (fixedText N D 2)) ∧
        (ClearOfTies (n * pn) (10 ^ 4 * pd) 2 →
          tokenItem doubleDisplay (.object entries) token raw
            = some (.token token.symbol token.name (fixedText n (10 ^ 4) 4)
                (fixedText (n * pn) (10 ^ 4 * pd) 2)))) := by
  have hT : 0 < 10 ^ d := by positivity
  have hT22 : 10 ^ d ≤ 10 ^ 22 := Nat.pow_le_pow_right (by norm_num) hd
  have hbf : ∀ k, doubleDisplay.balanceFormatted raw (.number (d : Int)) k
      = toFixed k ((toNumber raw).div (Math.pow10 d)) := by
    intro k
    simp only [doubleDisplay, powTen_number]
  have hrawle : ∀ k, raw * 10 ^ k ≤ 2 ^ 49 * 10 ^ d → raw ≤ 2 ^ 50 * 10 ^ 22 := by
    intro k hsize
    calc raw ≤ raw * 10 ^ k := Nat.le_mul_of_pos_right raw (by positivity)
      _ ≤ 2 ^ 49 * 10 ^ d := hsize
      _ ≤ 2 ^ 50 * 10 ^ 22 := Nat.mul_le_mul (by norm_num) hT22
  constructor
  · intro k hsize
    obtain ⟨N, D, hdiv, hD, hnear⟩ := quotient_near raw d hd (hrawle k hsize)
    obtain ⟨hfix, hclear⟩ := toFixed_rounds N D raw (10 ^ d) k hD hT hnear hsize
    refine ⟨N, D, hdiv, hD, hnear, by rw [hbf, hdiv, hfix], ?_⟩
    intro hc
    rw [hbf, hdiv, hfix, hclear hc]
  · intro entries token price pn pd hdec hprice hvalue hpn hpd hp1 hp2 hsize hcents
    obtain ⟨Nb, Db, hdiv, hDb, hnearb⟩ := quotient_near raw d hd (hrawle 4 hsize)
    obtain ⟨n, htext, _, h1, h2⟩ := toFixed_near Nb Db raw (10 ^ d) 4 hDb hT hnearb hsize
    have hbf4 : doubleDisplay.balanceFormatted raw (.number (d : Int)) 4
        = fixedText n (10 ^ 4) 4 := by rw [hbf, hdiv, htext]
    have hitem : tokenItem doubleDisplay (.object entries) token raw
        = some (.token token.symbol token.name (fixedText n (10 ^ 4) 4)
            (toFixed 2 ((stringToNumber (fixedText n (10 ^ 4) 4)).mul
              (stringToNumber price)))) := by
      simp only [tokenItem, hprice, Option.map_some', tokenRow, hdec, hbf4, usdValue]
      rfl
    have hunit : 0 < 10 ^ 4 * pd := by positivity
    have hn49 : n ≤ 2 ^ 49 := by
      have h3 : n * 10 ^ d < (2 ^ 49 + 1) * 10 ^ d := by
        have e : (2 ^ 49 + 1) * 10 ^ d = 2 ^ 49 * 10 ^ d + 10 ^ d := by ring
        omega
      have := Nat.lt_of_mul_lt_mul_right h3
      omega
    have hcents' : n * pn * 10 ^ 2 ≤ 2 ^ 49 * (10 ^ 4 * pd) := by
      apply Nat.le_of_mul_le_mul_right _ hT
      have h4 : n * 10 ^ d * (pn * 10 ^ 2) ≤ (raw * 10 ^ 4 + 10 ^ d) * (pn * 10 ^ 2) :=
        Nat.mul_le_mul_right _ (le_of_lt h1)
      have e : n * pn * 10 ^ 2 * 10 ^ d = n * 10 ^ d * (pn * 10 ^ 2) := by ring
      rw [e]
      exact le_trans h4 hcents
    have hprod : ∃ N D, (stringToNumber (fixedText n (10 ^ 4) 4)).mul (stringToNumber price)
        = .finite false N D ∧ 0 < D ∧ Near N D (n * pn) (10 ^ 4 * pd) := by
      rw [stringToNumber_fixedText n 4 (by norm_num), hvalue]
      rcases Nat.eq_zero_or_pos n with h0 | hnpos
      · subst h0
        obtain ⟨a, b, e2, _, hb, _⟩ := roundDouble_size pn pd hpn hpd hp1 hp2
        have hz : roundDouble false 0 (10 ^ 4) = .finite false 0 1 := by
          simp [roundDouble]
        refine ⟨0, 1, by rw [hz, e2, mul_zero_left a b hb], one_pos, ?_⟩
        unfold Near
        simp
      · exact mul_near n (10 ^ 4) pn pd hnpos (by positivity) hpn hpd
          (by
            calc 10 ^ 4 ≤ 2 ^ 64 * 1 := by norm_num
              _ ≤ 2 ^ 64 * n := Nat.mul_le_mul_left _ hnpos)
          (by
            calc n ≤ 2 ^ 49 := hn49
              _ ≤ 2 ^ 64 * 10 ^ 4 := by norm_num)
          hp1 hp2
    obtain ⟨N, D, hmul, hD, hnear⟩ := hprod
    obtain ⟨hfix, hclear⟩ := toFixed_rounds N D (n * pn) (10 ^ 4 * pd) 2 hD hunit hnear hcents'
    refine ⟨n, N, D, hbf4, hmul, hD, hnear, by rw [hitem, hmul, hfix], ?_⟩
    intro hc
    rw [hitem, hmul, hfix, hclear hc]

set_option maxRecDepth 100000 in
/-- C18 (witness): the USDT row of the polygon scenario, 1500000 units of a token with 6
decimals at the price 1.00, meets the conditions and is clear of ties, and the rows of the
scenario in double arithmetic are "1.5000" with "1.50" and "0.0000" with "0.00"; 1234567
units of such a token, clear of ties as well, are displayed rounded up, as "1.2346". -/
theorem C18_rows_in_double_arithmetic_witness :
    (6 ≤ 22 ∧ 1500000 * 10 ^ 4 ≤ 2 ^ 49 * 10 ^ 6 ∧ ClearOfTies 1500000 (10 ^ 6) 4) ∧
      doubleDisplay.balanceFormatted 1500000 (.number ((6 : Nat) : Int)) 4
        = fixedText 1500000 (10 ^ 6) 4 ∧
      (ClearOfTies 1234567 (10 ^ 6) 4 ∧
        doubleDisplay.balanceFormatted 1234567 (.number ((6 : Nat) : Int)) 4 = "1.2346") ∧
      (∃ n N D, doubleDisplay.balanceFormatted 1500000 (.number ((6 : Nat) : Int)) 4
          = fixedText n (10 ^ 4) 4 ∧
        (stringToNumber (fixedText n (10 ^ 4) 4)).mul (stringToNumber "1.00")
          = .finite false N D ∧ 0 < D ∧
        Near N D (n * 100) (10 ^ 4 * 100) ∧
        tokenItem doubleDisplay (.object scenarioPrices) polygonUsdt 1500000
          = some (.token polygonUsdt.symbol polygonUsdt.name (fixedText n (10 ^ 4) 4)
              (fixedText N D 2)) ∧
        (ClearOfTies (n * 100) (10 ^ 4 * 100) 2 →
          tokenItem doubleDisplay (.object scenarioPrices) polygonUsdt 1500000
            = some (.token polygonUsdt.symbol polygonUsdt.name (fixedText n (10 ^ 4) 4)
                (fixedText (n * 100) (10 ^ 4 * 100) 2)))) ∧
      tokenItem doubleDisplay (.object scenarioPrices) polygonUsdt 1500000
        = some (.token "USDT" "Tether USD" "1.5000" "1.50") ∧
      tokenItem doubleDisplay (.object scenarioPrices) polygonUsdc 0
        = some (.token "USDC" "USD Coin" "0.0000" "0.00") :=
  ⟨⟨by decide, by decide, ⟨by decide, by decide⟩⟩,
    match (C18_rows_in_double_arithmetic 1500000 6 (by decide)).1 4 (by decide) with
    | ⟨_, _, _, _, _, _, h⟩ => h ⟨by decide, by decide⟩,
    ⟨⟨by decide, by decide⟩,
      match (C18_rows_in_double_arithmetic 1234567 6 (by decide)).1 4 (by decide) with
      | ⟨_, _, _, _, _, _, h⟩ => (h ⟨by decide, by decide⟩).trans (by decide)⟩,
    (C18_rows_in_double_arithmetic 1500000 6 (by decide)).2 scenarioPrices polygonUsdt "1.00"
      100 100 rfl (by decide) (by decide) (by decide) (by decide) (by decide) (by decide)
      (by decide) (by decide),
    by decide, by decide⟩

end MultiChainWallet
